import Mathlib

set_option maxHeartbeats 1000000

/-
Verification of src/src/engine/engine_common.c of the ocf repository.

The engine state is shallowly embedded: the metadata service, free list,
lock managers and the other collaborators declared in the spec are carried
as explicit fields of a Cache record, the request is a Req record, and each
C function becomes a Lean function threading this state.  Functions of the
repository that live outside src (headers and collaborator modules) are
modelled from the spec and carry a doc comment saying so.
-/

namespace OcfEngineCommon

/-- Lookup status of a request map entry (LOOKUP_MISS, LOOKUP_HIT,
LOOKUP_INSERTED, LOOKUP_REMAPPED). -/
inductive LookupStatus where
  | MISS
  | HIT
  | INSERTED
  | REMAPPED
deriving DecidableEq, Repr

/-- Per core-line slot of a request (struct ocf_map_info). -/
structure MapEntry where
  hash : Nat
  status : LookupStatus
  coll_idx : Nat
  core_id : Nat
  core_line : Nat
  re_part : Bool
  invalid : Bool
deriving DecidableEq, Repr

/-- Default map entry used for out-of-range list access. -/
def defEntry : MapEntry :=
  { hash := 0
    status := .MISS
    coll_idx := 0
    core_id := 0
    core_line := 0
    re_part := false
    invalid := false }

/-- Aggregate info of a request (struct ocf_req_info). -/
structure ReqInfo where
  hit_no : Nat
  invalid_no : Nat
  insert_no : Nat
  re_part_no : Nat
  seq_no : Nat
  dirty_any : Nat
  dirty_all : Nat
  mapping_error : Bool
deriving DecidableEq, Repr

/-- Zeroed info record. -/
def ReqInfo.zero : ReqInfo :=
  { hit_no := 0
    invalid_no := 0
    insert_no := 0
    re_part_no := 0
    seq_no := 0
    dirty_any := 0
    dirty_all := 0
    mapping_error := false }

/-- Lock mode declared by the engine callback
(enum ocf_engine_lock_type). -/
inductive LockKind where
  | read
  | write
  | noLock
deriving DecidableEq, Repr

/-- Cache state: the collision hash index, the per-line metadata bits, the
free list, and the oracles standing for the external collaborators of the
spec (promotion policy, eviction policy, cache-line concurrency manager,
partition bookkeeping).  Functions of Nat stand for the dense metadata
arrays; collision_table_entries is the sentinel N. -/
structure Cache where
  collision_table_entries : Nat
  hashFn : Nat → Nat → Nat
  hashHead : Nat → Nat
  collNext : Nat → Nat
  coreIdOf : Nat → Nat
  coreLineOf : Nat → Nat
  validSec : Nat → Nat → Bool
  dirtySec : Nat → Nat → Bool
  partIdOf : Nat → Nat
  lg2phy : Nat → Nat
  lineEndSector : Nat
  freeList : List Nat
  numFreeAdvisory : Nat
  partEnabled : Nat → Bool
  partHasSpaceFn : Nat → Nat → Bool
  promote : Bool
  evictList : List Nat
  asyncLockRd : Int
  asyncLockWr : Int

/-- Request state (struct ocf_request restricted to the fields the engine
core reads and writes).  startSecOf and endSecOf are modelled from the
spec: ocf_map_line_start_sector and ocf_map_line_end_sector (ocf_request.h,
not under src) give the targeted sector range of map entry idx. -/
structure Req where
  core_id : Nat
  core_line_first : Nat
  core_line_count : Nat
  part_id : Nat
  rw : Nat
  map : List MapEntry
  info : ReqInfo
  lockType : LockKind
  resumeCb : Nat
  io_if : Nat
  priv : Option Nat
  error : Int
  part_evict : Bool
  startSecOf : Nat → Nat
  endSecOf : Nat → Nat

/-- Hash-bucket lock counters held by a request plus the global exclusive
metadata lock flag; the request-preparation code is the only writer. -/
structure Locks where
  hbRd : Nat
  hbWr : Nat
  metaX : Bool
deriving DecidableEq, Repr

/-- Direction constant OCF_READ. -/
def OCF_READ : Nat := 0

/-- Direction constant OCF_WRITE. -/
def OCF_WRITE : Nat := 1

/-- Synchronous lock-acquisition success value OCF_LOCK_ACQUIRED; the exact
numeric value is immaterial, only that it is non-negative. -/
def OCF_LOCK_ACQUIRED : Int := 0

/-- Error code OCF_ERR_NO_LOCK; a positive code returned negated. -/
def OCF_ERR_NO_LOCK : Int := 12

/-- Error code OCF_ERR_INVAL. -/
def OCF_ERR_INVAL : Int := 1

/-- Modelled from the spec: ocf_req_clear_info (ocf_request.h, not under
src) zeroes the whole aggregate info of the request, the mapping_error
latch included. -/
def ocf_req_clear_info (req : Req) : Req :=
  { req with info := ReqInfo.zero }

/-- Modelled from the spec: ocf_req_set_mapping_error (ocf_request.h, not
under src) latches the mapping error flag on req.info. -/
def ocf_req_set_mapping_error (req : Req) : Req :=
  { req with info := { req.info with mapping_error := true } }

/-- Modelled from the spec: ocf_req_test_mapping_error reads the latch. -/
def ocf_req_test_mapping_error (req : Req) : Bool :=
  req.info.mapping_error

/-- Modelled from the spec: ocf_engine_mapped_count (engine_common.h, not
under src) is the number of entries accounted as mapped by the info
aggregate. -/
def ocf_engine_mapped_count (req : Req) : Nat :=
  req.info.hit_no + req.info.invalid_no + req.info.insert_no

/-- Modelled from the spec: ocf_engine_unmapped_count (engine_common.h, not
under src). -/
def ocf_engine_unmapped_count (req : Req) : Nat :=
  req.core_line_count - ocf_engine_mapped_count req

/-- Modelled from the spec: ocf_engine_is_mapped (engine_common.h, not
under src) holds when every core line of the request is mapped. -/
def ocf_engine_is_mapped (req : Req) : Bool :=
  ocf_engine_mapped_count req == req.core_line_count

/-- Modelled from the spec (4.5): a request is reported sequential iff
seq_no + 1 equals core_line_count (ocf_engine_is_sequential,
engine_common.h, not under src). -/
def ocf_engine_is_sequential (req : Req) : Bool :=
  req.info.seq_no + 1 == req.core_line_count

/-- Modelled from the spec (6): metadata.valid_sec_test — every targeted
sector of the line in the inclusive sector range is valid. -/
def metadata_test_valid_sec (c : Cache) (line s e : Nat) : Bool :=
  (List.range' s (e + 1 - s)).all (fun k => c.validSec line k)

/-- Modelled from the spec (6): metadata.dirty_test — the line carries at
least one dirty sector. -/
def metadata_test_dirty (c : Cache) (line : Nat) : Bool :=
  (List.range (c.lineEndSector + 1)).any (fun k => c.dirtySec line k)

/-- Modelled from the spec (6): metadata.dirty_sec_test over the whole
inclusive sector range — every targeted sector is dirty. -/
def metadata_test_dirty_all_sec (c : Cache) (line s e : Nat) : Bool :=
  (List.range' s (e + 1 - s)).all (fun k => c.dirtySec line k)

/-- ocf_engine_lookup_map_entry, collision-chain walk: follow collNext from
the given line until the sentinel, returning the first line whose stored
identity matches; fuel bounds the walk. -/
def lookupWalk (c : Cache) (core_id core_line : Nat) : Nat → Nat → Option Nat
  | _, 0 => none
  | line, fuel + 1 =>
    if line = c.collision_table_entries then none
    else if core_id = c.coreIdOf line ∧ c.coreLineOf line = core_line then some line
    else lookupWalk c core_id core_line (c.collNext line) fuel

/-- ocf_engine_lookup_map_entry: initialise the entry to MISS with sentinel
coll_idx and the given identity, then walk the collision chain of bucket
hashFn core_line core_id; the first matching member promotes the entry to
HIT.  The source writes only the entry, so the embedding is pure in the
cache. -/
def ocf_engine_lookup_map_entry (c : Cache) (old : MapEntry)
    (core_id core_line : Nat) : MapEntry :=
  let hash := c.hashFn core_line core_id
  let base : MapEntry :=
    { old with
      hash := hash
      status := .MISS
      coll_idx := c.collision_table_entries
      core_id := core_id
      core_line := core_line }
  match lookupWalk c core_id core_line (c.hashHead hash)
      (c.collision_table_entries + 1) with
  | some line => { base with status := .HIT, coll_idx := line }
  | none => base

/-- _ocf_engine_check_map_entry: 0 when a MISS entry or when the recorded
coll_idx still stores the identity of the entry, otherwise -1. -/
def _ocf_engine_check_map_entry (c : Cache) (entry : MapEntry)
    (core_id : Nat) : Int :=
  if entry.status = .MISS then 0
  else if core_id = c.coreIdOf entry.coll_idx ∧
      c.coreLineOf entry.coll_idx = entry.core_line then 0
  else -1

/-- ocf_engine_clines_phys_cont: entries idx and idx+1 are both non-MISS
and their cache lines are physically adjacent. -/
def ocf_engine_clines_phys_cont (c : Cache) (req : Req) (idx : Nat) : Bool :=
  let e1 := req.map.getD idx defEntry
  let e2 := req.map.getD (idx + 1) defEntry
  if e1.status = .MISS ∨ e2.status = .MISS then false
  else
    let phys1 := c.lg2phy e1.coll_idx
    let phys2 := c.lg2phy e2.coll_idx
    decide (phys1 < phys2 ∧ phys1 + 1 = phys2)

/-- ocf_engine_patch_req_info: account a freshly REMAPPED entry — bump
insert_no and bump seq_no for each of the two adjacent pairs that are now
physically contiguous. -/
def ocf_engine_patch_req_info (c : Cache) (req : Req) (idx : Nat) : Req :=
  let req := { req with info := { req.info with insert_no := req.info.insert_no + 1 } }
  let req :=
    if 0 < idx ∧ ocf_engine_clines_phys_cont c req (idx - 1) then
      { req with info := { req.info with seq_no := req.info.seq_no + 1 } }
    else req
  if idx + 1 < req.core_line_count ∧ ocf_engine_clines_phys_cont c req idx then
    { req with info := { req.info with seq_no := req.info.seq_no + 1 } }
  else req

/-- Switch stage of ocf_engine_update_req_info: the per-status accounting
of the source switch statement.  The REMAPPED case is ENV_BUG in the
source (such entries are accounted via ocf_engine_patch_req_info instead)
and is modelled as leaving the request unchanged. -/
def updateReqInfoSwitch (c : Cache) (req : Req) (idx : Nat) : Req :=
  let start_sector := req.startSecOf idx
  let end_sector := req.endSecOf idx
  let entry := req.map.getD idx defEntry
  match entry.status with
  | .HIT =>
    let info := req.info
    let info :=
      if metadata_test_valid_sec c entry.coll_idx start_sector end_sector then
        { info with hit_no := info.hit_no + 1 }
      else
        { info with invalid_no := info.invalid_no + 1 }
    let info :=
      if metadata_test_dirty c entry.coll_idx then
        let info := { info with dirty_any := info.dirty_any + 1 }
        if metadata_test_dirty_all_sec c entry.coll_idx start_sector end_sector then
          { info with dirty_all := info.dirty_all + 1 }
        else info
      else info
    if req.part_id ≠ c.partIdOf entry.coll_idx then
      { req with
        info := { info with re_part_no := info.re_part_no + 1 }
        map := req.map.set idx { entry with re_part := true } }
    else
      { req with info := info }
  | .INSERTED =>
    { req with info := { req.info with insert_no := req.info.insert_no + 1 } }
  | .MISS => req
  | .REMAPPED => req

/-- ocf_engine_update_req_info: the switch-statement accounting followed by
the sequentiality check of the source. -/
def ocf_engine_update_req_info (c : Cache) (req : Req) (idx : Nat) : Req :=
  let req := updateReqInfoSwitch c req idx
  if 0 < idx ∧ ocf_engine_clines_phys_cont c req (idx - 1) then
    { req with info := { req.info with seq_no := req.info.seq_no + 1 } }
  else req

/-- One iteration of the ocf_engine_traverse loop at index i: look the
core line up in the collision index, store the result in the map, and on a
HIT update the eviction hotness (a no-op on the embedded state, the
eviction recency list is not modelled) and the info aggregate. -/
def traverseStep (c : Cache) (req : Req) (i : Nat) : Req :=
  let e := ocf_engine_lookup_map_entry c (req.map.getD i defEntry)
      req.core_id (req.core_line_first + i)
  let req := { req with map := req.map.set i e }
  if e.status = .HIT then ocf_engine_update_req_info c req i else req

/-- Remaining iterations of the ocf_engine_traverse loop, indices
i, i+1, ... while rem counts down to 0. -/
def traverseFrom (c : Cache) : Nat → Nat → Req → Req
  | 0, _, req => req
  | rem + 1, i, req => traverseFrom c rem (i + 1) (traverseStep c req i)

/-- ocf_engine_traverse: clear the info aggregate, then look up every core
line of the request in order. -/
def ocf_engine_traverse (c : Cache) (req : Req) : Req :=
  traverseFrom c req.core_line_count 0 (ocf_req_clear_info req)

/-- One iteration of the ocf_engine_check loop at index i: skip a MISS
entry; mark a diverged entry invalid and latch result -1; mark a validated
entry not invalid and account it. -/
def checkStep (c : Cache) (acc : Int × Req) (i : Nat) : Int × Req :=
  let result := acc.1
  let req := acc.2
  let entry := req.map.getD i defEntry
  if entry.status = .MISS then (result, req)
  else if _ocf_engine_check_map_entry c entry req.core_id ≠ 0 then
    (-1, { req with map := req.map.set i { entry with invalid := true } })
  else
    let req := { req with map := req.map.set i { entry with invalid := false } }
    (result, ocf_engine_update_req_info c req i)

/-- Remaining iterations of the ocf_engine_check loop. -/
def checkFrom (c : Cache) : Nat → Nat → Int × Req → Int × Req
  | 0, _, acc => acc
  | rem + 1, i, acc => checkFrom c rem (i + 1) (checkStep c acc i)

/-- ocf_engine_check: clear the info aggregate, re-verify every non-MISS
entry against the collision index, and return -1 when any entry diverged,
0 otherwise. -/
def ocf_engine_check (c : Cache) (req : Req) : Int × Req :=
  checkFrom c req.core_line_count 0 (0, ocf_req_clear_info req)

/-- Modelled from the spec (4.1): metadata.add — prepend the line to the
collision chain of the bucket and record its identity
(ocf_metadata_add_to_collision, metadata module, not under src). -/
def ocf_metadata_add_to_collision (c : Cache)
    (core_id core_line hash line : Nat) : Cache :=
  { c with
    coreIdOf := fun l => if l = line then core_id else c.coreIdOf l
    coreLineOf := fun l => if l = line then core_line else c.coreLineOf l
    collNext := fun l => if l = line then c.hashHead hash else c.collNext l
    hashHead := fun b => if b = hash then line else c.hashHead b }

/-- Collision-chain removal walk: prev is a chain member whose successor
chain is searched for the target; fuel bounds the walk
(helper for ocf_metadata_remove_from_collision). -/
def chainRemoveFrom (c : Cache) (target : Nat) : Nat → Nat → Cache
  | _, 0 => c
  | prev, fuel + 1 =>
    let nxt := c.collNext prev
    if nxt = c.collision_table_entries then c
    else if nxt = target then
      { c with collNext := fun l => if l = prev then c.collNext target else c.collNext l }
    else chainRemoveFrom c target nxt fuel

/-- Modelled from the spec (4.1): metadata.remove — unlink the line from
the collision chain of its recorded bucket
(ocf_metadata_remove_from_collision, metadata module, not under src). -/
def ocf_metadata_remove_from_collision (c : Cache) (line : Nat) : Cache :=
  let bucket := c.hashFn (c.coreLineOf line) (c.coreIdOf line)
  let head := c.hashHead bucket
  if head = line then
    { c with hashHead := fun b => if b = bucket then c.collNext line else c.hashHead b }
  else if head = c.collision_table_entries then c
  else chainRemoveFrom c line head (c.collision_table_entries + 1)

/-- Modelled from the spec (4.7 and 3): set_cache_line_invalid_no_flush
(utils_cache_line.c, not under src) over the whole sector range of a line —
every sector becomes invalid, so the mapping of the line is purged from its
collision chain and the line is returned to the free list. -/
def set_cache_line_invalid_no_flush (c : Cache) (line : Nat) : Cache :=
  let c := { c with validSec := fun l s => if l = line then false else c.validSec l s }
  let c := ocf_metadata_remove_from_collision c line
  { c with freeList := c.freeList ++ [line] }

/-- Modelled from the spec (4.2): free_list.take — wait-free pop that
fails on an empty list (ocf_freelist_get_cache_line, not under src). -/
def ocf_freelist_get_cache_line (c : Cache) : Option (Nat × Cache) :=
  match c.freeList with
  | [] => none
  | line :: rest => some (line, { c with freeList := rest })

/-- Modelled from the spec (6): metadata.add_to_partition — record the
partition of the line (metadata module, not under src). -/
def ocf_metadata_add_to_partition (c : Cache) (part line : Nat) : Cache :=
  { c with partIdOf := fun l => if l = line then part else c.partIdOf l }

/-- ocf_map_cache_line: splice the cache line into the collision chain of
the bucket recorded in map entry idx under the identity (core_id,
core_line_first + idx), run the cleaning-policy init hook (a no-op on the
embedded state), and record the line in the map entry. -/
def ocf_map_cache_line (c : Cache) (req : Req) (idx cache_line : Nat) :
    Cache × Req :=
  let hash_index := (req.map.getD idx defEntry).hash
  let core_line := req.core_line_first + idx
  let c := ocf_metadata_add_to_collision c req.core_id core_line hash_index cache_line
  let entry := req.map.getD idx defEntry
  (c, { req with map := req.map.set idx { entry with coll_idx := cache_line } })

/-- ocf_engine_map_cache_line: take a line from the free list (latching the
mapping error on exhaustion), assign it to the partition of the request,
splice it into the collision chain, and initialise the eviction recency
state (a no-op on the embedded state). -/
def ocf_engine_map_cache_line (c : Cache) (req : Req) (idx : Nat) :
    Cache × Req :=
  match ocf_freelist_get_cache_line c with
  | none => (c, ocf_req_set_mapping_error req)
  | some (cache_line, c) =>
    let c := ocf_metadata_add_to_partition c req.part_id cache_line
    ocf_map_cache_line c req idx cache_line

/-- One entry of the ocf_engine_map_hndl_error walk: revert an INSERTED or
REMAPPED entry to MISS and invalidate every sector of its cache line. -/
def hndlErrorStep (acc : Cache × Req) (i : Nat) : Cache × Req :=
  let c := acc.1
  let req := acc.2
  let entry := req.map.getD i defEntry
  match entry.status with
  | .HIT => (c, req)
  | .MISS => (c, req)
  | .INSERTED =>
    let req := { req with map := req.map.set i { entry with status := .MISS } }
    (set_cache_line_invalid_no_flush c entry.coll_idx, req)
  | .REMAPPED =>
    let req := { req with map := req.map.set i { entry with status := .MISS } }
    (set_cache_line_invalid_no_flush c entry.coll_idx, req)

/-- ocf_engine_map_hndl_error: walk the whole map and revert every INSERTED
or REMAPPED entry to MISS, invalidating the sectors of its cache line. -/
def ocf_engine_map_hndl_error (c : Cache) (req : Req) : Cache × Req :=
  (List.range req.core_line_count).foldl hndlErrorStep (c, req)

/-- Remaining iterations of the ocf_engine_map loop: look each core line
up, allocate a fresh line for every non-HIT entry, and on free-list
exhaustion mid-map run ocf_engine_map_hndl_error and stop (the break in the
source). -/
def mapFrom (c : Cache) : Nat → Nat → Req → Cache × Req
  | 0, _, req => (c, req)
  | rem + 1, i, req =>
    let e := ocf_engine_lookup_map_entry c (req.map.getD i defEntry)
        req.core_id (req.core_line_first + i)
    let req := { req with map := req.map.set i e }
    if e.status ≠ .HIT then
      let cr := ocf_engine_map_cache_line c req i
      if ocf_req_test_mapping_error cr.2 then
        ocf_engine_map_hndl_error cr.1 cr.2
      else
        let entry := cr.2.map.getD i defEntry
        let req := { cr.2 with map := cr.2.map.set i { entry with status := .INSERTED } }
        mapFrom cr.1 rem (i + 1) (ocf_engine_update_req_info cr.1 req i)
    else
      mapFrom c rem (i + 1) (ocf_engine_update_req_info c req i)

/-- ocf_engine_map: nothing to do when every line is already mapped; refuse
up front when the advisory free count cannot cover the unmapped lines;
otherwise clear the info aggregate and run the mapping loop.  The
promotion-policy purge on success touches only promotion state and is a
no-op on the embedded state. -/
def ocf_engine_map (c : Cache) (req : Req) : Cache × Req :=
  if ocf_engine_unmapped_count req = 0 then (c, req)
  else if c.numFreeAdvisory < ocf_engine_unmapped_count req then
    (c, ocf_req_set_mapping_error req)
  else
    mapFrom c req.core_line_count 0 (ocf_req_clear_info req)

/-- Modelled from the spec (4.4): ocf_hb_req_prot_lock_rd — take the
read lock on the hash-bucket set of the request (metadata lock module, not
under src); the embedding counts held set-locks. -/
def ocf_hb_req_prot_lock_rd (lk : Locks) : Locks :=
  { lk with hbRd := lk.hbRd + 1 }

/-- Modelled from the spec (4.4): ocf_hb_req_prot_unlock_rd. -/
def ocf_hb_req_prot_unlock_rd (lk : Locks) : Locks :=
  { lk with hbRd := lk.hbRd - 1 }

/-- Modelled from the spec (4.4): ocf_hb_req_prot_lock_upgrade — atomic
upgrade of the whole bucket set from read to write mode. -/
def ocf_hb_req_prot_lock_upgrade (lk : Locks) : Locks :=
  { lk with
    hbRd := lk.hbRd - 1
    hbWr := lk.hbWr + 1 }

/-- Modelled from the spec (4.4): ocf_hb_req_prot_unlock_wr. -/
def ocf_hb_req_prot_unlock_wr (lk : Locks) : Locks :=
  { lk with hbWr := lk.hbWr - 1 }

/-- Modelled from the spec (4.4): ocf_metadata_start_exclusive_access. -/
def ocf_metadata_start_exclusive_access (lk : Locks) : Locks :=
  { lk with metaX := true }

/-- Modelled from the spec (4.4): ocf_metadata_end_exclusive_access. -/
def ocf_metadata_end_exclusive_access (lk : Locks) : Locks :=
  { lk with metaX := false }

/-- Record of one _lock_clines call: the mode the engine callback declared,
the resume callback passed to the cache-line concurrency manager (none for
the synchronous NONE mode) and the returned status. -/
structure LockCall where
  mode : LockKind
  resume : Option Nat
  res : Int
deriving DecidableEq, Repr

/-- _lock_clines: consult the engine callback for the lock mode; NONE
returns OCF_LOCK_ACQUIRED synchronously, READ and WRITE ask the cache-line
concurrency manager (its answer is the corresponding oracle field of the
cache) for an asynchronous lock, passing the resume callback of the
engine. -/
def _lock_clines (c : Cache) (req : Req) : LockCall :=
  match req.lockType with
  | .write => { mode := .write, resume := some req.resumeCb, res := c.asyncLockWr }
  | .read => { mode := .read, resume := some req.resumeCb, res := c.asyncLockRd }
  | .noLock => { mode := .noLock, resume := none, res := OCF_LOCK_ACQUIRED }

/-- Modelled from the spec (6): ocf_part_has_space — the partition of the
request can admit its unmapped lines (utils_part.h, not under src); the
answer is the partHasSpaceFn oracle of the cache applied to the partition
and the unmapped count. -/
def ocf_part_has_space (c : Cache) (req : Req) : Bool :=
  c.partHasSpaceFn req.part_id (ocf_engine_unmapped_count req)

/-- Modelled from the spec: ocf_req_set_part_evict (ocf_request.h, not
under src). -/
def ocf_req_set_part_evict (req : Req) : Req :=
  { req with part_evict := true }

/-- Modelled from the spec: ocf_req_clear_part_evict (ocf_request.h, not
under src). -/
def ocf_req_clear_part_evict (req : Req) : Req :=
  { req with part_evict := false }

/-- Remap one request entry onto an eviction victim, following the spec
(4.3): the victim is removed from its current hash chain, all its sectors
are marked invalid, it is spliced into the chain of the request entry via
ocf_map_cache_line, the entry becomes REMAPPED and
ocf_engine_patch_req_info accounts it. -/
def evictRemapEntry (c : Cache) (req : Req) (idx victim : Nat) : Cache × Req :=
  let c := ocf_metadata_remove_from_collision c victim
  let c := { c with validSec := fun l s => if l = victim then false else c.validSec l s }
  let cr := ocf_map_cache_line c req idx victim
  let entry := cr.2.map.getD idx defEntry
  let req := { cr.2 with map := cr.2.map.set idx { entry with status := .REMAPPED } }
  (cr.1, ocf_engine_patch_req_info cr.1 req idx)

/-- Walk of the eviction remap: every MISS entry in index order is remapped
onto the next victim while victims remain. -/
def evictFrom (c : Cache) : Nat → Nat → List Nat → Req → Cache × Req
  | 0, _, _, req => (c, req)
  | rem + 1, i, victims, req =>
    if (req.map.getD i defEntry).status = .MISS then
      match victims with
      | [] => (c, req)
      | v :: vs =>
        let cr := evictRemapEntry c req i v
        evictFrom cr.1 rem (i + 1) vs cr.2
    else evictFrom c rem (i + 1) victims req

/-- Modelled from the spec (4.3 and 4.8): space_managment_evict_do
(eviction module, not under src).  The victim supply is the evictList
oracle of the cache; when it cannot cover the demanded count the call fails
(LOOKUP_MISS, false here) leaving the request and metadata untouched, and
otherwise it supplies exactly the demanded count of victims, remapping the
MISS entries of the request in index order. -/
def space_managment_evict_do (c : Cache) (req : Req) (count : Nat) :
    Cache × Req × Bool :=
  if c.evictList.length < count then (c, req, false)
  else
    let cr := evictFrom c req.core_line_count 0 (c.evictList.take count) req
    (cr.1, cr.2, true)

/-- Outcome of ocf_prepare_clines_miss: final cache, request and lock
state, the returned status, whether ocf_engine_map ran, and the
_lock_clines call when one was made. -/
structure MissOut where
  cache : Cache
  req : Req
  locks : Locks
  ret : Int
  mapCalled : Bool
  lockCall : Option LockCall

/-- Eviction slow path of ocf_prepare_clines_miss (the code from the
eviction label to the unlock label): take exclusive metadata access,
re-traverse, decide the part_evict flag, evict, re-map and lock, releasing
exclusive access on every exit. -/
def clinesEvictionPath (c : Cache) (req : Req) (lk : Locks)
    (mapCalled : Bool) : MissOut :=
  let lk := ocf_metadata_start_exclusive_access lk
  let req := ocf_engine_traverse c req
  let req :=
    if ¬ ocf_part_has_space c req then ocf_req_set_part_evict req
    else ocf_req_clear_part_evict req
  let crs := space_managment_evict_do c req (ocf_engine_unmapped_count req)
  if crs.2.2 = false then
    { cache := crs.1
      req := ocf_req_set_mapping_error crs.2.1
      locks := ocf_metadata_end_exclusive_access lk
      ret := -OCF_ERR_NO_LOCK
      mapCalled := mapCalled
      lockCall := none }
  else
    let cr := ocf_engine_map crs.1 crs.2.1
    if ocf_req_test_mapping_error cr.2 then
      { cache := cr.1
        req := cr.2
        locks := ocf_metadata_end_exclusive_access lk
        ret := -OCF_ERR_NO_LOCK
        mapCalled := true
        lockCall := none }
    else
      let lc := _lock_clines cr.1 cr.2
      let req := if lc.res < 0 then ocf_req_set_mapping_error cr.2 else cr.2
      { cache := cr.1
        req := req
        locks := ocf_metadata_end_exclusive_access lk
        ret := lc.res
        mapCalled := true
        lockCall := some lc }

/-- ocf_prepare_clines_miss: refuse requests to a disabled partition; when
the partition has space, upgrade the bucket locks, map and lock; on a
mapping failure or a full partition fall to the eviction slow path. -/
def ocf_prepare_clines_miss (c : Cache) (req : Req) (lk : Locks) : MissOut :=
  if ¬ c.partEnabled req.part_id then
    { cache := c
      req := ocf_req_set_mapping_error req
      locks := ocf_hb_req_prot_unlock_rd lk
      ret := -OCF_ERR_NO_LOCK
      mapCalled := false
      lockCall := none }
  else if ¬ ocf_part_has_space c req then
    clinesEvictionPath c req (ocf_hb_req_prot_unlock_rd lk) false
  else
    let lk := ocf_hb_req_prot_lock_upgrade lk
    let cr := ocf_engine_map c req
    if ¬ ocf_req_test_mapping_error cr.2 then
      let lc := _lock_clines cr.1 cr.2
      let req := if lc.res < 0 then ocf_req_set_mapping_error cr.2 else cr.2
      { cache := cr.1
        req := req
        locks := ocf_hb_req_prot_unlock_wr lk
        ret := lc.res
        mapCalled := true
        lockCall := some lc }
    else
      clinesEvictionPath cr.1 cr.2 (ocf_hb_req_prot_unlock_wr lk) true

/-- Outcome of ocf_engine_prepare_clines; promoteQueried records whether
the promotion policy was consulted. -/
structure PrepOut where
  cache : Cache
  req : Req
  locks : Locks
  ret : Int
  promoteQueried : Bool
  mapCalled : Bool
  lockCall : Option LockCall

/-- ocf_engine_prepare_clines: hash the request (the hash fields are
computed on demand in the embedding), read-lock the bucket set, traverse;
a fully mapped request takes the cache-line lock and returns; otherwise
the promotion policy (the promote oracle of the cache) may refuse, and the
miss path runs. -/
def ocf_engine_prepare_clines (c : Cache) (req : Req) (lk : Locks) : PrepOut :=
  let lk := ocf_hb_req_prot_lock_rd lk
  let req := ocf_engine_traverse c req
  if ocf_engine_is_mapped req then
    let lc := _lock_clines c req
    { cache := c
      req := req
      locks := ocf_hb_req_prot_unlock_rd lk
      ret := lc.res
      promoteQueried := false
      mapCalled := false
      lockCall := some lc }
  else if ¬ c.promote then
    { cache := c
      req := ocf_req_set_mapping_error req
      locks := ocf_hb_req_prot_unlock_rd lk
      ret := -OCF_ERR_NO_LOCK
      promoteQueried := true
      mapCalled := false
      lockCall := none }
  else
    let m := ocf_prepare_clines_miss c req lk
    { cache := m.cache
      req := m.req
      locks := m.locks
      ret := m.ret
      promoteQueried := true
      mapCalled := m.mapCalled
      lockCall := m.lockCall }

/-- Iterations of the _ocf_engine_clean_getter loop from getter_item i:
yield the line of the first entry at index at least i whose status is HIT
and whose cache line is dirty, together with the advanced getter_item, or
none past the last such entry; fuel counts the remaining indices plus
one. -/
def cleanGetterFrom (c : Cache) (req : Req) : Nat → Nat → Option (Nat × Nat)
  | _, 0 => none
  | i, fuel + 1 =>
    if i < req.core_line_count then
      let entry := req.map.getD i defEntry
      if entry.status = .HIT ∧ metadata_test_dirty c entry.coll_idx then
        some (entry.coll_idx, i + 1)
      else cleanGetterFrom c req (i + 1) fuel
    else none

/-- _ocf_engine_clean_getter: resume the walk of the map at the stored
getter_item, skipping entries that are not dirty HITs; on success the line
is yielded and getter_item advances past it, otherwise the getter reports
end of items. -/
def _ocf_engine_clean_getter (c : Cache) (req : Req) (item : Nat) :
    Option (Nat × Nat) :=
  cleanGetterFrom c req item (req.core_line_count + 1 - item)

/-- Cleaner attributes assembled by ocf_engine_clean
(struct ocf_cleaner_attribs restricted to the fields the engine sets). -/
structure CleanerAttribs where
  lock_cacheline : Bool
  getter_item : Nat
  count : Nat
deriving DecidableEq, Repr

/-- ocf_engine_clean: build the cleaner attributes — cache-line locking
off, getter cursor at 0, count equal to info.dirty_any — and fire the
external cleaner with them. -/
def ocf_engine_clean (req : Req) : CleanerAttribs :=
  { lock_cacheline := false
    getter_item := 0
    count := req.info.dirty_any }

/-- Observable effects of _ocf_engine_clean_end: whether the cache-line
locks of the request were released, the error the completion callback was
invoked with, whether the request reference was dropped, and whether the
request was re-enqueued at the front of its worker queue. -/
structure CleanEndOut where
  req : Req
  unlocked : Bool
  completed : Option Int
  refDropped : Bool
  pushedFront : Bool

/-- _ocf_engine_clean_end: on error, fold the error into the request,
release the cache-line locks, complete the request with the error and drop
its reference; on success, zero dirty_any and dirty_all and push the
request to the front of its worker queue. -/
def _ocf_engine_clean_end (req : Req) (error : Int) : CleanEndOut :=
  if error ≠ 0 then
    { req := { req with error := Int.lor req.error error }
      unlocked := true
      completed := some error
      refDropped := true
      pushedFront := false }
  else
    { req := { req with info := { req.info with dirty_any := 0, dirty_all := 0 } }
      unlocked := false
      completed := none
      refDropped := false
      pushedFront := true }

/-- Observable effects of _ocf_engine_refresh: the final request, the
dispatched interface and direction when the check passed, the completion
error, and whether the cache-line locks were released and the reference
dropped. -/
structure RefreshOut where
  req : Req
  dispatched : Option (Nat × Nat)
  completed : Option Int
  unlocked : Bool
  refDropped : Bool

/-- _ocf_engine_refresh: re-run ocf_engine_check under the bucket read
locks; when every entry validates, reinstall the io interface parked in
priv and dispatch it by direction; otherwise complete the request with
-OCF_ERR_INVAL, release its cache-line locks and drop its reference.  A
direction other than OCF_READ and OCF_WRITE is ENV_BUG in the source and
dispatches nothing in the model. -/
def _ocf_engine_refresh (c : Cache) (req : Req) : RefreshOut :=
  let rr := ocf_engine_check c req
  if rr.1 = 0 then
    let req := { rr.2 with io_if := rr.2.priv.getD 0, priv := none }
    if req.rw = OCF_READ ∨ req.rw = OCF_WRITE then
      { req := req
        dispatched := some (req.io_if, req.rw)
        completed := none
        unlocked := false
        refDropped := false }
    else
      { req := req
        dispatched := none
        completed := none
        unlocked := false
        refDropped := false }
  else
    let req := { rr.2 with error := -OCF_ERR_INVAL }
    { req := req
      dispatched := none
      completed := some (-OCF_ERR_INVAL)
      unlocked := true
      refDropped := true }

/-- Concrete cache used by witnesses: sentinel 8, two resident lines 0 and
1 holding core lines 10 and 11 of core 0, everything valid and clean, two
free lines. -/
def cacheA : Cache :=
  { collision_table_entries := 8
    hashFn := fun cl cid => (cl + cid) % 4
    hashHead := fun b => if b = 2 then 0 else if b = 3 then 1 else 8
    collNext := fun _ => 8
    coreIdOf := fun l => if l = 0 then 0 else if l = 1 then 0 else 9
    coreLineOf := fun l => if l = 0 then 10 else if l = 1 then 11 else 99
    validSec := fun _ _ => true
    dirtySec := fun l _ => l = 1
    partIdOf := fun _ => 0
    lg2phy := fun l => l
    lineEndSector := 3
    freeList := [5, 6]
    numFreeAdvisory := 2
    partEnabled := fun _ => true
    partHasSpaceFn := fun _ _ => true
    promote := true
    evictList := []
    asyncLockRd := 0
    asyncLockWr := 0 }

/-- Concrete two-line request for core lines 10 and 11 of core 0. -/
def reqA : Req :=
  { core_id := 0
    core_line_first := 10
    core_line_count := 2
    part_id := 0
    rw := 0
    map := [defEntry, defEntry]
    info := ReqInfo.zero
    lockType := .read
    resumeCb := 77
    io_if := 3
    priv := none
    error := 0
    part_evict := false
    startSecOf := fun _ => 0
    endSecOf := fun _ => 3 }

/-- Concrete parked request for the refresh path: both entries HIT on the
resident lines of cacheA, the original io interface 9 parked in priv. -/
def reqW7 : Req :=
  { core_id := 0
    core_line_first := 10
    core_line_count := 2
    part_id := 0
    rw := 0
    map := [{ hash := 2, status := .HIT, coll_idx := 0, core_id := 0,
              core_line := 10, re_part := false, invalid := false },
            { hash := 3, status := .HIT, coll_idx := 1, core_id := 0,
              core_line := 11, re_part := false, invalid := false }]
    info := ReqInfo.zero
    lockType := .read
    resumeCb := 77
    io_if := 3
    priv := some 9
    error := 0
    part_evict := false
    startSecOf := fun _ => 0
    endSecOf := fun _ => 3 }

/-- Concrete cache with empty collision chains, one free line, and a
cache-line write lock that fails with -12. -/
def cacheB : Cache :=
  { cacheA with
    hashHead := fun _ => 8
    freeList := [5]
    numFreeAdvisory := 1
    asyncLockWr := -12 }

/-- Concrete cache refusing promotion. -/
def cacheG : Cache :=
  { cacheA with
    hashHead := fun _ => 8
    promote := false }

/-- Concrete one-line write request for the unmapped core line 100. -/
def reqB : Req :=
  { reqA with
    core_line_first := 100
    core_line_count := 1
    map := [defEntry]
    lockType := .write }

/-- Index range [s, s + n). -/
def idxs : Nat → Nat → List Nat
  | _, 0 => []
  | s, n + 1 => s :: idxs (s + 1) n

/-- Number of members of a list satisfying a Bool predicate. -/
def countIf (p : Nat → Bool) : List Nat → Nat
  | [] => 0
  | a :: t => (if p a then 1 else 0) + countIf p t

/-- Status of the entry of req at index i. -/
def statusAt (req : Req) (i : Nat) : LookupStatus :=
  (req.map.getD i defEntry).status

/-- Members of a collision chain starting at line, in walk order, cut off
by fuel. -/
def chainList (c : Cache) : Nat → Nat → List Nat
  | _, 0 => []
  | line, fuel + 1 =>
    if line = c.collision_table_entries then []
    else line :: chainList c (c.collNext line) fuel

/-- The chain starting at line reaches the sentinel within fuel steps. -/
def chainNilWithin (c : Cache) : Nat → Nat → Bool
  | line, 0 => line == c.collision_table_entries
  | line, fuel + 1 =>
    line == c.collision_table_entries ||
      chainNilWithin c (c.collNext line) fuel

/-- Identity match used by the collision-chain walk. -/
def chainMatches (c : Cache) (cid cl line : Nat) : Bool :=
  decide (cid = c.coreIdOf line ∧ c.coreLineOf line = cl)

/-- Collision chain of the bucket of (core_id, core_line), walked with the
fuel the embedding gives the lookup. -/
def bucketChainOf (c : Cache) (cid cl : Nat) : List Nat :=
  chainList c (c.hashHead (c.hashFn cl cid)) (c.collision_table_entries + 1)

/-- Coll index of the entry of req at index i. -/
def collAt (req : Req) (i : Nat) : Nat :=
  (req.map.getD i defEntry).coll_idx

/-- Fields of a request that the traversal, mapping and check loops never
write. -/
def sameSkeleton (a b : Req) : Prop :=
  a.core_id = b.core_id ∧ a.core_line_first = b.core_line_first ∧
  a.core_line_count = b.core_line_count ∧ a.part_id = b.part_id ∧
  a.rw = b.rw ∧ a.lockType = b.lockType ∧ a.resumeCb = b.resumeCb ∧
  a.io_if = b.io_if ∧ a.priv = b.priv ∧ a.error = b.error ∧
  a.part_evict = b.part_evict ∧
  a.startSecOf = b.startSecOf ∧ a.endSecOf = b.endSecOf

/-- Concrete one-entry request whose entry is a HIT on line 0. -/
def reqHitW : Req :=
  { reqA with
    core_line_count := 1
    map := [{ defEntry with status := .HIT, coll_idx := 0, core_line := 10 }] }

/-- Lookup of request entry i as performed by the traversal and mapping
loops. -/
def lookAt (c : Cache) (req : Req) (i : Nat) : MapEntry :=
  ocf_engine_lookup_map_entry c (req.map.getD i defEntry) req.core_id
    (req.core_line_first + i)

/-- Entry j is a HIT with every targeted sector valid. -/
def pHit (c : Cache) (r : Req) (j : Nat) : Bool :=
  decide (statusAt r j = .HIT) &&
    metadata_test_valid_sec c (collAt r j) (r.startSecOf j) (r.endSecOf j)

/-- Entry j is a HIT with a stale targeted sector. -/
def pInvalid (c : Cache) (r : Req) (j : Nat) : Bool :=
  decide (statusAt r j = .HIT) &&
    !(metadata_test_valid_sec c (collAt r j) (r.startSecOf j) (r.endSecOf j))

/-- Entry j is a HIT on a dirty line. -/
def pDirtyAny (c : Cache) (r : Req) (j : Nat) : Bool :=
  decide (statusAt r j = .HIT) && metadata_test_dirty c (collAt r j)

/-- Entry j is a HIT on a dirty line with every targeted sector dirty. -/
def pDirtyAll (c : Cache) (r : Req) (j : Nat) : Bool :=
  decide (statusAt r j = .HIT) && metadata_test_dirty c (collAt r j) &&
    metadata_test_dirty_all_sec c (collAt r j) (r.startSecOf j) (r.endSecOf j)

/-- Entry j is a HIT closing a physically contiguous pair (j-1, j). -/
def pSeqT (c : Cache) (r : Req) (j : Nat) : Bool :=
  decide (statusAt r j = .HIT) && decide (0 < j) &&
    ocf_engine_clines_phys_cont c r (j - 1)

/-- Number of MISS entries of a request. -/
def missCount (r : Req) : Nat :=
  countIf (fun j => decide (statusAt r j = .MISS)) (idxs 0 r.core_line_count)

/-- Single-line request whose core line is resident nowhere: all chains
are empty. -/
def cacheF : Cache :=
  { cacheA with hashHead := fun _ => 8 }

/-- One-line request, used by the sequentiality counterexample. -/
def reqOne : Req :=
  { reqA with
    core_line_count := 1
    map := [defEntry] }

/-- All-unlocked lock state: no hash-bucket locks, no exclusive metadata
access. -/
def locksFree : Locks :=
  { hbRd := 0, hbWr := 0, metaX := false }

/-- Entry j is a dirty HIT: what the cleaner getter yields. -/
def pClean (c : Cache) (req : Req) (j : Nat) : Bool :=
  decide (statusAt req j = .HIT) && metadata_test_dirty c (collAt req j)

/-- Repeated application of the cleaner getter from cursor i, collecting
the yielded lines; fuel bounds the number of yields. -/
def cleanStream (c : Cache) (req : Req) : Nat → Nat → List Nat
  | _, 0 => []
  | i, f + 1 =>
    match _ocf_engine_clean_getter c req i with
    | none => []
    | some li => li.1 :: cleanStream c req li.2 f

/-- Core line recorded in the entry of req at index j. -/
def coreLineAt (req : Req) (j : Nat) : Nat :=
  (req.map.getD j defEntry).core_line

/-- Invalid flag of the entry of req at index j. -/
def invalidAt (req : Req) (j : Nat) : Bool :=
  (req.map.getD j defEntry).invalid

/-- Entry j of the request still validates against the collision index. -/
def pOkB (c : Cache) (r : Req) (j : Nat) : Bool :=
  decide (_ocf_engine_check_map_entry c (r.map.getD j defEntry) r.core_id = 0)

/-- The part_evict flag decision of the eviction slow path. -/
def partFlagged (c : Cache) (r : Req) : Req :=
  if ¬ ocf_part_has_space c r then ocf_req_set_part_evict r
  else ocf_req_clear_part_evict r

theorem countIf_le_length (p : Nat → Bool) (l : List Nat) :
    countIf p l ≤ l.length := by
  induction l with
  | nil => simp [countIf]
  | cons a t ih =>
    simp only [countIf, List.length_cons]
    split <;> omega

theorem countIf_congr {p q : Nat → Bool} {l : List Nat}
    (h : ∀ x ∈ l, p x = q x) : countIf p l = countIf q l := by
  induction l with
  | nil => rfl
  | cons a t ih =>
    simp only [countIf, h a (by simp)]
    rw [ih (fun x hx => h x (by simp [hx]))]

theorem countIf_eq_length_iff {p : Nat → Bool} {l : List Nat} :
    countIf p l = l.length ↔ ∀ x ∈ l, p x = true := by
  induction l with
  | nil => simp [countIf]
  | cons a t ih =>
    simp only [countIf, List.length_cons, List.mem_cons]
    constructor
    · intro h
      have hle := countIf_le_length p t
      have ha : p a = true := by
        by_contra hna
        simp [hna] at h
        omega
      have ht : countIf p t = t.length := by
        simp [ha] at h
        omega
      intro x hx
      rcases hx with hx | hx
      · exact hx ▸ ha
      · exact ih.mp ht x hx
    · intro h
      have ha : p a = true := h a (Or.inl rfl)
      have ht : countIf p t = t.length := ih.mpr (fun x hx => h x (Or.inr hx))
      simp [ha, ht]
      omega

theorem countIf_mono {p q : Nat → Bool} {l : List Nat}
    (h : ∀ x ∈ l, q x = true → p x = true) : countIf q l ≤ countIf p l := by
  induction l with
  | nil => simp [countIf]
  | cons a t ih =>
    simp only [countIf]
    have ht := ih (fun x hx => h x (by simp [hx]))
    by_cases hq : q a = true
    · simp [hq, h a (by simp) hq]
      omega
    · simp only [Bool.not_eq_true] at hq
      simp [hq]
      split <;> omega

theorem countIf_binary {p q : Nat → Bool} {l : List Nat}
    (hcov : ∀ x ∈ l, p x = true ∨ q x = true)
    (hdis : ∀ x ∈ l, ¬(p x = true ∧ q x = true)) :
    countIf p l + countIf q l = l.length := by
  induction l with
  | nil => simp [countIf]
  | cons a t ih =>
    simp only [countIf, List.length_cons]
    have ht := ih (fun x hx => hcov x (by simp [hx])) (fun x hx => hdis x (by simp [hx]))
    rcases hcov a (by simp) with ha | ha
    · have : ¬ q a = true := fun hq => hdis a (by simp) ⟨ha, hq⟩
      simp [ha, this]
      omega
    · have : ¬ p a = true := fun hp => hdis a (by simp) ⟨hp, ha⟩
      simp [ha, this]
      omega

theorem countIf_split (p q : Nat → Bool) (l : List Nat) :
    countIf (fun x => p x && q x) l + countIf (fun x => p x && !q x) l =
      countIf p l := by
  induction l with
  | nil => simp [countIf]
  | cons a t ih =>
    simp only [countIf]
    by_cases hp : p a = true
    · by_cases hq : q a = true
      · simp [hp, hq]
        omega
      · simp only [Bool.not_eq_true] at hq
        simp [hp, hq]
        omega
    · simp only [Bool.not_eq_true] at hp
      simp [hp]
      omega

theorem idxs_length (s n : Nat) : (idxs s n).length = n := by
  induction n generalizing s with
  | zero => rfl
  | succ m ih => simp [idxs, ih]

theorem mem_idxs {x s n : Nat} : x ∈ idxs s n ↔ s ≤ x ∧ x < s + n := by
  induction n generalizing s with
  | zero => simp [idxs]
  | succ m ih =>
    simp only [idxs, List.mem_cons, ih]
    omega

theorem countIf_idxs_shift (G : Nat → Bool) (s n : Nat) :
    countIf (fun j => G (j - 1)) (idxs (s + 1) n) = countIf G (idxs s n) := by
  induction n generalizing s with
  | zero => rfl
  | succ m ih =>
    simp only [idxs, countIf, Nat.add_sub_cancel]
    rw [ih]

theorem lookup_entry_fields (c : Cache) (old : MapEntry) (cid cl : Nat) :
    (ocf_engine_lookup_map_entry c old cid cl).core_id = cid ∧
    (ocf_engine_lookup_map_entry c old cid cl).core_line = cl ∧
    (ocf_engine_lookup_map_entry c old cid cl).hash = c.hashFn cl cid ∧
    (ocf_engine_lookup_map_entry c old cid cl).re_part = old.re_part ∧
    (ocf_engine_lookup_map_entry c old cid cl).invalid = old.invalid := by
  unfold ocf_engine_lookup_map_entry
  cases h : lookupWalk c cid cl (c.hashHead (c.hashFn cl cid))
      (c.collision_table_entries + 1) <;> simp [h]

theorem lookup_entry_status (c : Cache) (old : MapEntry) (cid cl : Nat) :
    (ocf_engine_lookup_map_entry c old cid cl).status = .HIT ∨
    (ocf_engine_lookup_map_entry c old cid cl).status = .MISS := by
  unfold ocf_engine_lookup_map_entry
  cases h : lookupWalk c cid cl (c.hashHead (c.hashFn cl cid))
      (c.collision_table_entries + 1) <;> simp [h]

theorem lookup_entry_indep (c : Cache) (old other : MapEntry) (cid cl : Nat) :
    (ocf_engine_lookup_map_entry c old cid cl).status =
      (ocf_engine_lookup_map_entry c other cid cl).status ∧
    (ocf_engine_lookup_map_entry c old cid cl).coll_idx =
      (ocf_engine_lookup_map_entry c other cid cl).coll_idx := by
  unfold ocf_engine_lookup_map_entry
  cases h : lookupWalk c cid cl (c.hashHead (c.hashFn cl cid))
      (c.collision_table_entries + 1) <;> simp [h]

theorem lookupWalk_eq_find (c : Cache) (cid cl : Nat) :
    ∀ fuel line, chainNilWithin c line fuel = true →
      lookupWalk c cid cl line fuel =
        (chainList c line fuel).find? (chainMatches c cid cl) := by
  intro fuel
  induction fuel with
  | zero =>
    intro line h
    simp [chainList, lookupWalk]
  | succ f ih =>
    intro line h
    simp only [chainNilWithin, Bool.or_eq_true, beq_iff_eq] at h
    by_cases hline : line = c.collision_table_entries
    · simp [lookupWalk, chainList, hline]
    · have hnext : chainNilWithin c (c.collNext line) f = true := by
        rcases h with h | h
        · exact absurd h hline
        · exact h
      simp only [lookupWalk, chainList, if_neg hline]
      by_cases hm : cid = c.coreIdOf line ∧ c.coreLineOf line = cl
      · rw [if_pos hm, List.find?_cons_of_pos]
        simp [chainMatches, hm]
      · rw [if_neg hm, List.find?_cons_of_neg, ih _ hnext]
        simp [chainMatches, hm]

/-- C8: the per-entry lookup initialises the entry to MISS with the
sentinel coll_idx and the given identity, walks the collision chain of
bucket hashFn core_line core_id from its head, stops at the first chain
member whose stored identity matches — promoting the entry to HIT with
that line as coll_idx — and leaves the entry MISS with the sentinel when
no member matches.  The source writes only the map entry, so the embedded
lookup is a pure function of the cache and touches no hash chain. -/
theorem lookup_map_entry_spec (c : Cache) (old : MapEntry) (cid cl : Nat)
    (hterm : chainNilWithin c (c.hashHead (c.hashFn cl cid))
      (c.collision_table_entries + 1) = true) :
    (ocf_engine_lookup_map_entry c old cid cl).core_id = cid ∧
    (ocf_engine_lookup_map_entry c old cid cl).core_line = cl ∧
    (ocf_engine_lookup_map_entry c old cid cl).hash = c.hashFn cl cid ∧
    (∀ line, (bucketChainOf c cid cl).find? (chainMatches c cid cl) = some line →
      (ocf_engine_lookup_map_entry c old cid cl).status = .HIT ∧
      (ocf_engine_lookup_map_entry c old cid cl).coll_idx = line) ∧
    ((bucketChainOf c cid cl).find? (chainMatches c cid cl) = none →
      (ocf_engine_lookup_map_entry c old cid cl).status = .MISS ∧
      (ocf_engine_lookup_map_entry c old cid cl).coll_idx =
        c.collision_table_entries) := by
  have hw := lookupWalk_eq_find c cid cl (c.collision_table_entries + 1)
      (c.hashHead (c.hashFn cl cid)) hterm
  refine ⟨(lookup_entry_fields c old cid cl).1,
    (lookup_entry_fields c old cid cl).2.1,
    (lookup_entry_fields c old cid cl).2.2.1, ?_, ?_⟩
  · intro line hfind
    unfold bucketChainOf at hfind
    simp [ocf_engine_lookup_map_entry, hw, hfind]
  · intro hfind
    unfold bucketChainOf at hfind
    simp [ocf_engine_lookup_map_entry, hw, hfind]

/-- Witness for lookup_map_entry_spec: on the concrete cache, looking core
line 10 of core 0 up terminates and yields a HIT at line 0. -/
theorem lookup_map_entry_spec_witness :
    chainNilWithin cacheA (cacheA.hashHead (cacheA.hashFn 10 0)) 9 = true ∧
    (ocf_engine_lookup_map_entry cacheA defEntry 0 10).status = .HIT ∧
    (ocf_engine_lookup_map_entry cacheA defEntry 0 10).coll_idx = 0 := by
  have hterm : chainNilWithin cacheA (cacheA.hashHead (cacheA.hashFn 10 0))
      (cacheA.collision_table_entries + 1) = true := by decide
  have hfind : (bucketChainOf cacheA 0 10).find? (chainMatches cacheA 0 10) =
      some 0 := by decide
  refine ⟨hterm, (lookup_map_entry_spec cacheA defEntry 0 10 hterm).2.2.2.1 0 hfind⟩

theorem getD_set_self {α : Type} (l : List α) (i : Nat) (a d : α)
    (h : i < l.length) : (l.set i a).getD i d = a := by
  induction l generalizing i with
  | nil => simp at h
  | cons b t ih =>
    cases i with
    | zero => rfl
    | succ k =>
      simp only [List.set, List.getD, List.get?]
      have := ih k (by simpa using h)
      simpa [List.getD] using this

theorem getD_set_ne {α : Type} (l : List α) {i j : Nat} (a d : α)
    (h : i ≠ j) : (l.set i a).getD j d = l.getD j d := by
  induction l generalizing i j with
  | nil => simp
  | cons b t ih =>
    cases i with
    | zero =>
      cases j with
      | zero => exact absurd rfl h
      | succ m => rfl
    | succ k =>
      cases j with
      | zero => rfl
      | succ m =>
        simp only [List.set, List.getD, List.get?]
        have := @ih k m (fun hk => h (by rw [hk]))
        simpa [List.getD] using this

theorem getD_default_of_le {α : Type} (l : List α) {i : Nat} (d : α)
    (h : l.length ≤ i) : l.getD i d = d := by
  induction l generalizing i with
  | nil => simp [List.getD]
  | cons b t ih =>
    cases i with
    | zero => simp at h
    | succ k =>
      simp only [List.getD, List.get?]
      have := @ih k (by simpa using h)
      simpa [List.getD] using this

theorem sameSkeleton_refl (a : Req) : sameSkeleton a a := by
  simp [sameSkeleton]

theorem sameSkeleton_trans {a b c : Req} (h1 : sameSkeleton a b)
    (h2 : sameSkeleton b c) : sameSkeleton a c := by
  unfold sameSkeleton at h1 h2 ⊢
  obtain ⟨a1, a2, a3, a4, a5, a6, a7, a8, a9, a10, a11, a12, a13⟩ := h1
  obtain ⟨b1, b2, b3, b4, b5, b6, b7, b8, b9, b10, b11, b12, b13⟩ := h2
  exact ⟨a1.trans b1, a2.trans b2, a3.trans b3, a4.trans b4, a5.trans b5,
    a6.trans b6, a7.trans b7, a8.trans b8, a9.trans b9, a10.trans b10,
    a11.trans b11, a12.trans b12, a13.trans b13⟩

theorem patch_req_info_skel (c : Cache) (req : Req) (idx : Nat) :
    sameSkeleton (ocf_engine_patch_req_info c req idx) req := by
  unfold ocf_engine_patch_req_info
  dsimp only
  split_ifs <;> simp [sameSkeleton]

/-- The physical-contiguity test reads only the map. -/
theorem physCont_congr (c : Cache) {r1 r2 : Req} (h : r1.map = r2.map)
    (i : Nat) :
    ocf_engine_clines_phys_cont c r1 i = ocf_engine_clines_phys_cont c r2 i := by
  simp [ocf_engine_clines_phys_cont, h]

/-- Overwriting one entry with an entry of the same status and coll index
does not change the physical-contiguity test. -/
theorem physCont_set_same (c : Cache) (req : Req) {r2 : Req} {idx : Nat}
    {e : MapEntry} (hm : r2.map = req.map.set idx e)
    (hs : e.status = (req.map.getD idx defEntry).status)
    (hc : e.coll_idx = (req.map.getD idx defEntry).coll_idx) (i : Nat) :
    ocf_engine_clines_phys_cont c r2 i = ocf_engine_clines_phys_cont c req i := by
  have hget : ∀ j, ((r2.map.getD j defEntry)).status =
      ((req.map.getD j defEntry)).status ∧
      ((r2.map.getD j defEntry)).coll_idx =
      ((req.map.getD j defEntry)).coll_idx := by
    intro j
    rw [hm]
    by_cases hj : j = idx
    · subst hj
      by_cases hlt : j < req.map.length
      · rw [getD_set_self _ _ _ _ hlt]
        exact ⟨hs, hc⟩
      · rw [List.set_eq_of_length_le (Nat.le_of_not_lt hlt)]
        exact ⟨rfl, rfl⟩
    · rw [getD_set_ne _ _ _ (fun h => hj h.symm)]
      exact ⟨rfl, rfl⟩
  unfold ocf_engine_clines_phys_cont
  simp only [(hget i).1, (hget (i + 1)).1, (hget i).2, (hget (i + 1)).2]

/-- The physical-contiguity test depends only on the statuses and coll
indexes of the entries. -/
theorem physCont_pointwise (c : Cache) {r1 r2 : Req}
    (h : ∀ j, statusAt r1 j = statusAt r2 j ∧ collAt r1 j = collAt r2 j)
    (i : Nat) :
    ocf_engine_clines_phys_cont c r1 i = ocf_engine_clines_phys_cont c r2 i := by
  unfold ocf_engine_clines_phys_cont
  have hs := fun j => (h j).1
  have hc := fun j => (h j).2
  unfold statusAt at hs
  unfold collAt at hc
  simp only [hs, hc]

/-- The switch stage either leaves the map alone or re-sets entry idx with
only its re_part flag raised. -/
theorem switch_map_cases (c : Cache) (req : Req) (idx : Nat) :
    (updateReqInfoSwitch c req idx).map = req.map ∨
    (updateReqInfoSwitch c req idx).map =
      req.map.set idx { req.map.getD idx defEntry with re_part := true } := by
  unfold updateReqInfoSwitch
  cases h : (req.map.getD idx defEntry).status <;> simp only [h] <;>
    try exact Or.inl trivial
  case HIT =>
    try dsimp only
    split_ifs <;> first | exact Or.inl rfl | exact Or.inr rfl

theorem switch_info_invariants (c : Cache) (req : Req) (idx : Nat) :
    (updateReqInfoSwitch c req idx).info.seq_no = req.info.seq_no ∧
    (updateReqInfoSwitch c req idx).info.mapping_error =
      req.info.mapping_error := by
  unfold updateReqInfoSwitch
  cases h : (req.map.getD idx defEntry).status <;> simp only [h] <;>
    try exact ⟨trivial, trivial⟩
  case HIT =>
    try dsimp only
    split_ifs <;> exact ⟨rfl, rfl⟩

/-- The switch stage never changes a status or a coll index, touches no
entry other than idx, and preserves seq_no and the mapping-error latch. -/
theorem switch_shape (c : Cache) (req : Req) (idx : Nat) :
    (updateReqInfoSwitch c req idx).map.length = req.map.length ∧
    (∀ j, statusAt (updateReqInfoSwitch c req idx) j = statusAt req j ∧
      collAt (updateReqInfoSwitch c req idx) j = collAt req j) ∧
    (∀ j, j ≠ idx →
      (updateReqInfoSwitch c req idx).map.getD j defEntry =
        req.map.getD j defEntry) ∧
    (updateReqInfoSwitch c req idx).info.seq_no = req.info.seq_no ∧
    (updateReqInfoSwitch c req idx).info.mapping_error =
      req.info.mapping_error := by
  have hinv := switch_info_invariants c req idx
  rcases switch_map_cases c req idx with hm | hm
  · refine ⟨by rw [hm], fun j => ?_, fun j hj => by rw [hm], hinv.1, hinv.2⟩
    unfold statusAt collAt
    rw [hm]
    exact ⟨rfl, rfl⟩
  · refine ⟨by rw [hm, List.length_set], fun j => ?_, fun j hj => ?_,
      hinv.1, hinv.2⟩
    · unfold statusAt collAt
      rw [hm]
      by_cases hj : j = idx
      · subst hj
        by_cases hlt : j < req.map.length
        · rw [getD_set_self _ _ _ _ hlt]
          exact ⟨rfl, rfl⟩
        · rw [List.set_eq_of_length_le (Nat.le_of_not_lt hlt)]
          exact ⟨rfl, rfl⟩
      · rw [getD_set_ne req.map _ defEntry (fun he => hj he.symm)]
        exact ⟨rfl, rfl⟩
    · rw [hm, getD_set_ne req.map _ defEntry (fun he => hj he.symm)]

theorem switch_skel (c : Cache) (req : Req) (idx : Nat) :
    sameSkeleton (updateReqInfoSwitch c req idx) req := by
  unfold updateReqInfoSwitch
  cases h : (req.map.getD idx defEntry).status <;> simp only [h] <;>
    try exact sameSkeleton_refl req
  case HIT =>
    try dsimp only
    split_ifs <;> simp [sameSkeleton]

/-- The sequentiality stage on top of the switch stage: projections. -/
theorem update_after_switch (c : Cache) (req : Req) (idx : Nat) :
    (ocf_engine_update_req_info c req idx).map =
      (updateReqInfoSwitch c req idx).map ∧
    (ocf_engine_update_req_info c req idx).info.hit_no =
      (updateReqInfoSwitch c req idx).info.hit_no ∧
    (ocf_engine_update_req_info c req idx).info.invalid_no =
      (updateReqInfoSwitch c req idx).info.invalid_no ∧
    (ocf_engine_update_req_info c req idx).info.insert_no =
      (updateReqInfoSwitch c req idx).info.insert_no ∧
    (ocf_engine_update_req_info c req idx).info.dirty_any =
      (updateReqInfoSwitch c req idx).info.dirty_any ∧
    (ocf_engine_update_req_info c req idx).info.dirty_all =
      (updateReqInfoSwitch c req idx).info.dirty_all ∧
    (ocf_engine_update_req_info c req idx).info.re_part_no =
      (updateReqInfoSwitch c req idx).info.re_part_no ∧
    (ocf_engine_update_req_info c req idx).info.mapping_error =
      (updateReqInfoSwitch c req idx).info.mapping_error := by
  unfold ocf_engine_update_req_info
  try dsimp only
  split <;> simp

theorem update_skel (c : Cache) (req : Req) (idx : Nat) :
    sameSkeleton (ocf_engine_update_req_info c req idx) req := by
  refine sameSkeleton_trans ?_ (switch_skel c req idx)
  unfold ocf_engine_update_req_info
  try dsimp only
  split <;> simp [sameSkeleton]

/-- Shape facts of ocf_engine_update_req_info. -/
theorem update_shape (c : Cache) (req : Req) (idx : Nat) :
    (ocf_engine_update_req_info c req idx).map.length = req.map.length ∧
    (∀ j, statusAt (ocf_engine_update_req_info c req idx) j = statusAt req j ∧
      collAt (ocf_engine_update_req_info c req idx) j = collAt req j) ∧
    (∀ j, j ≠ idx →
      (ocf_engine_update_req_info c req idx).map.getD j defEntry =
        req.map.getD j defEntry) ∧
    (ocf_engine_update_req_info c req idx).info.mapping_error =
      req.info.mapping_error := by
  have hm := (update_after_switch c req idx).1
  have hs := switch_shape c req idx
  refine ⟨?_, ?_, ?_, ?_⟩
  · rw [hm]
    exact hs.1
  · intro j
    unfold statusAt collAt
    rw [hm]
    exact (hs.2.1 j)
  · intro j hj
    rw [hm]
    exact hs.2.2.1 j hj
  · rw [(update_after_switch c req idx).2.2.2.2.2.2.2]
    exact hs.2.2.2.2

/-- Switch stage on a HIT entry: the sector, dirty and partition
accounting of the source. -/
theorem switch_hit (c : Cache) (req : Req) (idx : Nat)
    (h : statusAt req idx = .HIT) :
    (updateReqInfoSwitch c req idx).info.hit_no =
      req.info.hit_no +
        (if metadata_test_valid_sec c (collAt req idx)
            (req.startSecOf idx) (req.endSecOf idx) then 1 else 0) ∧
    (updateReqInfoSwitch c req idx).info.invalid_no =
      req.info.invalid_no +
        (if metadata_test_valid_sec c (collAt req idx)
            (req.startSecOf idx) (req.endSecOf idx) then 0 else 1) ∧
    (updateReqInfoSwitch c req idx).info.dirty_any =
      req.info.dirty_any +
        (if metadata_test_dirty c (collAt req idx) then 1 else 0) ∧
    (updateReqInfoSwitch c req idx).info.dirty_all =
      req.info.dirty_all +
        (if metadata_test_dirty c (collAt req idx) ∧
            metadata_test_dirty_all_sec c (collAt req idx)
              (req.startSecOf idx) (req.endSecOf idx) then 1 else 0) ∧
    (updateReqInfoSwitch c req idx).info.re_part_no =
      req.info.re_part_no +
        (if req.part_id ≠ c.partIdOf (collAt req idx) then 1 else 0) ∧
    (req.part_id ≠ c.partIdOf (collAt req idx) →
      ((updateReqInfoSwitch c req idx).map.getD idx defEntry).re_part = true) ∧
    (updateReqInfoSwitch c req idx).info.insert_no = req.info.insert_no := by
  unfold statusAt at h
  have hlt : idx < req.map.length := by
    by_contra hge
    rw [getD_default_of_le req.map defEntry (Nat.le_of_not_lt hge)] at h
    simp [defEntry] at h
  unfold updateReqInfoSwitch collAt
  simp only [h]
  try dsimp only
  split_ifs <;> simp_all [getD_set_self req.map idx _ defEntry hlt]

/-- Switch stage on an INSERTED entry: only insert_no is bumped. -/
theorem switch_inserted (c : Cache) (req : Req) (idx : Nat)
    (h : statusAt req idx = .INSERTED) :
    updateReqInfoSwitch c req idx =
      { req with info := { req.info with insert_no := req.info.insert_no + 1 } } := by
  unfold statusAt at h
  unfold updateReqInfoSwitch
  simp only [h]

/-- Switch stage on a MISS or REMAPPED entry: the request is untouched. -/
theorem switch_misslike (c : Cache) (req : Req) (idx : Nat)
    (h : statusAt req idx = .MISS ∨ statusAt req idx = .REMAPPED) :
    updateReqInfoSwitch c req idx = req := by
  unfold statusAt at h
  unfold updateReqInfoSwitch
  rcases h with h | h <;> simp only [h]

/-- Seq accounting of ocf_engine_update_req_info: seq_no is bumped exactly
when idx is positive and the pair ending at idx is physically
contiguous. -/
theorem update_seq_delta (c : Cache) (req : Req) (idx : Nat) :
    (ocf_engine_update_req_info c req idx).info.seq_no =
      req.info.seq_no +
        (if 0 < idx ∧ ocf_engine_clines_phys_cont c req (idx - 1) then 1
         else 0) := by
  have hcond : ocf_engine_clines_phys_cont c (updateReqInfoSwitch c req idx)
      (idx - 1) = ocf_engine_clines_phys_cont c req (idx - 1) :=
    physCont_pointwise c ((switch_shape c req idx).2.1) (idx - 1)
  unfold ocf_engine_update_req_info
  dsimp only
  rw [hcond]
  have hseq := (switch_shape c req idx).2.2.2.1
  split_ifs <;> simp [hseq]

/-- C4: per-entry accounting of ocf_engine_update_req_info.  A HIT entry
bumps hit_no when every targeted sector is valid and invalid_no otherwise,
bumps dirty_any exactly when the line is dirty and dirty_all exactly when
it is dirty with every targeted sector dirty, and on a partition mismatch
sets re_part and bumps re_part_no; an INSERTED entry bumps insert_no only;
a MISS entry changes no counter other than possibly seq_no and leaves the
map alone. -/
theorem update_req_info_spec (c : Cache) (req : Req) (idx : Nat) :
    (statusAt req idx = .HIT →
      (ocf_engine_update_req_info c req idx).info.hit_no =
        req.info.hit_no +
          (if metadata_test_valid_sec c (req.map.getD idx defEntry).coll_idx
              (req.startSecOf idx) (req.endSecOf idx) then 1 else 0) ∧
      (ocf_engine_update_req_info c req idx).info.invalid_no =
        req.info.invalid_no +
          (if metadata_test_valid_sec c (req.map.getD idx defEntry).coll_idx
              (req.startSecOf idx) (req.endSecOf idx) then 0 else 1) ∧
      (ocf_engine_update_req_info c req idx).info.dirty_any =
        req.info.dirty_any +
          (if metadata_test_dirty c (req.map.getD idx defEntry).coll_idx
            then 1 else 0) ∧
      (ocf_engine_update_req_info c req idx).info.dirty_all =
        req.info.dirty_all +
          (if metadata_test_dirty c (req.map.getD idx defEntry).coll_idx ∧
              metadata_test_dirty_all_sec c (req.map.getD idx defEntry).coll_idx
                (req.startSecOf idx) (req.endSecOf idx)
            then 1 else 0) ∧
      (ocf_engine_update_req_info c req idx).info.re_part_no =
        req.info.re_part_no +
          (if req.part_id ≠ c.partIdOf (req.map.getD idx defEntry).coll_idx
            then 1 else 0) ∧
      (req.part_id ≠ c.partIdOf (req.map.getD idx defEntry).coll_idx →
        ((ocf_engine_update_req_info c req idx).map.getD idx defEntry).re_part =
          true) ∧
      (ocf_engine_update_req_info c req idx).info.insert_no =
        req.info.insert_no) ∧
    (statusAt req idx = .INSERTED →
      (ocf_engine_update_req_info c req idx).info.insert_no =
        req.info.insert_no + 1 ∧
      (ocf_engine_update_req_info c req idx).info.hit_no = req.info.hit_no ∧
      (ocf_engine_update_req_info c req idx).info.invalid_no =
        req.info.invalid_no ∧
      (ocf_engine_update_req_info c req idx).info.dirty_any =
        req.info.dirty_any ∧
      (ocf_engine_update_req_info c req idx).info.dirty_all =
        req.info.dirty_all ∧
      (ocf_engine_update_req_info c req idx).info.re_part_no =
        req.info.re_part_no ∧
      (ocf_engine_update_req_info c req idx).map = req.map) ∧
    (statusAt req idx = .MISS →
      (ocf_engine_update_req_info c req idx).map = req.map ∧
      (ocf_engine_update_req_info c req idx).info.hit_no = req.info.hit_no ∧
      (ocf_engine_update_req_info c req idx).info.invalid_no =
        req.info.invalid_no ∧
      (ocf_engine_update_req_info c req idx).info.insert_no =
        req.info.insert_no ∧
      (ocf_engine_update_req_info c req idx).info.dirty_any =
        req.info.dirty_any ∧
      (ocf_engine_update_req_info c req idx).info.dirty_all =
        req.info.dirty_all ∧
      (ocf_engine_update_req_info c req idx).info.re_part_no =
        req.info.re_part_no) := by
  have hA := update_after_switch c req idx
  refine ⟨?_, ?_, ?_⟩
  · intro h
    have hh := switch_hit c req idx h
    unfold collAt at hh
    refine ⟨?_, ?_, ?_, ?_, ?_, ?_, ?_⟩
    · rw [hA.2.1]
      exact hh.1
    · rw [hA.2.2.1]
      exact hh.2.1
    · rw [hA.2.2.2.2.1]
      exact hh.2.2.1
    · rw [hA.2.2.2.2.2.1]
      exact hh.2.2.2.1
    · rw [hA.2.2.2.2.2.2.1]
      exact hh.2.2.2.2.1
    · intro hmm
      rw [hA.1]
      exact hh.2.2.2.2.2.1 hmm
    · rw [hA.2.2.2.1]
      exact hh.2.2.2.2.2.2
  · intro h
    have he := switch_inserted c req idx h
    refine ⟨?_, ?_, ?_, ?_, ?_, ?_, ?_⟩
    · rw [hA.2.2.2.1, he]
    · rw [hA.2.1, he]
    · rw [hA.2.2.1, he]
    · rw [hA.2.2.2.2.1, he]
    · rw [hA.2.2.2.2.2.1, he]
    · rw [hA.2.2.2.2.2.2.1, he]
    · rw [hA.1, he]
  · intro h
    have hm := switch_misslike c req idx (Or.inl h)
    refine ⟨?_, ?_, ?_, ?_, ?_, ?_, ?_⟩
    · rw [hA.1, hm]
    · rw [hA.2.1, hm]
    · rw [hA.2.2.1, hm]
    · rw [hA.2.2.2.1, hm]
    · rw [hA.2.2.2.2.1, hm]
    · rw [hA.2.2.2.2.2.1, hm]
    · rw [hA.2.2.2.2.2.2.1, hm]

/-- Witness for update_req_info_spec: the HIT hypothesis holds on the
concrete request and the accounting bumps hit_no. -/
theorem update_req_info_spec_witness :
    statusAt reqHitW 0 = .HIT ∧
    (ocf_engine_update_req_info cacheA reqHitW 0).info.hit_no =
      reqHitW.info.hit_no + 1 := by
  refine ⟨by decide, ?_⟩
  have h := ((update_req_info_spec cacheA reqHitW 0).1 (by decide)).1
  rw [h]
  decide

/-- C10: when the unmapped entries outnumber the advisory free count,
ocf_engine_map latches the mapping error and returns before touching any
state — the map (all statuses and coll_idx values), every info counter,
the hash chains and the free list are exactly as on entry. -/
theorem engine_map_shortage_noop (c : Cache) (req : Req)
    (h : c.numFreeAdvisory < ocf_engine_unmapped_count req) :
    (ocf_engine_map c req).2.info.mapping_error = true ∧
    (ocf_engine_map c req).2.map = req.map ∧
    (ocf_engine_map c req).2.info.hit_no = req.info.hit_no ∧
    (ocf_engine_map c req).2.info.invalid_no = req.info.invalid_no ∧
    (ocf_engine_map c req).2.info.insert_no = req.info.insert_no ∧
    (ocf_engine_map c req).2.info.dirty_any = req.info.dirty_any ∧
    (ocf_engine_map c req).2.info.dirty_all = req.info.dirty_all ∧
    (ocf_engine_map c req).2.info.re_part_no = req.info.re_part_no ∧
    (ocf_engine_map c req).2.info.seq_no = req.info.seq_no ∧
    (ocf_engine_map c req).1 = c ∧
    ocf_engine_map c req = (c, ocf_req_set_mapping_error req) := by
  have h0 : ¬ ocf_engine_unmapped_count req = 0 := by omega
  simp [ocf_engine_map, h0, h, ocf_req_set_mapping_error]

/-- Witness for engine_map_shortage_noop: a one-line request with a zeroed
info aggregate against a cache whose advisory free count is zero. -/
theorem engine_map_shortage_noop_witness :
    { cacheA with numFreeAdvisory := 0 }.numFreeAdvisory <
      ocf_engine_unmapped_count reqHitW ∧
    (ocf_engine_map { cacheA with numFreeAdvisory := 0 } reqHitW).2.info.mapping_error =
      true ∧
    (ocf_engine_map { cacheA with numFreeAdvisory := 0 } reqHitW).2.map =
      reqHitW.map := by
  refine ⟨by decide, ?_, ?_⟩
  · exact (engine_map_shortage_noop { cacheA with numFreeAdvisory := 0 } reqHitW
      (by decide)).1
  · exact (engine_map_shortage_noop { cacheA with numFreeAdvisory := 0 } reqHitW
      (by decide)).2.1

/-- The per-entry predicates read only the skeleton fields and the entries
at j and j-1. -/
theorem preds_congr (c : Cache) {r1 r2 : Req} (j : Nat)
    (hs1 : r1.startSecOf = r2.startSecOf) (hs2 : r1.endSecOf = r2.endSecOf)
    (hj : r1.map.getD j defEntry = r2.map.getD j defEntry)
    (hj1 : r1.map.getD (j - 1) defEntry = r2.map.getD (j - 1) defEntry) :
    pHit c r1 j = pHit c r2 j ∧ pInvalid c r1 j = pInvalid c r2 j ∧
    pDirtyAny c r1 j = pDirtyAny c r2 j ∧
    pDirtyAll c r1 j = pDirtyAll c r2 j ∧ pSeqT c r1 j = pSeqT c r2 j := by
  have hstat : statusAt r1 j = statusAt r2 j := by
    unfold statusAt
    rw [hj]
  have hcoll : collAt r1 j = collAt r2 j := by
    unfold collAt
    rw [hj]
  refine ⟨?_, ?_, ?_, ?_, ?_⟩
  · unfold pHit
    rw [hstat, hcoll, hs1, hs2]
  · unfold pInvalid
    rw [hstat, hcoll, hs1, hs2]
  · unfold pDirtyAny
    rw [hstat, hcoll]
  · unfold pDirtyAll
    rw [hstat, hcoll, hs1, hs2]
  by_cases hj0 : j = 0
  · subst hj0
    unfold pSeqT
    simp
  · have hsucc : j - 1 + 1 = j := Nat.succ_pred_eq_of_pos (Nat.pos_of_ne_zero hj0)
    have hphys : ocf_engine_clines_phys_cont c r1 (j - 1) =
        ocf_engine_clines_phys_cont c r2 (j - 1) := by
      unfold ocf_engine_clines_phys_cont
      rw [hsucc, hj, hj1]
    unfold pSeqT
    rw [hstat, hphys]

/-- One traversal step: entry i is overwritten with the lookup result, the
other entries are untouched, and the aggregate moves by the per-entry
predicates evaluated on the stepped request. -/
theorem traverseStep_props (c : Cache) (req : Req) (i : Nat)
    (hlt : i < req.map.length) :
    (traverseStep c req i).map.length = req.map.length ∧
    sameSkeleton (traverseStep c req i) req ∧
    (∀ j, j ≠ i →
      (traverseStep c req i).map.getD j defEntry = req.map.getD j defEntry) ∧
    statusAt (traverseStep c req i) i = (lookAt c req i).status ∧
    collAt (traverseStep c req i) i = (lookAt c req i).coll_idx ∧
    (traverseStep c req i).info.hit_no =
      req.info.hit_no + (if pHit c (traverseStep c req i) i then 1 else 0) ∧
    (traverseStep c req i).info.invalid_no =
      req.info.invalid_no +
        (if pInvalid c (traverseStep c req i) i then 1 else 0) ∧
    (traverseStep c req i).info.insert_no = req.info.insert_no ∧
    (traverseStep c req i).info.dirty_any =
      req.info.dirty_any +
        (if pDirtyAny c (traverseStep c req i) i then 1 else 0) ∧
    (traverseStep c req i).info.dirty_all =
      req.info.dirty_all +
        (if pDirtyAll c (traverseStep c req i) i then 1 else 0) ∧
    (traverseStep c req i).info.seq_no =
      req.info.seq_no +
        (if pSeqT c (traverseStep c req i) i then 1 else 0) ∧
    (traverseStep c req i).info.mapping_error = req.info.mapping_error := by
  have hstep : traverseStep c req i =
      (if (lookAt c req i).status = .HIT then
        ocf_engine_update_req_info c
          { req with map := req.map.set i (lookAt c req i) } i
       else { req with map := req.map.set i (lookAt c req i) }) := rfl
  rcases lookup_entry_status c (req.map.getD i defEntry) req.core_id
      (req.core_line_first + i) with hl | hl
  case _ =>
    -- the lookup produced a HIT entry; the step runs the update
    have hl2 : (lookAt c req i).status = .HIT := hl
    rw [hstep, if_pos hl2]
    have hbase : statusAt { req with map := req.map.set i (lookAt c req i) } i =
        .HIT := by
      unfold statusAt
      simp only []
      rw [getD_set_self req.map i _ defEntry hlt]
      exact hl2
    have hcollb : collAt { req with map := req.map.set i (lookAt c req i) } i =
        (lookAt c req i).coll_idx := by
      unfold collAt
      simp only []
      rw [getD_set_self req.map i _ defEntry hlt]
    have hU := update_shape c { req with map := req.map.set i (lookAt c req i) } i
    have hA := update_after_switch c
        { req with map := req.map.set i (lookAt c req i) } i
    have hH := switch_hit c { req with map := req.map.set i (lookAt c req i) } i
        hbase
    have hSq := update_seq_delta c
        { req with map := req.map.set i (lookAt c req i) } i
    have hsk := update_skel c { req with map := req.map.set i (lookAt c req i) } i
    have hss : (ocf_engine_update_req_info c
        { req with map := req.map.set i (lookAt c req i) } i).startSecOf =
        req.startSecOf := hsk.2.2.2.2.2.2.2.2.2.2.2.1
    have hse : (ocf_engine_update_req_info c
        { req with map := req.map.set i (lookAt c req i) } i).endSecOf =
        req.endSecOf := hsk.2.2.2.2.2.2.2.2.2.2.2.2
    have hstat : statusAt (ocf_engine_update_req_info c
        { req with map := req.map.set i (lookAt c req i) } i) i = .HIT := by
      rw [(hU.2.1 i).1]
      exact hbase
    have hcoll : collAt (ocf_engine_update_req_info c
        { req with map := req.map.set i (lookAt c req i) } i) i =
        (lookAt c req i).coll_idx := by
      rw [(hU.2.1 i).2]
      exact hcollb
    refine ⟨?_, ?_, ?_, hstat.trans hl2.symm, hcoll, ?_, ?_, ?_, ?_, ?_, ?_, ?_⟩
    · rw [hU.1]
      simp [List.length_set]
    · refine sameSkeleton_trans hsk ?_
      simp [sameSkeleton]
    · intro j hj
      rw [hU.2.2.1 j hj]
      simp only []
      rw [getD_set_ne req.map _ defEntry (fun he => hj he.symm)]
    · rw [hA.2.1, hH.1]
      simp only [pHit, hstat, hcoll, hcollb, hss, hse]
      by_cases hv : metadata_test_valid_sec c (lookAt c req i).coll_idx
          (req.startSecOf i) (req.endSecOf i) = true <;> simp [hv]
    · rw [hA.2.2.1, hH.2.1]
      simp only [pInvalid, hstat, hcoll, hcollb, hss, hse]
      by_cases hv : metadata_test_valid_sec c (lookAt c req i).coll_idx
          (req.startSecOf i) (req.endSecOf i) = true <;> simp [hv]
    · rw [hA.2.2.2.1, hH.2.2.2.2.2.2]
    · rw [hA.2.2.2.2.1, hH.2.2.1]
      simp only [pDirtyAny, hstat, hcoll, hcollb, hss, hse]
      by_cases hd : metadata_test_dirty c (lookAt c req i).coll_idx = true <;>
        simp [hd]
    · rw [hA.2.2.2.2.2.1, hH.2.2.2.1]
      simp only [pDirtyAll, hstat, hcoll, hcollb, hss, hse]
      by_cases hd : metadata_test_dirty c (lookAt c req i).coll_idx = true <;>
        by_cases hda : metadata_test_dirty_all_sec c (lookAt c req i).coll_idx
          (req.startSecOf i) (req.endSecOf i) = true <;>
        simp [hd, hda]
    · have hpc : ocf_engine_clines_phys_cont c (ocf_engine_update_req_info c
          { req with map := req.map.set i (lookAt c req i) } i) (i - 1) =
          ocf_engine_clines_phys_cont c
          { req with map := req.map.set i (lookAt c req i) } (i - 1) :=
        physCont_pointwise c (hU.2.1) (i - 1)
      rw [hSq]
      simp only [pSeqT, hstat, hpc]
      by_cases hz : 0 < i <;>
        by_cases hp : ocf_engine_clines_phys_cont c
          { req with map := req.map.set i (lookAt c req i) } (i - 1) = true <;>
        simp [hz, hp]
    · rw [hU.2.2.2]
  case _ =>
    -- the lookup produced a MISS entry; the step stops at the map write
    have hlM : (lookAt c req i).status = .MISS := hl
    have hl2 : ¬ (lookAt c req i).status = .HIT := by
      rw [hlM]
      simp
    rw [hstep, if_neg hl2]
    have hstat : statusAt { req with map := req.map.set i (lookAt c req i) } i =
        .MISS := by
      unfold statusAt
      simp only []
      rw [getD_set_self req.map i _ defEntry hlt]
      exact hlM
    refine ⟨by simp [List.length_set], by simp [sameSkeleton], ?_, ?_, ?_,
      ?_, ?_, rfl, ?_, ?_, ?_, rfl⟩
    · intro j hj
      simp only []
      rw [getD_set_ne req.map _ defEntry (fun he => hj he.symm)]
    · unfold statusAt
      simp only []
      rw [getD_set_self req.map i _ defEntry hlt]
    · unfold collAt
      simp only []
      rw [getD_set_self req.map i _ defEntry hlt]
    · simp only [pHit, hstat]
      simp
    · simp only [pInvalid, hstat]
      simp
    · simp only [pDirtyAny, hstat]
      simp
    · simp only [pDirtyAll, hstat]
      simp
    · simp only [pSeqT, hstat]
      simp

theorem skel_startSec {a b : Req} (h : sameSkeleton a b) :
    a.startSecOf = b.startSecOf := h.2.2.2.2.2.2.2.2.2.2.2.1

theorem skel_endSec {a b : Req} (h : sameSkeleton a b) :
    a.endSecOf = b.endSecOf := h.2.2.2.2.2.2.2.2.2.2.2.2

theorem skel_count {a b : Req} (h : sameSkeleton a b) :
    a.core_line_count = b.core_line_count := h.2.2.1

theorem skel_lockType {a b : Req} (h : sameSkeleton a b) :
    a.lockType = b.lockType := h.2.2.2.2.2.1

theorem skel_resume {a b : Req} (h : sameSkeleton a b) :
    a.resumeCb = b.resumeCb := h.2.2.2.2.2.2.1

theorem skel_partId {a b : Req} (h : sameSkeleton a b) :
    a.part_id = b.part_id := h.2.2.2.1

theorem countIf_idxs_succ (p : Nat → Bool) (s n : Nat) :
    countIf p (idxs s (n + 1)) =
      (if p s then 1 else 0) + countIf p (idxs (s + 1) n) := rfl

/-- Master invariant of the traversal loop: entries below i are untouched,
entries in [i, i + rem) come out of the lookup (hence HIT or MISS), and
each aggregate counter advances by the count of its per-entry predicate
over the processed range, evaluated on the final request. -/
theorem traverseFrom_master (c : Cache) :
    ∀ rem i req, req.map.length = req.core_line_count →
      i + rem ≤ req.core_line_count →
      (traverseFrom c rem i req).map.length = req.map.length ∧
      sameSkeleton (traverseFrom c rem i req) req ∧
      (∀ j, j < i →
        (traverseFrom c rem i req).map.getD j defEntry =
          req.map.getD j defEntry) ∧
      (∀ j, i ≤ j → j < i + rem →
        statusAt (traverseFrom c rem i req) j = .HIT ∨
        statusAt (traverseFrom c rem i req) j = .MISS) ∧
      (traverseFrom c rem i req).info.hit_no =
        req.info.hit_no +
          countIf (pHit c (traverseFrom c rem i req)) (idxs i rem) ∧
      (traverseFrom c rem i req).info.invalid_no =
        req.info.invalid_no +
          countIf (pInvalid c (traverseFrom c rem i req)) (idxs i rem) ∧
      (traverseFrom c rem i req).info.insert_no = req.info.insert_no ∧
      (traverseFrom c rem i req).info.dirty_any =
        req.info.dirty_any +
          countIf (pDirtyAny c (traverseFrom c rem i req)) (idxs i rem) ∧
      (traverseFrom c rem i req).info.dirty_all =
        req.info.dirty_all +
          countIf (pDirtyAll c (traverseFrom c rem i req)) (idxs i rem) ∧
      (traverseFrom c rem i req).info.seq_no =
        req.info.seq_no +
          countIf (pSeqT c (traverseFrom c rem i req)) (idxs i rem) ∧
      (traverseFrom c rem i req).info.mapping_error = req.info.mapping_error := by
  intro rem
  induction rem with
  | zero =>
    intro i req hlen hle
    refine ⟨rfl, sameSkeleton_refl req, fun j hj => rfl,
      fun j hj1 hj2 => absurd (Nat.lt_of_le_of_lt hj1 hj2) (by omega),
      by simp [traverseFrom, idxs, countIf], by simp [traverseFrom, idxs, countIf], rfl,
      by simp [traverseFrom, idxs, countIf], by simp [traverseFrom, idxs, countIf],
      by simp [traverseFrom, idxs, countIf], rfl⟩
  | succ rem ih =>
    intro i req hlen hle
    have hlt : i < req.map.length := by
      rw [hlen]
      omega
    have hS := traverseStep_props c req i hlt
    have hcnt : (traverseStep c req i).core_line_count = req.core_line_count :=
      skel_count hS.2.1
    have hlen2 : (traverseStep c req i).map.length =
        (traverseStep c req i).core_line_count := by
      rw [hS.1, hcnt]
      exact hlen
    have hle2 : (i + 1) + rem ≤ (traverseStep c req i).core_line_count := by
      rw [hcnt]
      omega
    have hIH := ih (i + 1) (traverseStep c req i) hlen2 hle2
    have hred : traverseFrom c (rem + 1) i req =
        traverseFrom c rem (i + 1) (traverseStep c req i) := rfl
    rw [hred]
    have hpre : ∀ j, j < i + 1 →
        (traverseFrom c rem (i + 1) (traverseStep c req i)).map.getD j defEntry =
          (traverseStep c req i).map.getD j defEntry := hIH.2.2.1
    have hcong := @preds_congr c
      (traverseFrom c rem (i + 1) (traverseStep c req i))
      (traverseStep c req i) i
      (skel_startSec hIH.2.1) (skel_endSec hIH.2.1)
      (hpre i (by omega)) (hpre (i - 1) (by omega))
    refine ⟨hIH.1.trans hS.1,
      sameSkeleton_trans hIH.2.1 hS.2.1, ?_, ?_, ?_, ?_, ?_, ?_, ?_, ?_, ?_⟩
    · intro j hj
      rw [hpre j (by omega)]
      exact hS.2.2.1 j (by omega)
    · intro j hj1 hj2
      by_cases hji : j = i
      · subst hji
        have hst : statusAt (traverseFrom c rem (j + 1) (traverseStep c req j)) j =
            statusAt (traverseStep c req j) j := by
          unfold statusAt
          rw [hpre j (by omega)]
        rw [hst, hS.2.2.2.1]
        exact lookup_entry_status c (req.map.getD j defEntry) req.core_id
          (req.core_line_first + j)
      · exact hIH.2.2.2.1 j (by omega) (by omega)
    · rw [hIH.2.2.2.2.1, hS.2.2.2.2.2.1, ← hcong.1, countIf_idxs_succ,
        Nat.add_assoc]
    · rw [hIH.2.2.2.2.2.1, hS.2.2.2.2.2.2.1, ← hcong.2.1, countIf_idxs_succ,
        Nat.add_assoc]
    · rw [hIH.2.2.2.2.2.2.1, hS.2.2.2.2.2.2.2.1]
    · rw [hIH.2.2.2.2.2.2.2.1, hS.2.2.2.2.2.2.2.2.1, ← hcong.2.2.1,
        countIf_idxs_succ, Nat.add_assoc]
    · rw [hIH.2.2.2.2.2.2.2.2.1, hS.2.2.2.2.2.2.2.2.2.1, ← hcong.2.2.2.1,
        countIf_idxs_succ, Nat.add_assoc]
    · rw [hIH.2.2.2.2.2.2.2.2.2.1, hS.2.2.2.2.2.2.2.2.2.2.1, ← hcong.2.2.2.2,
        countIf_idxs_succ, Nat.add_assoc]
    · rw [hIH.2.2.2.2.2.2.2.2.2.2, hS.2.2.2.2.2.2.2.2.2.2.2]

/-- Top-level facts of ocf_engine_traverse: the info aggregate starts from
zero and each counter equals the count of its predicate over the whole
request. -/
theorem traverse_props (c : Cache) (req : Req)
    (hlen : req.map.length = req.core_line_count) :
    (ocf_engine_traverse c req).map.length = req.core_line_count ∧
    sameSkeleton (ocf_engine_traverse c req) req ∧
    (∀ j, j < req.core_line_count →
      statusAt (ocf_engine_traverse c req) j = .HIT ∨
      statusAt (ocf_engine_traverse c req) j = .MISS) ∧
    (ocf_engine_traverse c req).info.hit_no =
      countIf (pHit c (ocf_engine_traverse c req))
        (idxs 0 req.core_line_count) ∧
    (ocf_engine_traverse c req).info.invalid_no =
      countIf (pInvalid c (ocf_engine_traverse c req))
        (idxs 0 req.core_line_count) ∧
    (ocf_engine_traverse c req).info.insert_no = 0 ∧
    (ocf_engine_traverse c req).info.dirty_any =
      countIf (pDirtyAny c (ocf_engine_traverse c req))
        (idxs 0 req.core_line_count) ∧
    (ocf_engine_traverse c req).info.dirty_all =
      countIf (pDirtyAll c (ocf_engine_traverse c req))
        (idxs 0 req.core_line_count) ∧
    (ocf_engine_traverse c req).info.seq_no =
      countIf (pSeqT c (ocf_engine_traverse c req))
        (idxs 0 req.core_line_count) ∧
    (ocf_engine_traverse c req).info.mapping_error = false := by
  have hM := traverseFrom_master c req.core_line_count 0 (ocf_req_clear_info req)
    (by exact hlen) (by simp [ocf_req_clear_info])
  have hskC : sameSkeleton (ocf_req_clear_info req) req := by
    simp [sameSkeleton, ocf_req_clear_info]
  have hT : ocf_engine_traverse c req =
      traverseFrom c req.core_line_count 0 (ocf_req_clear_info req) := rfl
  rw [hT]
  refine ⟨hM.1.trans hlen, sameSkeleton_trans hM.2.1 hskC, ?_, ?_, ?_, ?_,
    ?_, ?_, ?_, ?_⟩
  · intro j hj
    exact hM.2.2.2.1 j (by omega) (by omega)
  · rw [hM.2.2.2.2.1]
    simp [ocf_req_clear_info, ReqInfo.zero]
  · rw [hM.2.2.2.2.2.1]
    simp [ocf_req_clear_info, ReqInfo.zero]
  · rw [hM.2.2.2.2.2.2.1]
    simp [ocf_req_clear_info, ReqInfo.zero]
  · rw [hM.2.2.2.2.2.2.2.1]
    simp [ocf_req_clear_info, ReqInfo.zero]
  · rw [hM.2.2.2.2.2.2.2.2.1]
    simp [ocf_req_clear_info, ReqInfo.zero]
  · rw [hM.2.2.2.2.2.2.2.2.2.1]
    simp [ocf_req_clear_info, ReqInfo.zero]
  · rw [hM.2.2.2.2.2.2.2.2.2.2]
    simp [ocf_req_clear_info, ReqInfo.zero]

theorem dirtyAll_imp_dirtyAny (c : Cache) (r : Req) (j : Nat)
    (h : pDirtyAll c r j = true) : pDirtyAny c r j = true := by
  unfold pDirtyAll at h
  unfold pDirtyAny
  rcases Bool.and_eq_true_iff.mp h with ⟨h1, h2⟩
  exact h1

/-- Counter consistency after a traversal: hits split into valid and
invalid, the four status counts partition the request, and the dirty
counters are ordered. -/
theorem traverse_sum (c : Cache) (req : Req)
    (hlen : req.map.length = req.core_line_count) :
    (ocf_engine_traverse c req).info.hit_no +
      (ocf_engine_traverse c req).info.invalid_no =
      countIf (fun j => decide (statusAt (ocf_engine_traverse c req) j = .HIT))
        (idxs 0 req.core_line_count) ∧
    (ocf_engine_traverse c req).info.hit_no +
      (ocf_engine_traverse c req).info.invalid_no +
      (ocf_engine_traverse c req).info.insert_no +
      missCount (ocf_engine_traverse c req) = req.core_line_count ∧
    (ocf_engine_traverse c req).info.dirty_all ≤
      (ocf_engine_traverse c req).info.dirty_any ∧
    (ocf_engine_traverse c req).info.dirty_any ≤ req.core_line_count := by
  have tp := traverse_props c req hlen
  have hcnt : (ocf_engine_traverse c req).core_line_count =
      req.core_line_count := skel_count tp.2.1
  have hsplit : (ocf_engine_traverse c req).info.hit_no +
      (ocf_engine_traverse c req).info.invalid_no =
      countIf (fun j => decide (statusAt (ocf_engine_traverse c req) j = .HIT))
        (idxs 0 req.core_line_count) := by
    rw [tp.2.2.2.1, tp.2.2.2.2.1]
    have e1 : countIf (pHit c (ocf_engine_traverse c req))
        (idxs 0 req.core_line_count) =
        countIf (fun j =>
          decide (statusAt (ocf_engine_traverse c req) j = .HIT) &&
            metadata_test_valid_sec c (collAt (ocf_engine_traverse c req) j)
              ((ocf_engine_traverse c req).startSecOf j)
              ((ocf_engine_traverse c req).endSecOf j))
          (idxs 0 req.core_line_count) :=
      countIf_congr (fun x hx => rfl)
    have e2 : countIf (pInvalid c (ocf_engine_traverse c req))
        (idxs 0 req.core_line_count) =
        countIf (fun j =>
          decide (statusAt (ocf_engine_traverse c req) j = .HIT) &&
            !(metadata_test_valid_sec c (collAt (ocf_engine_traverse c req) j)
              ((ocf_engine_traverse c req).startSecOf j)
              ((ocf_engine_traverse c req).endSecOf j)))
          (idxs 0 req.core_line_count) :=
      countIf_congr (fun x hx => rfl)
    rw [e1, e2]
    exact countIf_split _ _ _
  refine ⟨hsplit, ?_, ?_, ?_⟩
  · have hbin : countIf (fun j =>
        decide (statusAt (ocf_engine_traverse c req) j = .HIT))
          (idxs 0 req.core_line_count) +
        countIf (fun j =>
          decide (statusAt (ocf_engine_traverse c req) j = .MISS))
          (idxs 0 req.core_line_count) =
        (idxs 0 req.core_line_count).length := by
      apply countIf_binary
      · intro x hx
        have hxlt : x < req.core_line_count := by
          have := mem_idxs.mp hx
          omega
        rcases tp.2.2.1 x hxlt with h | h <;> simp [h]
      · intro x hx hcon
        rcases hcon with ⟨h1, h2⟩
        simp only [decide_eq_true_eq] at h1 h2
        rw [h1] at h2
        exact absurd h2 (by simp)
    have hmc : missCount (ocf_engine_traverse c req) =
        countIf (fun j =>
          decide (statusAt (ocf_engine_traverse c req) j = .MISS))
          (idxs 0 req.core_line_count) := by
      unfold missCount
      rw [hcnt]
    rw [hsplit, tp.2.2.2.2.2.1, hmc, Nat.add_zero]
    rw [idxs_length] at hbin
    exact hbin
  · rw [tp.2.2.2.2.2.2.2.1, tp.2.2.2.2.2.2.1]
    exact countIf_mono (fun x hx => dirtyAll_imp_dirtyAny c _ x)
  · rw [tp.2.2.2.2.2.2.1]
    have := countIf_le_length (pDirtyAny c (ocf_engine_traverse c req))
      (idxs 0 req.core_line_count)
    rw [idxs_length] at this
    exact this

/-- A traversed request is fully mapped exactly when every entry is a
HIT. -/
theorem traverse_is_mapped_iff (c : Cache) (req : Req)
    (hlen : req.map.length = req.core_line_count) :
    (ocf_engine_is_mapped (ocf_engine_traverse c req) = true ↔
      ∀ j, j < req.core_line_count →
        statusAt (ocf_engine_traverse c req) j = .HIT) := by
  have tp := traverse_props c req hlen
  have hcnt : (ocf_engine_traverse c req).core_line_count =
      req.core_line_count := skel_count tp.2.1
  have hsum := (traverse_sum c req hlen).1
  unfold ocf_engine_is_mapped ocf_engine_mapped_count
  rw [tp.2.2.2.2.2.1, Nat.add_zero, hsum, hcnt]
  rw [Nat.beq_eq_true_eq]
  constructor
  · intro h j hj
    have hall := countIf_eq_length_iff.mp (by rw [h, idxs_length])
    have := hall j (mem_idxs.mpr (by omega))
    simpa using this
  · intro h
    have : countIf (fun j =>
        decide (statusAt (ocf_engine_traverse c req) j = .HIT))
        (idxs 0 req.core_line_count) = (idxs 0 req.core_line_count).length := by
      apply countIf_eq_length_iff.mpr
      intro x hx
      have hxlt : x < req.core_line_count := by
        have := mem_idxs.mp hx
        omega
      simp [h x hxlt]
    rw [this, idxs_length]

theorem physCont_nonmiss (c : Cache) (r : Req) (p : Nat)
    (h : ocf_engine_clines_phys_cont c r p = true) :
    statusAt r p ≠ .MISS ∧ statusAt r (p + 1) ≠ .MISS := by
  unfold ocf_engine_clines_phys_cont at h
  by_cases hc : (r.map.getD p defEntry).status = .MISS ∨
      (r.map.getD (p + 1) defEntry).status = .MISS
  · rw [if_pos hc] at h
    exact absurd h (by simp)
  · push_neg at hc
    exact ⟨hc.1, hc.2⟩

/-- After a traversal, seq_no counts the physically contiguous adjacent
pairs. -/
theorem traverse_seq (c : Cache) (req : Req)
    (hlen : req.map.length = req.core_line_count) :
    (ocf_engine_traverse c req).info.seq_no =
      countIf (fun p =>
        ocf_engine_clines_phys_cont c (ocf_engine_traverse c req) p)
        (idxs 0 (req.core_line_count - 1)) := by
  have tp := traverse_props c req hlen
  rw [tp.2.2.2.2.2.2.2.2.1]
  cases hc : req.core_line_count with
  | zero => simp [idxs, countIf]
  | succ n =>
    have h0 : pSeqT c (ocf_engine_traverse c req) 0 = false := by
      simp [pSeqT]
    rw [countIf_idxs_succ, h0]
    have hz : (if (false : Bool) = true then 1 else 0) = 0 := by simp
    rw [hz, Nat.zero_add]
    have hcg : countIf (pSeqT c (ocf_engine_traverse c req)) (idxs 1 n) =
        countIf (fun j =>
          ocf_engine_clines_phys_cont c (ocf_engine_traverse c req) (j - 1))
          (idxs 1 n) := by
      apply countIf_congr
      intro x hx
      have hx1 : 1 ≤ x ∧ x < 1 + n := mem_idxs.mp hx
      by_cases hp : ocf_engine_clines_phys_cont c (ocf_engine_traverse c req)
          (x - 1) = true
      · have hnm := (physCont_nonmiss c _ _ hp).2
        have hxe : x - 1 + 1 = x := by omega
        rw [hxe] at hnm
        have hst : statusAt (ocf_engine_traverse c req) x = .HIT := by
          rcases tp.2.2.1 x (by omega) with h | h
          · exact h
          · exact absurd h hnm
        simp [pSeqT, hst, hp]
        omega
      · have hp2 : ocf_engine_clines_phys_cont c (ocf_engine_traverse c req)
            (x - 1) = false := by
          rcases Bool.eq_false_or_eq_true (ocf_engine_clines_phys_cont c
            (ocf_engine_traverse c req) (x - 1)) with h | h
          · exact absurd h hp
          · exact h
        simp [pSeqT, hp2]
    rw [hcg]
    have := countIf_idxs_shift (fun p =>
      ocf_engine_clines_phys_cont c (ocf_engine_traverse c req) p) 0 n
    simp only [Nat.add_zero] at this
    rw [this]
    simp

/-- C6 (amended): after a traversal, seq_no equals the number of adjacent
index pairs that are physically contiguous with both entries non-MISS; the
request is reported sequential exactly when every adjacent pair is such a
pair; and when the request spans at least two core lines this forces every
entry to be non-MISS.  (A single-line all-MISS request is vacuously
reported sequential, so the original claim fails there.) -/
theorem seq_no_spec (c : Cache) (req : Req)
    (hlen : req.map.length = req.core_line_count)
    (hpos : 0 < req.core_line_count) :
    (ocf_engine_traverse c req).info.seq_no =
      countIf (fun p =>
        ocf_engine_clines_phys_cont c (ocf_engine_traverse c req) p)
        (idxs 0 (req.core_line_count - 1)) ∧
    (ocf_engine_is_sequential (ocf_engine_traverse c req) = true ↔
      ∀ p, p < req.core_line_count - 1 →
        ocf_engine_clines_phys_cont c (ocf_engine_traverse c req) p = true) ∧
    (2 ≤ req.core_line_count →
      ocf_engine_is_sequential (ocf_engine_traverse c req) = true →
      ∀ j, j < req.core_line_count →
        statusAt (ocf_engine_traverse c req) j ≠ .MISS) := by
  have hcnt : (ocf_engine_traverse c req).core_line_count =
      req.core_line_count := skel_count (traverse_props c req hlen).2.1
  have hseq := traverse_seq c req hlen
  have hiff : ocf_engine_is_sequential (ocf_engine_traverse c req) = true ↔
      ∀ p, p < req.core_line_count - 1 →
        ocf_engine_clines_phys_cont c (ocf_engine_traverse c req) p = true := by
    unfold ocf_engine_is_sequential
    rw [hseq, hcnt, Nat.beq_eq_true_eq]
    have hle := countIf_le_length (fun p =>
      ocf_engine_clines_phys_cont c (ocf_engine_traverse c req) p)
      (idxs 0 (req.core_line_count - 1))
    rw [idxs_length] at hle
    constructor
    · intro h p hp
      have hfull : countIf (fun p =>
          ocf_engine_clines_phys_cont c (ocf_engine_traverse c req) p)
          (idxs 0 (req.core_line_count - 1)) =
          (idxs 0 (req.core_line_count - 1)).length := by
        rw [idxs_length]
        omega
      exact countIf_eq_length_iff.mp hfull p (mem_idxs.mpr (by omega))
    · intro h
      have hfull : countIf (fun p =>
          ocf_engine_clines_phys_cont c (ocf_engine_traverse c req) p)
          (idxs 0 (req.core_line_count - 1)) =
          (idxs 0 (req.core_line_count - 1)).length := by
        apply countIf_eq_length_iff.mpr
        intro x hx
        have := mem_idxs.mp hx
        exact h x (by omega)
      rw [hfull, idxs_length]
      omega
  refine ⟨hseq, hiff, ?_⟩
  intro h2 hs j hj
  have hall := hiff.mp hs
  by_cases hjl : j < req.core_line_count - 1
  · exact (physCont_nonmiss c _ j (hall j hjl)).1
  · have hj1 : j = req.core_line_count - 1 := by omega
    have hplt : req.core_line_count - 2 < req.core_line_count - 1 := by omega
    have hp := hall (req.core_line_count - 2) hplt
    have := (physCont_nonmiss c _ _ hp).2
    have he : req.core_line_count - 2 + 1 = j := by omega
    rw [he] at this
    exact this

/-- Counterexample to C6 as stated: a one-line request that traversal
leaves fully MISS is reported sequential (seq_no + 1 = 1 =
core_line_count), yet it has a MISS entry, so being sequential is not
equivalent to every adjacent pair being contiguous and no entry being
MISS. -/
theorem seq_no_spec_cex :
    ¬ (ocf_engine_is_sequential (ocf_engine_traverse cacheF reqOne) = true ↔
      ((∀ p, p < reqOne.core_line_count - 1 →
        ocf_engine_clines_phys_cont cacheF (ocf_engine_traverse cacheF reqOne)
          p = true) ∧
       (∀ j, j < reqOne.core_line_count →
        statusAt (ocf_engine_traverse cacheF reqOne) j ≠ .MISS))) := by
  intro h
  have hseq : ocf_engine_is_sequential (ocf_engine_traverse cacheF reqOne) =
      true := by decide
  have hmiss := (h.mp hseq).2 0 (by decide)
  exact hmiss (by decide)

/-- Witness for seq_no_spec at the concrete two-line all-HIT request. -/
theorem seq_no_spec_witness :
    reqA.map.length = reqA.core_line_count ∧ 0 < reqA.core_line_count ∧
    (ocf_engine_traverse cacheA reqA).info.seq_no =
      countIf (fun p =>
        ocf_engine_clines_phys_cont cacheA (ocf_engine_traverse cacheA reqA) p)
        (idxs 0 (reqA.core_line_count - 1)) :=
  ⟨by decide, by decide, (seq_no_spec cacheA reqA (by decide) (by decide)).1⟩

/-- C2: when traversal finds every entry HIT, ocf_engine_prepare_clines
attempts the cache-line lock in the mode the engine callback declared —
returning OCF_LOCK_ACQUIRED synchronously for the NONE mode and otherwise
asking the concurrency manager for an asynchronous read or write lock with
the resume callback of the engine — releases the hash-bucket read locks,
and returns the lock result, with the promotion policy never consulted and
mapping never run (the cache state is returned untouched). -/
theorem prepare_clines_hit_path (c : Cache) (req : Req) (lk : Locks)
    (hlen : req.map.length = req.core_line_count)
    (hall : ∀ j, j < req.core_line_count →
      statusAt (ocf_engine_traverse c req) j = .HIT) :
    (ocf_engine_prepare_clines c req lk).ret =
      (_lock_clines c (ocf_engine_traverse c req)).res ∧
    (ocf_engine_prepare_clines c req lk).lockCall =
      some (_lock_clines c (ocf_engine_traverse c req)) ∧
    (ocf_engine_prepare_clines c req lk).locks = lk ∧
    (ocf_engine_prepare_clines c req lk).promoteQueried = false ∧
    (ocf_engine_prepare_clines c req lk).mapCalled = false ∧
    (ocf_engine_prepare_clines c req lk).cache = c ∧
    (ocf_engine_prepare_clines c req lk).req = ocf_engine_traverse c req ∧
    (req.lockType = .noLock →
      (_lock_clines c (ocf_engine_traverse c req)).res = OCF_LOCK_ACQUIRED ∧
      (_lock_clines c (ocf_engine_traverse c req)).resume = none) ∧
    (req.lockType = .read →
      (_lock_clines c (ocf_engine_traverse c req)).res = c.asyncLockRd ∧
      (_lock_clines c (ocf_engine_traverse c req)).resume = some req.resumeCb) ∧
    (req.lockType = .write →
      (_lock_clines c (ocf_engine_traverse c req)).res = c.asyncLockWr ∧
      (_lock_clines c (ocf_engine_traverse c req)).resume = some req.resumeCb) := by
  have tp := traverse_props c req hlen
  have hm := (traverse_is_mapped_iff c req hlen).mpr hall
  have hlkT : (ocf_engine_traverse c req).lockType = req.lockType :=
    skel_lockType tp.2.1
  have hres : (ocf_engine_traverse c req).resumeCb = req.resumeCb :=
    skel_resume tp.2.1
  have hP : ocf_engine_prepare_clines c req lk =
      { cache := c
        req := ocf_engine_traverse c req
        locks := ocf_hb_req_prot_unlock_rd (ocf_hb_req_prot_lock_rd lk)
        ret := (_lock_clines c (ocf_engine_traverse c req)).res
        promoteQueried := false
        mapCalled := false
        lockCall := some (_lock_clines c (ocf_engine_traverse c req)) } := by
    unfold ocf_engine_prepare_clines
    try dsimp only
    rw [hm]
    simp
  have hlk : ocf_hb_req_prot_unlock_rd (ocf_hb_req_prot_lock_rd lk) = lk := by
    simp [ocf_hb_req_prot_unlock_rd, ocf_hb_req_prot_lock_rd]
  refine ⟨by rw [hP], by rw [hP], by rw [hP]; exact hlk, by rw [hP],
    by rw [hP], by rw [hP], by rw [hP], ?_, ?_, ?_⟩
  · intro h
    unfold _lock_clines
    rw [hlkT, h]
    exact ⟨rfl, rfl⟩
  · intro h
    unfold _lock_clines
    rw [hlkT, h]
    exact ⟨rfl, by rw [hres]⟩
  · intro h
    unfold _lock_clines
    rw [hlkT, h]
    exact ⟨rfl, by rw [hres]⟩

/-- Witness for prepare_clines_hit_path: the concrete all-HIT two-line
request under a READ lock. -/
theorem prepare_clines_hit_path_witness :
    reqA.map.length = reqA.core_line_count ∧
    (∀ j, j < reqA.core_line_count →
      statusAt (ocf_engine_traverse cacheA reqA) j = .HIT) ∧
    (ocf_engine_prepare_clines cacheA reqA locksFree).ret =
      cacheA.asyncLockRd := by
  refine ⟨by decide, by decide, ?_⟩
  rw [(prepare_clines_hit_path cacheA reqA locksFree (by decide) (by decide)).1]
  decide

/-- Every exit of the eviction slow path releases exclusive metadata
access and touches no hash-bucket lock. -/
theorem evictionPath_locks (c : Cache) (req : Req) (lk : Locks) (mc : Bool) :
    (clinesEvictionPath c req lk mc).locks = { lk with metaX := false } := by
  unfold clinesEvictionPath
  try dsimp only
  split_ifs <;> rfl

/-- Every exit of ocf_prepare_clines_miss entered with the single
hash-bucket read lock of the pipeline drops all hash-bucket locks and
holds no exclusive metadata access. -/
theorem miss_locks (c : Cache) (req : Req) :
    (ocf_prepare_clines_miss c req
      { hbRd := 1, hbWr := 0, metaX := false }).locks = locksFree := by
  unfold ocf_prepare_clines_miss
  try dsimp only
  split_ifs <;> first
    | rfl
    | (rw [evictionPath_locks]; rfl)

/-- C3: lock discipline — ocf_engine_prepare_clines entered with no locks
held returns with no hash-bucket read or write locks and without the
exclusive metadata lock; ocf_prepare_clines_miss entered under the single
hash-bucket read lock likewise returns with all hash-bucket locks dropped
and the exclusive metadata lock free; and every exit of the eviction slow
path has released exclusive metadata access. -/
theorem lock_discipline (c : Cache) (req : Req) :
    (ocf_engine_prepare_clines c req locksFree).locks = locksFree ∧
    (ocf_prepare_clines_miss c req
      { hbRd := 1, hbWr := 0, metaX := false }).locks = locksFree ∧
    (∀ lk mc, (clinesEvictionPath c req lk mc).locks.metaX = false) := by
  refine ⟨?_, miss_locks c req, ?_⟩
  · unfold ocf_engine_prepare_clines
    try dsimp only
    split_ifs <;>
      first
        | rfl
        | exact miss_locks c (ocf_engine_traverse c req)
  · intro lk mc
    rw [evictionPath_locks]

theorem filter_false_nil {p : Nat → Bool} :
    ∀ l : List Nat, (∀ x ∈ l, p x = false) → l.filter p = [] := by
  intro l
  induction l with
  | nil => intro h; rfl
  | cons a t ih =>
    intro h
    have ha : p a = false := h a (by simp)
    have ht := ih (fun x hx => h x (by simp [hx]))
    simp [List.filter, ha, ht]

theorem idxs_add (m : Nat) : ∀ (i n : Nat),
    idxs i (m + n) = idxs i m ++ idxs (i + m) n := by
  induction m with
  | zero => intro i n; simp [idxs]
  | succ k ih =>
    intro i n
    have h1 : k + 1 + n = (k + n) + 1 := by omega
    rw [h1]
    show i :: idxs (i + 1) (k + n) = (i :: idxs (i + 1) k) ++ idxs (i + (k + 1)) n
    rw [ih (i + 1) n]
    have h2 : i + 1 + k = i + (k + 1) := by omega
    rw [h2]
    rfl

/-- Characterisation of one cleaner-getter call: a yield is the first
dirty HIT at index at least i (the new cursor sits one past it), and an
end-of-items answer means no dirty HIT remains from i on. -/
theorem cleanGetterFrom_spec (c : Cache) (req : Req) :
    ∀ g i, req.core_line_count - i < g →
      (∀ l0 i2, cleanGetterFrom c req i g = some (l0, i2) →
        i < i2 ∧ i2 ≤ req.core_line_count ∧ pClean c req (i2 - 1) = true ∧
        l0 = collAt req (i2 - 1) ∧
        (∀ k, i ≤ k → k < i2 - 1 → pClean c req k = false)) ∧
      (cleanGetterFrom c req i g = none →
        ∀ k, i ≤ k → k < req.core_line_count → pClean c req k = false) := by
  intro g
  induction g with
  | zero => intro i h; exact absurd h (by omega)
  | succ g ih =>
    intro i h
    by_cases hi : i < req.core_line_count
    · by_cases hcond : (req.map.getD i defEntry).status = .HIT ∧
          metadata_test_dirty c (req.map.getD i defEntry).coll_idx
      · have hred : cleanGetterFrom c req i (g + 1) =
            some ((req.map.getD i defEntry).coll_idx, i + 1) := by
          unfold cleanGetterFrom
          rw [if_pos hi, if_pos hcond]
        constructor
        · intro l0 i2 hsome
          rw [hred] at hsome
          injection hsome with hsome
          injection hsome with h1 h2
          subst h2
          refine ⟨by omega, by omega, ?_, ?_, ?_⟩
          · simp only [Nat.add_sub_cancel]
            unfold pClean statusAt collAt
            rw [hcond.1, hcond.2]
            simp
          · simp only [Nat.add_sub_cancel]
            unfold collAt
            exact h1.symm
          · intro k hk1 hk2
            omega
        · intro hnone
          rw [hred] at hnone
          exact absurd hnone (by simp)
      · have hred : cleanGetterFrom c req i (g + 1) =
            cleanGetterFrom c req (i + 1) g := by
          conv_lhs => unfold cleanGetterFrom
          rw [if_pos hi, if_neg hcond]
        have hih := ih (i + 1) (by omega)
        have hpc : pClean c req i = false := by
          unfold pClean statusAt collAt
          by_cases h1 : (req.map.getD i defEntry).status = .HIT
          · have h2 : metadata_test_dirty c (req.map.getD i defEntry).coll_idx =
                false := by
              rcases Bool.eq_false_or_eq_true (metadata_test_dirty c
                (req.map.getD i defEntry).coll_idx) with hb | hb
              · exact absurd ⟨h1, hb⟩ hcond
              · exact hb
            rw [h2, Bool.and_false]
          · rw [decide_eq_false h1, Bool.false_and]
        constructor
        · intro l0 i2 hsome
          rw [hred] at hsome
          have hres := hih.1 l0 i2 hsome
          refine ⟨by omega, hres.2.1, hres.2.2.1, hres.2.2.2.1, ?_⟩
          intro k hk1 hk2
          by_cases hk : k = i
          · rw [hk]
            exact hpc
          · exact hres.2.2.2.2 k (by omega) hk2
        · intro hnone
          rw [hred] at hnone
          intro k hk1 hk2
          by_cases hk : k = i
          · rw [hk]
            exact hpc
          · exact hih.2 hnone k (by omega) hk2
    · have hred : cleanGetterFrom c req i (g + 1) = none := by
        unfold cleanGetterFrom
        rw [if_neg hi]
      refine ⟨?_, ?_⟩
      · intro l0 i2 hsome
        rw [hred] at hsome
        exact absurd hsome (by simp)
      · intro hnone k hk1 hk2
        exact absurd (by omega : i < req.core_line_count) hi

/-- Running the getter to exhaustion from cursor i yields exactly the coll
indexes of the dirty-HIT entries at indexes at least i, in order. -/
theorem cleanStream_spec (c : Cache) (req : Req) :
    ∀ f i, i ≤ req.core_line_count → req.core_line_count - i < f →
      cleanStream c req i f =
        ((idxs i (req.core_line_count - i)).filter (pClean c req)).map
          (fun j => collAt req j) := by
  intro f
  induction f with
  | zero => intro i hile h; exact absurd h (by omega)
  | succ f ih =>
    intro i hile h
    have hG := cleanGetterFrom_spec c req (req.core_line_count + 1 - i) i
      (by omega)
    cases hg : _ocf_engine_clean_getter c req i with
    | none =>
      have hall := hG.2 hg
      have hfe : (idxs i (req.core_line_count - i)).filter (pClean c req) =
          [] := by
        apply filter_false_nil
        intro x hx
        have := mem_idxs.mp hx
        exact hall x (by omega) (by omega)
      have hstream : cleanStream c req i (f + 1) = [] := by
        conv_lhs => unfold cleanStream
        simp only [hg]
      rw [hstream, hfe]
      rfl
    | some li =>
      obtain ⟨l0, i2⟩ := li
      have hf := hG.1 l0 i2 hg
      obtain ⟨hii2, hi2c, hpc, hl0, hfalse⟩ := hf
      have hstream : cleanStream c req i (f + 1) =
          l0 :: cleanStream c req i2 f := by
        conv_lhs => unfold cleanStream
        simp only [hg]
      have hilt : i < req.core_line_count := by omega
      have hih := ih i2 hi2c (by omega)
      have hcnt1 : req.core_line_count - i =
          (i2 - 1 - i) + ((req.core_line_count - i2) + 1) := by omega
      have hsplit : idxs i (req.core_line_count - i) =
          idxs i (i2 - 1 - i) ++
            idxs (i + (i2 - 1 - i)) ((req.core_line_count - i2) + 1) := by
        rw [hcnt1, idxs_add]
      have hmid : i + (i2 - 1 - i) = i2 - 1 := by omega
      have hone : idxs (i2 - 1) ((req.core_line_count - i2) + 1) =
          (i2 - 1) :: idxs (i2 - 1 + 1) (req.core_line_count - i2) := rfl
      have hi21 : i2 - 1 + 1 = i2 := by omega
      have hpref : (idxs i (i2 - 1 - i)).filter (pClean c req) = [] := by
        apply filter_false_nil
        intro x hx
        have := mem_idxs.mp hx
        exact hfalse x (by omega) (by omega)
      rw [hstream, hih, hsplit, hmid, hone, hi21]
      rw [List.filter_append, hpref, List.nil_append, List.filter_cons,
        if_pos hpc, List.map_cons, hl0]

/-- C9: the cleaner handoff.  Running the getter from cursor 0 yields
exactly the coll indexes of the entries whose status is HIT and whose
cache line is dirty, in increasing request-index order, ending after the
last one; the attribs record carries count = info.dirty_any, no
cache-line locking and a zeroed cursor; the completion on success zeroes
dirty_any and dirty_all and re-enqueues the request at the front of its
worker queue, and on error releases the cache-line locks, completes the
request with the error and drops the request reference. -/
theorem clean_handoff_spec (c : Cache) (req : Req) :
    cleanStream c req 0 (req.core_line_count + 1) =
      ((idxs 0 req.core_line_count).filter (pClean c req)).map
        (fun j => collAt req j) ∧
    (ocf_engine_clean req).count = req.info.dirty_any ∧
    (ocf_engine_clean req).lock_cacheline = false ∧
    (ocf_engine_clean req).getter_item = 0 ∧
    (_ocf_engine_clean_end req 0).req.info.dirty_any = 0 ∧
    (_ocf_engine_clean_end req 0).req.info.dirty_all = 0 ∧
    (_ocf_engine_clean_end req 0).pushedFront = true ∧
    (_ocf_engine_clean_end req 0).completed = none ∧
    (_ocf_engine_clean_end req 0).unlocked = false ∧
    (∀ e : Int, e ≠ 0 →
      (_ocf_engine_clean_end req e).completed = some e ∧
      (_ocf_engine_clean_end req e).unlocked = true ∧
      (_ocf_engine_clean_end req e).refDropped = true ∧
      (_ocf_engine_clean_end req e).pushedFront = false) := by
  have hstream := cleanStream_spec c req (req.core_line_count + 1) 0
    (by omega) (by omega)
  have hz : (0 : Nat) ≤ req.core_line_count := by omega
  refine ⟨?_, rfl, rfl, rfl, ?_, ?_, ?_, ?_, ?_, ?_⟩
  · have : req.core_line_count - 0 = req.core_line_count := by omega
    rw [this] at hstream
    exact hstream
  · simp [_ocf_engine_clean_end]
  · simp [_ocf_engine_clean_end]
  · simp [_ocf_engine_clean_end]
  · simp [_ocf_engine_clean_end]
  · simp [_ocf_engine_clean_end]
  · intro e he
    refine ⟨?_, ?_, ?_, ?_⟩ <;> simp [_ocf_engine_clean_end, he]

/-- Witness for clean_handoff_spec: an error completion with a concrete
nonzero error code. -/
theorem clean_handoff_spec_witness :
    ((-5 : Int) ≠ 0) ∧
    (_ocf_engine_clean_end reqA (-5)).completed = some (-5) := by
  refine ⟨by decide, ?_⟩
  exact ((clean_handoff_spec cacheA reqA).2.2.2.2.2.2.2.2.2 (-5) (by decide)).1

theorem pOkB_congr (c : Cache) {r1 r2 : Req} (j : Nat)
    (hstat : statusAt r1 j = statusAt r2 j) (hcoll : collAt r1 j = collAt r2 j)
    (hcl : coreLineAt r1 j = coreLineAt r2 j) (hcid : r1.core_id = r2.core_id) :
    pOkB c r1 j = pOkB c r2 j := by
  unfold pOkB _ocf_engine_check_map_entry
  unfold statusAt at hstat
  unfold collAt at hcoll
  unfold coreLineAt at hcl
  rw [hstat, hcoll, hcl, hcid]

/-- The update stage changes no core_line and no invalid flag. -/
theorem update_preserves_fields (c : Cache) (req : Req) (idx : Nat) :
    ∀ j, coreLineAt (ocf_engine_update_req_info c req idx) j =
      coreLineAt req j ∧
    invalidAt (ocf_engine_update_req_info c req idx) j = invalidAt req j := by
  intro j
  unfold coreLineAt invalidAt
  rw [(update_after_switch c req idx).1]
  rcases switch_map_cases c req idx with hm | hm
  · rw [hm]
    exact ⟨rfl, rfl⟩
  · rw [hm]
    by_cases hj : j = idx
    · subst hj
      by_cases hlt : j < req.map.length
      · rw [getD_set_self _ _ _ _ hlt]
        exact ⟨rfl, rfl⟩
      · rw [List.set_eq_of_length_le (Nat.le_of_not_lt hlt)]
        exact ⟨rfl, rfl⟩
    · rw [getD_set_ne req.map _ defEntry (fun he => hj he.symm)]
      exact ⟨rfl, rfl⟩

/-- One check step: only entry i moves (its invalid flag and possibly its
re_part flag), statuses, coll indexes and core lines are untouched, the
result latches -1 exactly on a diverged entry, and for a non-MISS entry
the invalid flag records the verdict. -/
theorem checkStep_props (c : Cache) (res : Int) (req : Req) (i : Nat)
    (hlt : i < req.map.length) :
    (checkStep c (res, req) i).2.map.length = req.map.length ∧
    sameSkeleton (checkStep c (res, req) i).2 req ∧
    (∀ j, statusAt (checkStep c (res, req) i).2 j = statusAt req j ∧
      collAt (checkStep c (res, req) i).2 j = collAt req j ∧
      coreLineAt (checkStep c (res, req) i).2 j = coreLineAt req j) ∧
    (∀ j, j ≠ i →
      (checkStep c (res, req) i).2.map.getD j defEntry =
        req.map.getD j defEntry) ∧
    (checkStep c (res, req) i).1 =
      (if pOkB c (checkStep c (res, req) i).2 i then res else -1) ∧
    (statusAt req i ≠ .MISS →
      invalidAt (checkStep c (res, req) i).2 i =
        !(pOkB c (checkStep c (res, req) i).2 i)) := by
  have hfields : ∀ (e2 : MapEntry) (r2 : Req),
      r2.map = req.map.set i e2 →
      e2.status = (req.map.getD i defEntry).status →
      e2.coll_idx = (req.map.getD i defEntry).coll_idx →
      e2.core_line = (req.map.getD i defEntry).core_line →
      ∀ j, statusAt r2 j = statusAt req j ∧ collAt r2 j = collAt req j ∧
        coreLineAt r2 j = coreLineAt req j := by
    intro e2 r2 hm hs hc hl j
    unfold statusAt collAt coreLineAt
    rw [hm]
    by_cases hj : j = i
    · subst hj
      rw [getD_set_self _ _ _ _ hlt]
      exact ⟨hs, hc, hl⟩
    · rw [getD_set_ne req.map _ defEntry (fun he => hj he.symm)]
      exact ⟨rfl, rfl, rfl⟩
  by_cases hmiss : (req.map.getD i defEntry).status = .MISS
  · have hred : checkStep c (res, req) i = (res, req) := by
      unfold checkStep
      rw [if_pos hmiss]
    rw [hred]
    have hok : pOkB c req i = true := by
      unfold pOkB _ocf_engine_check_map_entry
      rw [if_pos hmiss]
      simp
    refine ⟨rfl, sameSkeleton_refl req, fun j => ⟨rfl, rfl, rfl⟩,
      fun j hj => rfl, ?_, ?_⟩
    · rw [hok]
      simp
    · intro hns
      exact absurd hmiss hns
  · by_cases hchk : _ocf_engine_check_map_entry c (req.map.getD i defEntry)
        req.core_id ≠ 0
    · have hred : checkStep c (res, req) i =
          (-1, { req with map := (req.map.set i
            { req.map.getD i defEntry with invalid := true }) }) := by
        unfold checkStep
        rw [if_neg hmiss, if_pos hchk]
      rw [hred]
      have hf := hfields { req.map.getD i defEntry with invalid := true }
        { req with map := (req.map.set i
          { req.map.getD i defEntry with invalid := true }) } rfl rfl rfl rfl
      have hok : pOkB c { req with map := (req.map.set i
          { req.map.getD i defEntry with invalid := true }) } i = false := by
        unfold pOkB
        have he : ({ req with map := (req.map.set i
            { req.map.getD i defEntry with invalid := true }) }).map.getD i
            defEntry = { req.map.getD i defEntry with invalid := true } := by
          simp only []
          rw [getD_set_self _ _ _ _ hlt]
        rw [he]
        have : _ocf_engine_check_map_entry c
            { req.map.getD i defEntry with invalid := true } req.core_id =
            _ocf_engine_check_map_entry c (req.map.getD i defEntry)
              req.core_id := by
          unfold _ocf_engine_check_map_entry
          rfl
        rw [this]
        exact decide_eq_false hchk
      refine ⟨by simp [List.length_set], by simp [sameSkeleton], hf, ?_, ?_, ?_⟩
      · intro j hj
        simp only []
        rw [getD_set_ne req.map _ defEntry (fun he => hj he.symm)]
      · rw [hok]
        simp
      · intro hns
        rw [hok]
        unfold invalidAt
        simp only []
        rw [getD_set_self _ _ _ _ hlt]
        rfl
    · have hred : checkStep c (res, req) i =
          (res, ocf_engine_update_req_info c
            { req with map := (req.map.set i
              { req.map.getD i defEntry with invalid := false }) } i) := by
        unfold checkStep
        rw [if_neg hmiss, if_neg hchk]
      rw [hred]
      have hf1 := hfields { req.map.getD i defEntry with invalid := false }
        { req with map := (req.map.set i
          { req.map.getD i defEntry with invalid := false }) } rfl rfl rfl rfl
      have hU := update_shape c { req with map := (req.map.set i
        { req.map.getD i defEntry with invalid := false }) } i
      have hUf := update_preserves_fields c { req with map := (req.map.set i
        { req.map.getD i defEntry with invalid := false }) } i
      have hcomp : ∀ j, statusAt (ocf_engine_update_req_info c
          { req with map := (req.map.set i
            { req.map.getD i defEntry with invalid := false }) } i) j =
          statusAt req j ∧
          collAt (ocf_engine_update_req_info c
          { req with map := (req.map.set i
            { req.map.getD i defEntry with invalid := false }) } i) j =
          collAt req j ∧
          coreLineAt (ocf_engine_update_req_info c
          { req with map := (req.map.set i
            { req.map.getD i defEntry with invalid := false }) } i) j =
          coreLineAt req j := by
        intro j
        refine ⟨(hU.2.1 j).1.trans (hf1 j).1, (hU.2.1 j).2.trans (hf1 j).2.1,
          (hUf j).1.trans (hf1 j).2.2⟩
      have hok : pOkB c (ocf_engine_update_req_info c
          { req with map := (req.map.set i
            { req.map.getD i defEntry with invalid := false }) } i) i =
          true := by
        have hcid : (ocf_engine_update_req_info c { req with map := (req.map.set i
            { req.map.getD i defEntry with invalid := false }) } i).core_id =
            req.core_id := (update_skel c _ i).1
        have := @pOkB_congr c (ocf_engine_update_req_info c { req with
            map := (req.map.set i
              { req.map.getD i defEntry with invalid := false }) } i) req i
          (hcomp i).1 (hcomp i).2.1 (hcomp i).2.2 hcid
        rw [this]
        unfold pOkB
        simp only [Decidable.not_not] at hchk
        exact decide_eq_true hchk
      refine ⟨?_, ?_, hcomp, ?_, ?_, ?_⟩
      · rw [hU.1]
        simp [List.length_set]
      · refine sameSkeleton_trans (update_skel c _ i) (by simp [sameSkeleton])
      · intro j hj
        rw [hU.2.2.1 j hj]
        simp only []
        rw [getD_set_ne req.map _ defEntry (fun he => hj he.symm)]
      · rw [hok]
        simp
      · intro hns
        rw [hok]
        change invalidAt (ocf_engine_update_req_info c { req with
          map := (req.map.set i
            { req.map.getD i defEntry with invalid := false }) } i) i = !true
        rw [(update_preserves_fields c { req with
          map := (req.map.set i
            { req.map.getD i defEntry with invalid := false }) } i i).2]
        unfold invalidAt
        simp only []
        rw [getD_set_self _ _ _ _ hlt]
        rfl

/-- Master invariant of the check loop: the remaining iterations keep the
map length, the request skeleton and every status, collision index and core
line, touch no entry outside the processed window, produce result -1 iff
some window entry fails the metadata re-check, and set the invalid flag of
each non-MISS window entry to the negated verdict. -/
theorem checkFrom_master (c : Cache) :
    ∀ (rem i : Nat) (res : Int) (req : Req), i + rem ≤ req.map.length →
      (checkFrom c rem i (res, req)).2.map.length = req.map.length ∧
      sameSkeleton (checkFrom c rem i (res, req)).2 req ∧
      (∀ j, statusAt (checkFrom c rem i (res, req)).2 j = statusAt req j ∧
        collAt (checkFrom c rem i (res, req)).2 j = collAt req j ∧
        coreLineAt (checkFrom c rem i (res, req)).2 j = coreLineAt req j) ∧
      (∀ j, j < i ∨ i + rem ≤ j →
        (checkFrom c rem i (res, req)).2.map.getD j defEntry =
          req.map.getD j defEntry) ∧
      (checkFrom c rem i (res, req)).1 =
        (if (idxs i rem).all (pOkB c req) then res else -1) ∧
      (∀ j, i ≤ j → j < i + rem → statusAt req j ≠ .MISS →
        invalidAt (checkFrom c rem i (res, req)).2 j = !(pOkB c req j)) := by
  intro rem
  induction rem with
  | zero =>
    intro i res req hle
    refine ⟨rfl, sameSkeleton_refl req, fun j => ⟨rfl, rfl, rfl⟩,
      fun j hj => rfl, by simp [checkFrom, idxs], ?_⟩
    intro j hj1 hj2
    exact absurd (Nat.lt_of_le_of_lt hj1 hj2) (by omega)
  | succ rem ih =>
    intro i res req hle
    have hlt : i < req.map.length := by omega
    have hS := checkStep_props c res req i hlt
    rcases hstep : checkStep c (res, req) i with ⟨res1, req1⟩
    rw [hstep] at hS
    dsimp only at hS
    have hred : checkFrom c (rem + 1) i (res, req) =
        checkFrom c rem (i + 1) (res1, req1) := by
      show checkFrom c rem (i + 1) (checkStep c (res, req) i) = _
      rw [hstep]
    rw [hred]
    have hle2 : (i + 1) + rem ≤ req1.map.length := by
      rw [hS.1]
      omega
    have hIH := ih (i + 1) res1 req1 hle2
    have hfun : pOkB c req1 = pOkB c req := by
      refine funext fun k => pOkB_congr c k ?_ ?_ ?_ ?_
      · exact (hS.2.2.1 k).1
      · exact (hS.2.2.1 k).2.1
      · exact (hS.2.2.1 k).2.2
      · exact hS.2.1.1
    refine ⟨hIH.1.trans hS.1, sameSkeleton_trans hIH.2.1 hS.2.1, ?_, ?_, ?_, ?_⟩
    · intro j
      exact ⟨(hIH.2.2.1 j).1.trans (hS.2.2.1 j).1,
        (hIH.2.2.1 j).2.1.trans (hS.2.2.1 j).2.1,
        (hIH.2.2.1 j).2.2.trans (hS.2.2.1 j).2.2⟩
    · intro j hj
      have h1 : (checkFrom c rem (i + 1) (res1, req1)).2.map.getD j defEntry =
          req1.map.getD j defEntry := by
        refine hIH.2.2.2.1 j ?_
        omega
      rw [h1]
      refine hS.2.2.2.1 j ?_
      omega
    · rw [hIH.2.2.2.2.1, hfun, hS.2.2.2.2.1, hfun]
      have hcons : idxs i (rem + 1) = i :: idxs (i + 1) rem := rfl
      rw [hcons, List.all_cons]
      cases hpi : pOkB c req i <;>
        cases har : (idxs (i + 1) rem).all (pOkB c req) <;> simp
    · intro j hj1 hj2 hns
      by_cases hji : j = i
      · subst hji
        have hinv : invalidAt (checkFrom c rem (j + 1) (res1, req1)).2 j =
            invalidAt req1 j := by
          unfold invalidAt
          rw [hIH.2.2.2.1 j (Or.inl (by omega))]
        rw [hinv, hS.2.2.2.2.2 hns, hfun]
      · have hns1 : statusAt req1 j ≠ .MISS := by
          rw [(hS.2.2.1 j).1]
          exact hns
        have := hIH.2.2.2.2.2 j (by omega) (by omega) hns1
        rw [this, hfun]

theorem skel_set_mapping_error (r : Req) :
    sameSkeleton (ocf_req_set_mapping_error r) r := by
  simp [sameSkeleton, ocf_req_set_mapping_error]

/-- One entry of the error-unwind walk: the info aggregate, the map length
and the skeleton survive, entries other than the processed one are
untouched, and the processed entry ends HIT or MISS. -/
theorem hndlErrorStep_props (acc : Cache × Req) (a : Nat) :
    (hndlErrorStep acc a).2.info = acc.2.info ∧
    (hndlErrorStep acc a).2.map.length = acc.2.map.length ∧
    sameSkeleton (hndlErrorStep acc a).2 acc.2 ∧
    (∀ j, j ≠ a → (hndlErrorStep acc a).2.map.getD j defEntry =
      acc.2.map.getD j defEntry) ∧
    (statusAt (hndlErrorStep acc a).2 a = .HIT ∨
      statusAt (hndlErrorStep acc a).2 a = .MISS) := by
  unfold hndlErrorStep
  dsimp only
  cases h : (acc.2.map.getD a defEntry).status <;> simp only [h] <;>
    try dsimp only
  case HIT =>
    refine ⟨by trivial, by trivial, sameSkeleton_refl _,
      fun j hj => by trivial, Or.inl ?_⟩
    unfold statusAt
    rw [h]
  case MISS =>
    refine ⟨by trivial, by trivial, sameSkeleton_refl _,
      fun j hj => by trivial, Or.inr ?_⟩
    unfold statusAt
    rw [h]
  all_goals
    refine ⟨by trivial, by simp, by simp [sameSkeleton],
      fun j hj => getD_set_ne _ _ _ (fun he => hj he.symm), Or.inr ?_⟩
  all_goals
    unfold statusAt
  all_goals
    by_cases hlt : a < acc.2.map.length
  · rw [getD_set_self _ _ _ _ hlt]
  · rw [List.set_eq_of_length_le (Nat.le_of_not_lt hlt)]
    show (acc.2.map.getD a defEntry).status = LookupStatus.MISS
    rw [getD_default_of_le _ defEntry (Nat.le_of_not_lt hlt)]
    rfl
  · rw [getD_set_self _ _ _ _ hlt]
  · rw [List.set_eq_of_length_le (Nat.le_of_not_lt hlt)]
    show (acc.2.map.getD a defEntry).status = LookupStatus.MISS
    rw [getD_default_of_le _ defEntry (Nat.le_of_not_lt hlt)]
    rfl

/-- The error-unwind fold: info, length and skeleton survive, indices
outside the walked list are untouched, and every walked index ends HIT or
MISS. -/
theorem hndl_fold_props : ∀ (l : List Nat) (acc : Cache × Req),
    (l.foldl hndlErrorStep acc).2.info = acc.2.info ∧
    (l.foldl hndlErrorStep acc).2.map.length = acc.2.map.length ∧
    sameSkeleton (l.foldl hndlErrorStep acc).2 acc.2 ∧
    (∀ j, j ∉ l → statusAt (l.foldl hndlErrorStep acc).2 j =
      statusAt acc.2 j) ∧
    (∀ j, j ∈ l → statusAt (l.foldl hndlErrorStep acc).2 j = .HIT ∨
      statusAt (l.foldl hndlErrorStep acc).2 j = .MISS) := by
  intro l
  induction l with
  | nil =>
    intro acc
    exact ⟨rfl, rfl, sameSkeleton_refl _, fun j hj => rfl,
      fun j hj => absurd hj (List.not_mem_nil j)⟩
  | cons a t ih =>
    intro acc
    have hS := hndlErrorStep_props acc a
    have hIH := ih (hndlErrorStep acc a)
    have hred : (a :: t).foldl hndlErrorStep acc =
        t.foldl hndlErrorStep (hndlErrorStep acc a) := rfl
    rw [hred]
    refine ⟨hIH.1.trans hS.1, hIH.2.1.trans hS.2.1,
      sameSkeleton_trans hIH.2.2.1 hS.2.2.1, ?_, ?_⟩
    · intro j hj
      have hja : j ≠ a := fun he => hj (he ▸ List.mem_cons_self a t)
      have hjt : j ∉ t := fun ht => hj (List.mem_cons_of_mem a ht)
      rw [hIH.2.2.2.1 j hjt]
      unfold statusAt
      rw [hS.2.2.2.1 j hja]
    · intro j hj
      by_cases hjt : j ∈ t
      · exact hIH.2.2.2.2 j hjt
      · have hja : j = a := by
          rcases List.mem_cons.mp hj with h | h
          · exact h
          · exact absurd h hjt
        subst hja
        rw [hIH.2.2.2.1 j hjt]
        exact hS.2.2.2.2

/-- ocf_engine_map_hndl_error: the info aggregate, the map length and the
skeleton survive, every entry of the request ends HIT or MISS, and entries
past the request are untouched. -/
theorem hndl_error_props (c : Cache) (req : Req) :
    (ocf_engine_map_hndl_error c req).2.info = req.info ∧
    (ocf_engine_map_hndl_error c req).2.map.length = req.map.length ∧
    sameSkeleton (ocf_engine_map_hndl_error c req).2 req ∧
    (∀ j, j < req.core_line_count →
      statusAt (ocf_engine_map_hndl_error c req).2 j = .HIT ∨
      statusAt (ocf_engine_map_hndl_error c req).2 j = .MISS) ∧
    (∀ j, req.core_line_count ≤ j →
      statusAt (ocf_engine_map_hndl_error c req).2 j = statusAt req j) := by
  have h := hndl_fold_props (List.range req.core_line_count) (c, req)
  refine ⟨h.1, h.2.1, h.2.2.1, ?_, ?_⟩
  · intro j hj
    exact h.2.2.2.2 j (List.mem_range.mpr hj)
  · intro j hj
    exact h.2.2.2.1 j (fun hm => absurd (List.mem_range.mp hm) (by omega))

/-- Counter deltas of the update stage on a HIT entry: the three mapped
counters gain exactly one, dirty_any gains at most one, and the dirty_all
gain is bounded by the dirty_any gain. -/
theorem update_counters_hit (c : Cache) (r : Req) (i : Nat)
    (h : statusAt r i = .HIT) :
    (ocf_engine_update_req_info c r i).info.hit_no +
      (ocf_engine_update_req_info c r i).info.invalid_no +
      (ocf_engine_update_req_info c r i).info.insert_no =
      r.info.hit_no + r.info.invalid_no + r.info.insert_no + 1 ∧
    r.info.dirty_any ≤ (ocf_engine_update_req_info c r i).info.dirty_any ∧
    (ocf_engine_update_req_info c r i).info.dirty_any ≤
      r.info.dirty_any + 1 ∧
    (ocf_engine_update_req_info c r i).info.dirty_all + r.info.dirty_any ≤
      r.info.dirty_all + (ocf_engine_update_req_info c r i).info.dirty_any := by
  have hu := update_after_switch c r i
  have hs := switch_hit c r i h
  rw [hu.2.1, hu.2.2.1, hu.2.2.2.1, hu.2.2.2.2.1, hu.2.2.2.2.2.1]
  rw [hs.1, hs.2.1, hs.2.2.1, hs.2.2.2.1, hs.2.2.2.2.2.2]
  refine ⟨?_, ?_, ?_, ?_⟩
  · split_ifs <;> omega
  · split_ifs <;> omega
  · split_ifs <;> omega
  · split_ifs with h1 h2 <;> try omega
    exact absurd h1.1 h2

/-- Counter deltas of the update stage on an INSERTED entry: only
insert_no is bumped. -/
theorem update_counters_inserted (c : Cache) (r : Req) (i : Nat)
    (h : statusAt r i = .INSERTED) :
    (ocf_engine_update_req_info c r i).info.hit_no = r.info.hit_no ∧
    (ocf_engine_update_req_info c r i).info.invalid_no =
      r.info.invalid_no ∧
    (ocf_engine_update_req_info c r i).info.insert_no =
      r.info.insert_no + 1 ∧
    (ocf_engine_update_req_info c r i).info.dirty_any =
      r.info.dirty_any ∧
    (ocf_engine_update_req_info c r i).info.dirty_all =
      r.info.dirty_all := by
  have hu := update_after_switch c r i
  have hs := switch_inserted c r i h
  rw [hu.2.1, hu.2.2.1, hu.2.2.2.1, hu.2.2.2.2.1, hu.2.2.2.2.2.1, hs]
  exact ⟨rfl, rfl, rfl, rfl, rfl⟩

theorem map_cache_line_none (c : Cache) (r : Req) (i : Nat)
    (hpop : ocf_freelist_get_cache_line c = none) :
    ocf_engine_map_cache_line c r i = (c, ocf_req_set_mapping_error r) := by
  unfold ocf_engine_map_cache_line
  rw [hpop]

theorem map_cache_line_some (c c2 : Cache) (r : Req) (i line : Nat)
    (hpop : ocf_freelist_get_cache_line c = some (line, c2)) :
    ocf_engine_map_cache_line c r i =
      ocf_map_cache_line (ocf_metadata_add_to_partition c2 r.part_id line)
        r i line := by
  unfold ocf_engine_map_cache_line
  rw [hpop]

/-- Unfolding of one mapping iteration on a HIT lookup. -/
theorem mapFrom_succ_hit (c : Cache) (rem i : Nat) (req : Req) (E : MapEntry)
    (hE : ocf_engine_lookup_map_entry c (req.map.getD i defEntry) req.core_id
      (req.core_line_first + i) = E)
    (hs : E.status = .HIT) :
    mapFrom c (rem + 1) i req =
      mapFrom c rem (i + 1)
        (ocf_engine_update_req_info c
          { req with map := req.map.set i E } i) := by
  subst hE
  conv_lhs => unfold mapFrom
  dsimp only
  rw [if_neg (fun hne => hne hs)]

/-- Unfolding of one mapping iteration on a MISS lookup with an exhausted
free list: the error is latched and the unwind runs. -/
theorem mapFrom_succ_break (c : Cache) (rem i : Nat) (req : Req)
    (E : MapEntry)
    (hE : ocf_engine_lookup_map_entry c (req.map.getD i defEntry) req.core_id
      (req.core_line_first + i) = E)
    (hs : E.status = .MISS)
    (hpop : ocf_freelist_get_cache_line c = none) :
    mapFrom c (rem + 1) i req =
      ocf_engine_map_hndl_error c
        (ocf_req_set_mapping_error { req with map := req.map.set i E }) := by
  subst hE
  conv_lhs => unfold mapFrom
  dsimp only
  rw [if_pos (by rw [hs]; decide)]
  rw [map_cache_line_none c _ i hpop]
  dsimp only
  rw [if_pos (by rfl)]

/-- Unfolding of one mapping iteration on a MISS lookup with an available
free line: the line is taken, assigned and spliced, the entry becomes
INSERTED and is accounted. -/
theorem mapFrom_succ_insert (c c2 : Cache) (rem i line : Nat) (req : Req)
    (E : MapEntry)
    (hE : ocf_engine_lookup_map_entry c (req.map.getD i defEntry) req.core_id
      (req.core_line_first + i) = E)
    (hs : E.status = .MISS)
    (hpop : ocf_freelist_get_cache_line c = some (line, c2))
    (htest : req.info.mapping_error = false) :
    mapFrom c (rem + 1) i req =
      mapFrom
        (ocf_metadata_add_to_collision
          (ocf_metadata_add_to_partition c2 req.part_id line) req.core_id
          (req.core_line_first + i) ((req.map.set i E).getD i defEntry).hash
          line)
        rem (i + 1)
        (ocf_engine_update_req_info
          (ocf_metadata_add_to_collision
            (ocf_metadata_add_to_partition c2 req.part_id line) req.core_id
            (req.core_line_first + i) ((req.map.set i E).getD i defEntry).hash
            line)
          { req with map :=
            (((req.map.set i E).set i
              { (req.map.set i E).getD i defEntry with coll_idx := line }).set i
            { ((req.map.set i E).set i
                { (req.map.set i E).getD i defEntry with
                  coll_idx := line }).getD i defEntry with
              status := .INSERTED }) } i) := by
  subst hE
  conv_lhs => unfold mapFrom
  dsimp only
  rw [if_pos (by rw [hs]; decide)]
  rw [map_cache_line_some c c2 _ i line hpop]
  unfold ocf_map_cache_line
  dsimp only
  rw [if_neg (by
    intro h
    have h2 : req.info.mapping_error = true := h
    rw [htest] at h2
    exact Bool.noConfusion h2)]

/-- Facts of the accounting stage on a request that differs from a base
request only at one entry and not in its info: shape, skeleton,
off-entry stability, the status of the touched entry and the error
latch, all relative to the base request. -/
theorem step_compose (c : Cache) (req r : Req) (i : Nat)
    (hlenr : r.map.length = req.map.length)
    (hskelr : sameSkeleton r req)
    (hoff : ∀ j, j ≠ i → r.map.getD j defEntry = req.map.getD j defEntry)
    (hinfo : r.info = req.info) :
    (ocf_engine_update_req_info c r i).map.length = req.map.length ∧
    sameSkeleton (ocf_engine_update_req_info c r i) req ∧
    (∀ j, j ≠ i → (ocf_engine_update_req_info c r i).map.getD j defEntry =
      req.map.getD j defEntry) ∧
    statusAt (ocf_engine_update_req_info c r i) i = statusAt r i ∧
    (ocf_engine_update_req_info c r i).info.mapping_error =
      req.info.mapping_error := by
  have hu := update_shape c r i
  refine ⟨hu.1.trans hlenr, sameSkeleton_trans (update_skel c r i) hskelr,
    ?_, (hu.2.1 i).1, ?_⟩
  · intro j hj
    rw [hu.2.2.1 j hj]
    exact hoff j hj
  · rw [hu.2.2.2, hinfo]

/-- update_counters_inserted restated against a base request sharing the
info aggregate. -/
theorem update_counters_inserted_rel (c : Cache) (req r : Req) (i : Nat)
    (h : statusAt r i = .INSERTED) (hinfo : r.info = req.info) :
    (ocf_engine_update_req_info c r i).info.hit_no = req.info.hit_no ∧
    (ocf_engine_update_req_info c r i).info.invalid_no =
      req.info.invalid_no ∧
    (ocf_engine_update_req_info c r i).info.insert_no =
      req.info.insert_no + 1 ∧
    (ocf_engine_update_req_info c r i).info.dirty_any =
      req.info.dirty_any ∧
    (ocf_engine_update_req_info c r i).info.dirty_all =
      req.info.dirty_all := by
  have h2 := update_counters_inserted c r i h
  rw [hinfo] at h2
  exact h2

/-- Master invariant of the mapping loop: either the error latch is set
and every entry of the request ends HIT or MISS (the unwind ran), or the
loop mapped its whole window, leaving each window entry HIT or INSERTED,
growing the three mapped counters by exactly the window size, growing
dirty_any by at most the window size and dirty_all by at most the
dirty_any growth, with the error latch still clear. -/
theorem mapFrom_master :
    ∀ (rem : Nat) (c : Cache) (i : Nat) (req : Req),
      req.map.length = req.core_line_count →
      i + rem ≤ req.core_line_count →
      req.info.mapping_error = false →
      (((mapFrom c rem i req).2.info.mapping_error = true ∧
        sameSkeleton (mapFrom c rem i req).2 req ∧
        (mapFrom c rem i req).2.map.length = req.core_line_count ∧
        (∀ j, j < req.core_line_count →
          statusAt (mapFrom c rem i req).2 j = .HIT ∨
          statusAt (mapFrom c rem i req).2 j = .MISS)) ∨
       ((mapFrom c rem i req).2.map.length = req.core_line_count ∧
        sameSkeleton (mapFrom c rem i req).2 req ∧
        (∀ j, j < i → (mapFrom c rem i req).2.map.getD j defEntry =
          req.map.getD j defEntry) ∧
        (∀ j, i ≤ j → j < i + rem →
          statusAt (mapFrom c rem i req).2 j = .HIT ∨
          statusAt (mapFrom c rem i req).2 j = .INSERTED) ∧
        (mapFrom c rem i req).2.info.hit_no +
          (mapFrom c rem i req).2.info.invalid_no +
          (mapFrom c rem i req).2.info.insert_no =
          req.info.hit_no + req.info.invalid_no + req.info.insert_no + rem ∧
        (mapFrom c rem i req).2.info.dirty_any ≤
          req.info.dirty_any + rem ∧
        (mapFrom c rem i req).2.info.dirty_all + req.info.dirty_any ≤
          req.info.dirty_all + (mapFrom c rem i req).2.info.dirty_any ∧
        (mapFrom c rem i req).2.info.mapping_error = false)) := by
  intro rem
  induction rem with
  | zero =>
    intro c i req hlen hle hme
    right
    exact ⟨hlen, sameSkeleton_refl req, fun j hj => rfl,
      fun j hj1 hj2 => absurd (Nat.lt_of_le_of_lt hj1 hj2) (by omega),
      rfl, Nat.le_refl _, Nat.le_refl _, hme⟩
  | succ rem ih =>
    intro c i req hlen hle hme
    have hlt : i < req.map.length := by omega
    rcases lookup_entry_status c (req.map.getD i defEntry) req.core_id
      (req.core_line_first + i) with hs | hs
    · rw [mapFrom_succ_hit c rem i req _ rfl hs]
      have hstat1 : statusAt { req with map := (req.map.set i
          (ocf_engine_lookup_map_entry c (req.map.getD i defEntry)
            req.core_id (req.core_line_first + i))) } i =
          (ocf_engine_lookup_map_entry c (req.map.getD i defEntry)
            req.core_id (req.core_line_first + i)).status := by
        unfold statusAt
        dsimp only
        rw [getD_set_self _ _ _ _ hlt]
      have hS := step_compose c req { req with map := (req.map.set i
          (ocf_engine_lookup_map_entry c (req.map.getD i defEntry)
            req.core_id (req.core_line_first + i))) } i
        (by simp) (by simp [sameSkeleton])
        (fun j hj => by
          dsimp only
          rw [getD_set_ne _ _ _ (fun he => hj he.symm)]) rfl
      have hC := update_counters_hit c { req with map := (req.map.set i
          (ocf_engine_lookup_map_entry c (req.map.getD i defEntry)
            req.core_id (req.core_line_first + i))) } i (hstat1.trans hs)
      dsimp only at hC
      have hcnt : (ocf_engine_update_req_info c { req with map := (req.map.set i
          (ocf_engine_lookup_map_entry c
            (req.map.getD i defEntry) req.core_id
            (req.core_line_first + i))) } i).core_line_count =
          req.core_line_count := skel_count hS.2.1
      have hlen2 : (ocf_engine_update_req_info c { req with map := (req.map.set i
          (ocf_engine_lookup_map_entry c
            (req.map.getD i defEntry) req.core_id
            (req.core_line_first + i))) } i).map.length =
          (ocf_engine_update_req_info c { req with map := (req.map.set i
          (ocf_engine_lookup_map_entry c
            (req.map.getD i defEntry) req.core_id
            (req.core_line_first + i))) } i).core_line_count := by
        rw [hS.1, hcnt]
        exact hlen
      have hle2 : (i + 1) + rem ≤ (ocf_engine_update_req_info c { req with
          map := (req.map.set i
          (ocf_engine_lookup_map_entry c
            (req.map.getD i defEntry) req.core_id
            (req.core_line_first + i))) } i).core_line_count := by
        rw [hcnt]
        omega
      have hme2 : (ocf_engine_update_req_info c { req with map := (req.map.set i
          (ocf_engine_lookup_map_entry c
            (req.map.getD i defEntry) req.core_id
            (req.core_line_first + i))) } i).info.mapping_error = false := by
        rw [hS.2.2.2.2]
        exact hme
      have hIH := ih c (i + 1) (ocf_engine_update_req_info c { req with
          map := (req.map.set i
          (ocf_engine_lookup_map_entry c
            (req.map.getD i defEntry) req.core_id
            (req.core_line_first + i))) } i) hlen2 hle2 hme2
      rcases hIH with hL | hR
      · left
        refine ⟨hL.1, sameSkeleton_trans hL.2.1 hS.2.1, ?_, ?_⟩
        · rw [hL.2.2.1]
          exact hcnt
        · intro j hj
          exact hL.2.2.2 j (by rw [hcnt]; exact hj)
      · right
        refine ⟨by rw [hR.1]; exact hcnt,
          sameSkeleton_trans hR.2.1 hS.2.1, ?_, ?_, ?_, ?_, ?_,
          hR.2.2.2.2.2.2.2⟩
        · intro j hj
          rw [hR.2.2.1 j (by omega)]
          exact hS.2.2.1 j (by omega)
        · intro j hj1 hj2
          by_cases hji : j = i
          · subst hji
            have h1 : statusAt (mapFrom c rem (j + 1)
                (ocf_engine_update_req_info c { req with map :=
                  (req.map.set j
                  (ocf_engine_lookup_map_entry c
                    (req.map.getD j defEntry) req.core_id
                    (req.core_line_first + j))) } j)).2 j =
                statusAt (ocf_engine_update_req_info c { req with map :=
                  (req.map.set j
                  (ocf_engine_lookup_map_entry c
                    (req.map.getD j defEntry) req.core_id
                    (req.core_line_first + j))) } j) j := by
              unfold statusAt
              rw [hR.2.2.1 j (by omega)]
            rw [h1, hS.2.2.2.1, hstat1, hs]
            exact Or.inl rfl
          · exact hR.2.2.2.1 j (by omega) (by omega)
        · have e1 := hR.2.2.2.2.1
          have e2 := hC.1
          omega
        · have e3 := hR.2.2.2.2.2.1
          have e4 := hC.2.2.1
          omega
        · have e5 := hR.2.2.2.2.2.2.1
          have e6 := hC.2.2.2
          omega
    · cases hpop : ocf_freelist_get_cache_line c with
      | none =>
        rw [mapFrom_succ_break c rem i req _ rfl hs hpop]
        left
        have hH := hndl_error_props c (ocf_req_set_mapping_error
          { req with map := req.map.set i (ocf_engine_lookup_map_entry c
            (req.map.getD i defEntry) req.core_id
            (req.core_line_first + i)) })
        refine ⟨by rw [hH.1]; rfl, ?_, ?_, ?_⟩
        · exact sameSkeleton_trans hH.2.2.1
            (sameSkeleton_trans (skel_set_mapping_error _)
              (by simp [sameSkeleton]))
        · rw [hH.2.1]
          show (req.map.set i (ocf_engine_lookup_map_entry c
            (req.map.getD i defEntry) req.core_id
            (req.core_line_first + i))).length = req.core_line_count
          rw [List.length_set]
          exact hlen
        · intro j hj
          exact hH.2.2.2.1 j hj
      | some pr =>
        obtain ⟨line, c2⟩ := pr
        rw [mapFrom_succ_insert c c2 rem i line req _ rfl hs hpop hme]
        have hlt3 : i < (((req.map.set i (ocf_engine_lookup_map_entry c
            (req.map.getD i defEntry) req.core_id
            (req.core_line_first + i))).set i
            { (req.map.set i (ocf_engine_lookup_map_entry c
                (req.map.getD i defEntry) req.core_id
                (req.core_line_first + i))).getD i defEntry with
              coll_idx := line }) : List MapEntry).length := by
          simp only [List.length_set]
          exact hlt
        have hstat3 : statusAt { req with map :=
            (((req.map.set i (ocf_engine_lookup_map_entry c
              (req.map.getD i defEntry) req.core_id
              (req.core_line_first + i))).set i
              { (req.map.set i (ocf_engine_lookup_map_entry c
                  (req.map.getD i defEntry) req.core_id
                  (req.core_line_first + i))).getD i defEntry with
                coll_idx := line }).set i
            { ((req.map.set i (ocf_engine_lookup_map_entry c
                (req.map.getD i defEntry) req.core_id
                (req.core_line_first + i))).set i
                { (req.map.set i (ocf_engine_lookup_map_entry c
                    (req.map.getD i defEntry) req.core_id
                    (req.core_line_first + i))).getD i defEntry with
                  coll_idx := line }).getD i defEntry with
              status := .INSERTED }) } i = .INSERTED := by
          unfold statusAt
          dsimp only
          rw [getD_set_self _ _ _ _ hlt3]
        have hS := step_compose
          (ocf_metadata_add_to_collision
            (ocf_metadata_add_to_partition c2 req.part_id line) req.core_id
            (req.core_line_first + i)
            ((req.map.set i (ocf_engine_lookup_map_entry c
              (req.map.getD i defEntry) req.core_id
              (req.core_line_first + i))).getD i defEntry).hash line)
          req { req with map :=
            (((req.map.set i (ocf_engine_lookup_map_entry c
              (req.map.getD i defEntry) req.core_id
              (req.core_line_first + i))).set i
              { (req.map.set i (ocf_engine_lookup_map_entry c
                  (req.map.getD i defEntry) req.core_id
                  (req.core_line_first + i))).getD i defEntry with
                coll_idx := line }).set i
            { ((req.map.set i (ocf_engine_lookup_map_entry c
                (req.map.getD i defEntry) req.core_id
                (req.core_line_first + i))).set i
                { (req.map.set i (ocf_engine_lookup_map_entry c
                    (req.map.getD i defEntry) req.core_id
                    (req.core_line_first + i))).getD i defEntry with
                  coll_idx := line }).getD i defEntry with
              status := .INSERTED }) } i
          (by simp) (by simp [sameSkeleton])
          (fun j hj => by
            dsimp only
            rw [getD_set_ne _ _ _ (fun he => hj he.symm),
              getD_set_ne _ _ _ (fun he => hj he.symm),
              getD_set_ne _ _ _ (fun he => hj he.symm)]) rfl
        have hC := update_counters_inserted_rel
          (ocf_metadata_add_to_collision
            (ocf_metadata_add_to_partition c2 req.part_id line) req.core_id
            (req.core_line_first + i)
            ((req.map.set i (ocf_engine_lookup_map_entry c
              (req.map.getD i defEntry) req.core_id
              (req.core_line_first + i))).getD i defEntry).hash line)
          req { req with map :=
            (((req.map.set i (ocf_engine_lookup_map_entry c
              (req.map.getD i defEntry) req.core_id
              (req.core_line_first + i))).set i
              { (req.map.set i (ocf_engine_lookup_map_entry c
                  (req.map.getD i defEntry) req.core_id
                  (req.core_line_first + i))).getD i defEntry with
                coll_idx := line }).set i
            { ((req.map.set i (ocf_engine_lookup_map_entry c
                (req.map.getD i defEntry) req.core_id
                (req.core_line_first + i))).set i
                { (req.map.set i (ocf_engine_lookup_map_entry c
                    (req.map.getD i defEntry) req.core_id
                    (req.core_line_first + i))).getD i defEntry with
                  coll_idx := line }).getD i defEntry with
              status := .INSERTED }) } i hstat3 rfl
        have hcnt := skel_count hS.2.1
        have hlen2 := hS.1.trans hlen
        rcases ih
          (ocf_metadata_add_to_collision
            (ocf_metadata_add_to_partition c2 req.part_id line) req.core_id
            (req.core_line_first + i)
            ((req.map.set i (ocf_engine_lookup_map_entry c
              (req.map.getD i defEntry) req.core_id
              (req.core_line_first + i))).getD i defEntry).hash line)
          (i + 1)
          (ocf_engine_update_req_info
            (ocf_metadata_add_to_collision
              (ocf_metadata_add_to_partition c2 req.part_id line) req.core_id
              (req.core_line_first + i)
              ((req.map.set i (ocf_engine_lookup_map_entry c
                (req.map.getD i defEntry) req.core_id
                (req.core_line_first + i))).getD i defEntry).hash line)
            { req with map :=
              (((req.map.set i (ocf_engine_lookup_map_entry c
                (req.map.getD i defEntry) req.core_id
                (req.core_line_first + i))).set i
                { (req.map.set i (ocf_engine_lookup_map_entry c
                    (req.map.getD i defEntry) req.core_id
                    (req.core_line_first + i))).getD i defEntry with
                  coll_idx := line }).set i
              { ((req.map.set i (ocf_engine_lookup_map_entry c
                  (req.map.getD i defEntry) req.core_id
                  (req.core_line_first + i))).set i
                  { (req.map.set i (ocf_engine_lookup_map_entry c
                      (req.map.getD i defEntry) req.core_id
                      (req.core_line_first + i))).getD i defEntry with
                    coll_idx := line }).getD i defEntry with
                status := .INSERTED }) } i)
          (by rw [hlen2, hcnt]) (by rw [hcnt]; omega)
          (by rw [hS.2.2.2.2]; exact hme) with hL | hR
        · left
          refine ⟨hL.1, sameSkeleton_trans hL.2.1 hS.2.1, ?_, ?_⟩
          · rw [hL.2.2.1]
            exact hcnt
          · intro j hj
            exact hL.2.2.2 j (by rw [hcnt]; exact hj)
        · right
          refine ⟨by rw [hR.1]; exact hcnt,
            sameSkeleton_trans hR.2.1 hS.2.1, ?_, ?_, ?_, ?_, ?_,
            hR.2.2.2.2.2.2.2⟩
          · intro j hj
            rw [hR.2.2.1 j (by omega)]
            exact hS.2.2.1 j (by omega)
          · intro j hj1 hj2
            by_cases hji : j = i
            · subst hji
              refine Or.inr ?_
              have h1 := hR.2.2.1 j (by omega)
              unfold statusAt
              rw [h1]
              have h2 := hS.2.2.2.1
              unfold statusAt at h2 hstat3
              rw [h2, hstat3]
            · exact hR.2.2.2.1 j (by omega) (by omega)
          · have e1 := hR.2.2.2.2.1
            have e2 := hC.1
            have e3 := hC.2.1
            have e4 := hC.2.2.1
            omega
          · have e3 := hR.2.2.2.2.2.1
            have e4 := hC.2.2.2.1
            omega
          · have e5 := hR.2.2.2.2.2.2.1
            have e6 := hC.2.2.2.1
            have e7 := hC.2.2.2.2
            omega

theorem countIf_false_eq_zero (p : Nat → Bool) (l : List Nat)
    (h : ∀ x ∈ l, p x = false) : countIf p l = 0 := by
  induction l with
  | nil => rfl
  | cons a t ih =>
    have ha := h a (List.mem_cons_self a t)
    have ht := ih (fun x hx => h x (List.mem_cons_of_mem a hx))
    unfold countIf
    rw [ha, ht]
    simp

/-- A fully mapped request skips the mapping loop. -/
theorem engine_map_noop (c : Cache) (req : Req)
    (h : ocf_engine_unmapped_count req = 0) :
    ocf_engine_map c req = (c, req) := by
  unfold ocf_engine_map
  rw [if_pos h]

/-- A successful ocf_engine_map preserves the counter-consistency
invariant: the three mapped counters plus the MISS count still partition
the request and the dirty counters stay ordered and bounded. -/
theorem engine_map_success_invariants (c : Cache) (req : Req)
    (hlen : req.map.length = req.core_line_count)
    (hsum : req.info.hit_no + req.info.invalid_no + req.info.insert_no +
      missCount req = req.core_line_count)
    (hda : req.info.dirty_all ≤ req.info.dirty_any)
    (hdb : req.info.dirty_any ≤ req.core_line_count)
    (hsucc : ocf_req_test_mapping_error (ocf_engine_map c req).2 = false) :
    (ocf_engine_map c req).2.info.hit_no +
      (ocf_engine_map c req).2.info.invalid_no +
      (ocf_engine_map c req).2.info.insert_no +
      missCount (ocf_engine_map c req).2 = req.core_line_count ∧
    (ocf_engine_map c req).2.info.dirty_all ≤
      (ocf_engine_map c req).2.info.dirty_any ∧
    (ocf_engine_map c req).2.info.dirty_any ≤ req.core_line_count := by
  unfold ocf_engine_map at hsucc ⊢
  by_cases h1 : ocf_engine_unmapped_count req = 0
  · rw [if_pos h1]
    exact ⟨hsum, hda, hdb⟩
  · rw [if_neg h1] at hsucc ⊢
    by_cases h2 : c.numFreeAdvisory < ocf_engine_unmapped_count req
    · rw [if_pos h2] at hsucc
      have hx : ocf_req_test_mapping_error
          (c, ocf_req_set_mapping_error req).2 = true := rfl
      rw [hx] at hsucc
      exact Bool.noConfusion hsucc
    · rw [if_neg h2] at hsucc ⊢
      have hM := mapFrom_master req.core_line_count c 0 (ocf_req_clear_info req)
        hlen (by show 0 + req.core_line_count ≤ req.core_line_count; omega) rfl
      rcases hM with hL | hR
      · have hx : (mapFrom c req.core_line_count 0
            (ocf_req_clear_info req)).2.info.mapping_error = false := hsucc
        rw [hL.1] at hx
        exact Bool.noConfusion hx
      · have e1 := hR.2.2.2.2.1
        have e2 := hR.2.2.2.2.2.1
        have e3 := hR.2.2.2.2.2.2.1
        have z1 : (ocf_req_clear_info req).info.hit_no = 0 := rfl
        have z2 : (ocf_req_clear_info req).info.invalid_no = 0 := rfl
        have z3 : (ocf_req_clear_info req).info.insert_no = 0 := rfl
        have z4 : (ocf_req_clear_info req).info.dirty_any = 0 := rfl
        have z5 : (ocf_req_clear_info req).info.dirty_all = 0 := rfl
        rw [z1, z2, z3] at e1
        rw [z4] at e2
        rw [z4, z5] at e3
        have hoc : (mapFrom c req.core_line_count 0
            (ocf_req_clear_info req)).2.core_line_count =
            req.core_line_count := skel_count hR.2.1
        have hmc : missCount (mapFrom c req.core_line_count 0
            (ocf_req_clear_info req)).2 = 0 := by
          unfold missCount
          apply countIf_false_eq_zero
          intro x hx
          have hxlt := (mem_idxs.mp hx).2
          rw [hoc] at hxlt
          rcases hR.2.2.2.1 x (Nat.zero_le x) (by omega) with h | h <;>
            simp [h]
        rw [hmc]
        refine ⟨by omega, by omega, by omega⟩

/-- When ocf_engine_map latches the mapping error on a request whose
entries were all HIT or MISS, every entry still ends HIT or MISS (either
nothing ran or the unwind reverted the partial work), with length and
skeleton preserved. -/
theorem engine_map_error_statuses (c : Cache) (req : Req)
    (hlen : req.map.length = req.core_line_count)
    (hstat : ∀ j, j < req.core_line_count →
      statusAt req j = .HIT ∨ statusAt req j = .MISS)
    (herr : ocf_req_test_mapping_error (ocf_engine_map c req).2 = true) :
    (∀ j, j < req.core_line_count →
      statusAt (ocf_engine_map c req).2 j = .HIT ∨
      statusAt (ocf_engine_map c req).2 j = .MISS) ∧
    (ocf_engine_map c req).2.map.length = req.core_line_count ∧
    sameSkeleton (ocf_engine_map c req).2 req := by
  unfold ocf_engine_map at herr ⊢
  by_cases h1 : ocf_engine_unmapped_count req = 0
  · rw [if_pos h1]
    exact ⟨hstat, hlen, sameSkeleton_refl req⟩
  · rw [if_neg h1] at herr ⊢
    by_cases h2 : c.numFreeAdvisory < ocf_engine_unmapped_count req
    · rw [if_pos h2]
      refine ⟨fun j hj => hstat j hj, hlen, skel_set_mapping_error req⟩
    · rw [if_neg h2] at herr ⊢
      have hM := mapFrom_master req.core_line_count c 0 (ocf_req_clear_info req)
        hlen (by show 0 + req.core_line_count ≤ req.core_line_count; omega) rfl
      rcases hM with hL | hR
      · refine ⟨fun j hj => hL.2.2.2 j hj, hL.2.2.1, ?_⟩
        exact sameSkeleton_trans hL.2.1 (by simp [sameSkeleton, ocf_req_clear_info])
      · have hx : (mapFrom c req.core_line_count 0
            (ocf_req_clear_info req)).2.info.mapping_error = true := herr
        rw [hR.2.2.2.2.2.2.2] at hx
        exact Bool.noConfusion hx

/-- ocf_engine_patch_req_info bumps insert_no, possibly seq_no, and
nothing else; the map is untouched. -/
theorem patch_rel_props (c : Cache) (req r : Req) (i : Nat)
    (hinfo : r.info = req.info) :
    (ocf_engine_patch_req_info c r i).map = r.map ∧
    sameSkeleton (ocf_engine_patch_req_info c r i) r ∧
    (ocf_engine_patch_req_info c r i).info.hit_no = req.info.hit_no ∧
    (ocf_engine_patch_req_info c r i).info.invalid_no =
      req.info.invalid_no ∧
    (ocf_engine_patch_req_info c r i).info.insert_no =
      req.info.insert_no + 1 ∧
    (ocf_engine_patch_req_info c r i).info.dirty_any =
      req.info.dirty_any ∧
    (ocf_engine_patch_req_info c r i).info.dirty_all =
      req.info.dirty_all ∧
    (ocf_engine_patch_req_info c r i).info.mapping_error =
      req.info.mapping_error := by
  rw [← hinfo]
  unfold ocf_engine_patch_req_info
  dsimp only
  split_ifs <;>
    exact ⟨rfl, by simp [sameSkeleton], rfl, rfl, rfl, rfl, rfl, rfl⟩

/-- C7: ocf_engine_check returns 0 iff every non-MISS entry of the request
still re-verifies against the collision index (the recorded coll_idx maps
to the entry's core_id and core_line), each checked entry's invalid flag
records the negated verdict, and the result is 0 or -1; _ocf_engine_refresh
then dispatches the io interface parked in priv by direction when the check
returns 0, and otherwise completes the request with -OCF_ERR_INVAL,
releases its cache-line locks and drops its reference. -/
theorem check_refresh_spec (c : Cache) (req : Req) (p : Nat)
    (hlen : req.map.length = req.core_line_count)
    (hp : req.priv = some p)
    (hrw : req.rw = OCF_READ ∨ req.rw = OCF_WRITE) :
    ((ocf_engine_check c req).1 = 0 ↔ ∀ j, j < req.core_line_count →
      _ocf_engine_check_map_entry c (req.map.getD j defEntry)
        req.core_id = 0) ∧
    ((ocf_engine_check c req).1 = 0 ∨ (ocf_engine_check c req).1 = -1) ∧
    (∀ j, j < req.core_line_count → statusAt req j ≠ .MISS →
      invalidAt (ocf_engine_check c req).2 j =
        !(decide (_ocf_engine_check_map_entry c (req.map.getD j defEntry)
          req.core_id = 0))) ∧
    ((ocf_engine_check c req).1 = 0 →
      (_ocf_engine_refresh c req).dispatched = some (p, req.rw) ∧
      (_ocf_engine_refresh c req).req.io_if = p ∧
      (_ocf_engine_refresh c req).req.priv = none ∧
      (_ocf_engine_refresh c req).completed = none ∧
      (_ocf_engine_refresh c req).unlocked = false ∧
      (_ocf_engine_refresh c req).refDropped = false) ∧
    ((ocf_engine_check c req).1 ≠ 0 →
      (_ocf_engine_refresh c req).dispatched = none ∧
      (_ocf_engine_refresh c req).completed = some (-OCF_ERR_INVAL) ∧
      (_ocf_engine_refresh c req).req.error = -OCF_ERR_INVAL ∧
      (_ocf_engine_refresh c req).unlocked = true ∧
      (_ocf_engine_refresh c req).refDropped = true) := by
  have hle : 0 + req.core_line_count ≤ (ocf_req_clear_info req).map.length := by
    have h1 : (ocf_req_clear_info req).map.length = req.map.length := rfl
    omega
  have hM := checkFrom_master c req.core_line_count 0 0
    (ocf_req_clear_info req) hle
  have hres : (ocf_engine_check c req).1 =
      (if (idxs 0 req.core_line_count).all (pOkB c (ocf_req_clear_info req))
        then (0 : Int) else -1) := hM.2.2.2.2.1
  have hpok : pOkB c (ocf_req_clear_info req) = pOkB c req := rfl
  rw [hpok] at hres
  have hall : (idxs 0 req.core_line_count).all (pOkB c req) = true ↔
      ∀ j, j < req.core_line_count →
        _ocf_engine_check_map_entry c (req.map.getD j defEntry)
          req.core_id = 0 := by
    rw [List.all_eq_true]
    constructor
    · intro h j hj
      have hmem : j ∈ idxs 0 req.core_line_count :=
        mem_idxs.mpr ⟨Nat.zero_le j, by omega⟩
      exact of_decide_eq_true (h j hmem)
    · intro h x hx
      have hxlt : x < req.core_line_count := by
        have := (mem_idxs.mp hx).2
        omega
      exact decide_eq_true (h x hxlt)
  have hskel := hM.2.1
  have hrw2 : (ocf_engine_check c req).2.rw = req.rw := hskel.2.2.2.2.1
  have hpriv2 : (ocf_engine_check c req).2.priv = req.priv :=
    hskel.2.2.2.2.2.2.2.2.1
  refine ⟨?_, ?_, ?_, ?_, ?_⟩
  · rw [hres]
    rcases Bool.eq_false_or_eq_true
      ((idxs 0 req.core_line_count).all (pOkB c req)) with h | h
    · rw [h, if_pos rfl]
      exact ⟨fun _ => hall.mp h, fun _ => rfl⟩
    · rw [h, if_neg (by decide)]
      refine ⟨fun habs => absurd habs (by decide), fun hf => ?_⟩
      rw [hall.mpr hf] at h
      exact absurd h (by decide)
  · rw [hres]
    rcases Bool.eq_false_or_eq_true
      ((idxs 0 req.core_line_count).all (pOkB c req)) with h | h
    · rw [h, if_pos rfl]
      exact Or.inl rfl
    · rw [h, if_neg (by decide)]
      exact Or.inr rfl
  · intro j hj hns
    exact hM.2.2.2.2.2 j (Nat.zero_le j) (by omega) hns
  · intro h0
    unfold _ocf_engine_refresh
    dsimp only
    rw [if_pos h0]
    have hcond : (ocf_engine_check c req).2.rw = OCF_READ ∨
        (ocf_engine_check c req).2.rw = OCF_WRITE := by
      rw [hrw2]
      exact hrw
    rw [if_pos hcond]
    rw [hpriv2, hp]
    refine ⟨?_, rfl, rfl, rfl, rfl, rfl⟩
    rw [hrw2]
    rfl
  · intro hne
    unfold _ocf_engine_refresh
    dsimp only
    rw [if_neg hne]
    exact ⟨rfl, rfl, rfl, rfl, rfl⟩

/-- Witness for check_refresh_spec: on cacheA with the parked two-line HIT
request reqW7, the check validates and the refresh dispatches the parked
interface 9 as a read. -/
theorem check_refresh_spec_witness :
    reqW7.map.length = reqW7.core_line_count ∧ reqW7.priv = some 9 ∧
    (reqW7.rw = OCF_READ ∨ reqW7.rw = OCF_WRITE) ∧
    (ocf_engine_check cacheA reqW7).1 = 0 ∧
    (_ocf_engine_refresh cacheA reqW7).dispatched = some (9, reqW7.rw) ∧
    (_ocf_engine_refresh cacheA reqW7).req.priv = none := by
  have h := check_refresh_spec cacheA reqW7 9 (by decide) rfl (Or.inl rfl)
  have h0 : (ocf_engine_check cacheA reqW7).1 = 0 := by decide
  exact ⟨by decide, rfl, Or.inl rfl, h0, (h.2.2.2.1 h0).1, (h.2.2.2.1 h0).2.2.1⟩

/-- Shape of the request component of evictRemapEntry: the entry is
re-pointed at the victim, marked REMAPPED and accounted by the patch. -/
theorem evictRemap_snd (c : Cache) (req : Req) (i v : Nat) :
    (evictRemapEntry c req i v).2 =
      ocf_engine_patch_req_info (evictRemapEntry c req i v).1
        { req with map :=
          ((req.map.set i { req.map.getD i defEntry with coll_idx := v }).set i
          { (req.map.set i { req.map.getD i defEntry with
              coll_idx := v }).getD i defEntry with
            status := .REMAPPED }) } i := rfl

/-- The part_evict flag decision changes neither map nor info nor the
line count. -/
theorem partFlagged_facts (c : Cache) (r : Req) :
    (partFlagged c r).map = r.map ∧
    (partFlagged c r).info = r.info ∧
    (partFlagged c r).core_line_count = r.core_line_count := by
  unfold partFlagged
  split_ifs <;> exact ⟨rfl, rfl, rfl⟩

/-- Master invariant of the eviction remap walk: with enough victims for
the MISS entries of the window, the walk keeps the map length and the
skeleton, leaves hit_no, invalid_no and the error latch alone, and bumps
insert_no by the number of MISS entries of the window. -/
theorem evictFrom_master :
    ∀ (rem : Nat) (c : Cache) (i : Nat) (victims : List Nat) (req : Req),
      req.map.length = req.core_line_count →
      i + rem ≤ req.core_line_count →
      countIf (fun j => decide (statusAt req j = .MISS)) (idxs i rem) ≤
        victims.length →
      (evictFrom c rem i victims req).2.map.length = req.core_line_count ∧
      sameSkeleton (evictFrom c rem i victims req).2 req ∧
      (evictFrom c rem i victims req).2.info.hit_no = req.info.hit_no ∧
      (evictFrom c rem i victims req).2.info.invalid_no =
        req.info.invalid_no ∧
      (evictFrom c rem i victims req).2.info.insert_no =
        req.info.insert_no +
        countIf (fun j => decide (statusAt req j = .MISS)) (idxs i rem) ∧
      (evictFrom c rem i victims req).2.info.mapping_error =
        req.info.mapping_error := by
  intro rem
  induction rem with
  | zero =>
    intro c i victims req hlen hle hc
    exact ⟨hlen, sameSkeleton_refl req, rfl, rfl, rfl, rfl⟩
  | succ rem ih =>
    intro c i victims req hlen hle hc
    have hlt : i < req.map.length := by omega
    have hcons : idxs i (rem + 1) = i :: idxs (i + 1) rem := rfl
    by_cases hmiss : (req.map.getD i defEntry).status = .MISS
    · have hpi : decide (statusAt req i = .MISS) = true :=
        decide_eq_true hmiss
      have hcnt1 : countIf (fun j => decide (statusAt req j = .MISS))
          (idxs i (rem + 1)) =
          1 + countIf (fun j => decide (statusAt req j = .MISS))
            (idxs (i + 1) rem) := by
        rw [hcons]
        have hstep : countIf (fun j => decide (statusAt req j = .MISS))
            (i :: idxs (i + 1) rem) =
            (if decide (statusAt req i = .MISS) then 1 else 0) +
            countIf (fun j => decide (statusAt req j = .MISS))
              (idxs (i + 1) rem) := rfl
        rw [hstep, hpi]
        simp
      cases victims with
      | nil =>
        exfalso
        rw [hcnt1] at hc
        simp at hc
      | cons v vs =>
        have hred : evictFrom c (rem + 1) i (v :: vs) req =
            evictFrom (evictRemapEntry c req i v).1 rem (i + 1) vs
              (evictRemapEntry c req i v).2 := by
          conv_lhs => unfold evictFrom
          rw [if_pos hmiss]
        rw [hred, evictRemap_snd c req i v]
        have hP := patch_rel_props (evictRemapEntry c req i v).1 req
          { req with map :=
            ((req.map.set i { req.map.getD i defEntry with
              coll_idx := v }).set i
            { (req.map.set i { req.map.getD i defEntry with
                coll_idx := v }).getD i defEntry with
              status := .REMAPPED }) } i rfl
        have hlenP : (ocf_engine_patch_req_info (evictRemapEntry c req i v).1
            { req with map :=
              ((req.map.set i { req.map.getD i defEntry with
                coll_idx := v }).set i
              { (req.map.set i { req.map.getD i defEntry with
                  coll_idx := v }).getD i defEntry with
                status := .REMAPPED }) } i).map.length =
            req.map.length := by
          rw [hP.1]
          simp
        have hskP : sameSkeleton (ocf_engine_patch_req_info
            (evictRemapEntry c req i v).1
            { req with map :=
              ((req.map.set i { req.map.getD i defEntry with
                coll_idx := v }).set i
              { (req.map.set i { req.map.getD i defEntry with
                  coll_idx := v }).getD i defEntry with
                status := .REMAPPED }) } i) req :=
          sameSkeleton_trans hP.2.1 (by simp [sameSkeleton])
        have hoffP : ∀ j, j ≠ i → (ocf_engine_patch_req_info
            (evictRemapEntry c req i v).1
            { req with map :=
              ((req.map.set i { req.map.getD i defEntry with
                coll_idx := v }).set i
              { (req.map.set i { req.map.getD i defEntry with
                  coll_idx := v }).getD i defEntry with
                status := .REMAPPED }) } i).map.getD j defEntry =
            req.map.getD j defEntry := by
          intro j hj
          rw [hP.1]
          dsimp only
          rw [getD_set_ne _ _ _ (fun he => hj he.symm),
            getD_set_ne _ _ _ (fun he => hj he.symm)]
        have hstatP : ∀ j, j ≠ i → statusAt (ocf_engine_patch_req_info
            (evictRemapEntry c req i v).1
            { req with map :=
              ((req.map.set i { req.map.getD i defEntry with
                coll_idx := v }).set i
              { (req.map.set i { req.map.getD i defEntry with
                  coll_idx := v }).getD i defEntry with
                status := .REMAPPED }) } i) j = statusAt req j := by
          intro j hj
          unfold statusAt
          rw [hoffP j hj]
        have hcongr : countIf (fun j => decide (statusAt
            (ocf_engine_patch_req_info (evictRemapEntry c req i v).1
            { req with map :=
              ((req.map.set i { req.map.getD i defEntry with
                coll_idx := v }).set i
              { (req.map.set i { req.map.getD i defEntry with
                  coll_idx := v }).getD i defEntry with
                status := .REMAPPED }) } i) j = .MISS))
            (idxs (i + 1) rem) =
            countIf (fun j => decide (statusAt req j = .MISS))
            (idxs (i + 1) rem) := by
          apply countIf_congr
          intro x hx
          have hxi : x ≠ i := by
            have := (mem_idxs.mp hx).1
            omega
          rw [hstatP x hxi]
        have hIH := ih (evictRemapEntry c req i v).1 (i + 1) vs
          (ocf_engine_patch_req_info (evictRemapEntry c req i v).1
            { req with map :=
              ((req.map.set i { req.map.getD i defEntry with
                coll_idx := v }).set i
              { (req.map.set i { req.map.getD i defEntry with
                  coll_idx := v }).getD i defEntry with
                status := .REMAPPED }) } i)
          (by rw [hlenP, hlen, skel_count hskP])
          (by rw [skel_count hskP]; omega)
          (by
            rw [hcongr]
            rw [hcnt1] at hc
            simp only [List.length_cons] at hc
            omega)
        refine ⟨hIH.1.trans (skel_count hskP),
          sameSkeleton_trans hIH.2.1 hskP,
          hIH.2.2.1.trans hP.2.2.1,
          hIH.2.2.2.1.trans hP.2.2.2.1, ?_,
          hIH.2.2.2.2.2.trans hP.2.2.2.2.2.2.2⟩
        rw [hIH.2.2.2.2.1, hcongr, hP.2.2.2.2.1, hcnt1]
        omega
    · have hred : evictFrom c (rem + 1) i victims req =
          evictFrom c rem (i + 1) victims req := by
        conv_lhs => unfold evictFrom
        rw [if_neg hmiss]
      have hpi : decide (statusAt req i = .MISS) = false :=
        decide_eq_false hmiss
      have hcnt1 : countIf (fun j => decide (statusAt req j = .MISS))
          (idxs i (rem + 1)) =
          countIf (fun j => decide (statusAt req j = .MISS))
            (idxs (i + 1) rem) := by
        rw [hcons]
        have hstep : countIf (fun j => decide (statusAt req j = .MISS))
            (i :: idxs (i + 1) rem) =
            (if decide (statusAt req i = .MISS) then 1 else 0) +
            countIf (fun j => decide (statusAt req j = .MISS))
              (idxs (i + 1) rem) := rfl
        rw [hstep, hpi]
        simp
      rw [hred]
      have hIH := ih c (i + 1) victims req hlen (by omega)
        (by rw [← hcnt1]; exact hc)
      refine ⟨hIH.1, hIH.2.1, hIH.2.2.1, hIH.2.2.2.1, ?_, hIH.2.2.2.2.2⟩
      rw [hIH.2.2.2.2.1, hcnt1]

/-- Unfolding of the eviction slow path when the victim supply cannot
cover the demand: the error is latched, exclusive access released. -/
theorem evictionPath_fail_eq (c : Cache) (R : Req) (lk : Locks) (mc : Bool)
    (hev : c.evictList.length <
      ocf_engine_unmapped_count (partFlagged c (ocf_engine_traverse c R))) :
    clinesEvictionPath c R lk mc =
      { cache := c
        req := ocf_req_set_mapping_error
          (partFlagged c (ocf_engine_traverse c R))
        locks := ocf_metadata_end_exclusive_access
          (ocf_metadata_start_exclusive_access lk)
        ret := -OCF_ERR_NO_LOCK
        mapCalled := mc
        lockCall := none } := by
  unfold partFlagged at hev
  unfold clinesEvictionPath space_managment_evict_do partFlagged
  dsimp only
  rw [if_pos hev]
  dsimp only
  rw [if_pos rfl]

/-- Unfolding of the eviction slow path when eviction succeeds and the
following map call is a fully-mapped no-op: the cache-line lock is taken
and its result returned. -/
theorem evictionPath_success_eq (c : Cache) (R : Req) (lk : Locks)
    (mc : Bool)
    (hev : ¬ (c.evictList.length <
      ocf_engine_unmapped_count (partFlagged c (ocf_engine_traverse c R))))
    (hzero : ocf_engine_unmapped_count
      (evictFrom c (partFlagged c (ocf_engine_traverse c R)).core_line_count
        0 (c.evictList.take (ocf_engine_unmapped_count
          (partFlagged c (ocf_engine_traverse c R))))
        (partFlagged c (ocf_engine_traverse c R))).2 = 0)
    (hmef : ocf_req_test_mapping_error
      (evictFrom c (partFlagged c (ocf_engine_traverse c R)).core_line_count
        0 (c.evictList.take (ocf_engine_unmapped_count
          (partFlagged c (ocf_engine_traverse c R))))
        (partFlagged c (ocf_engine_traverse c R))).2 = false) :
    clinesEvictionPath c R lk mc =
      { cache := (evictFrom c
          (partFlagged c (ocf_engine_traverse c R)).core_line_count
          0 (c.evictList.take (ocf_engine_unmapped_count
            (partFlagged c (ocf_engine_traverse c R))))
          (partFlagged c (ocf_engine_traverse c R))).1
        req := if (_lock_clines
            (evictFrom c
              (partFlagged c (ocf_engine_traverse c R)).core_line_count
              0 (c.evictList.take (ocf_engine_unmapped_count
                (partFlagged c (ocf_engine_traverse c R))))
              (partFlagged c (ocf_engine_traverse c R))).1
            (evictFrom c
              (partFlagged c (ocf_engine_traverse c R)).core_line_count
              0 (c.evictList.take (ocf_engine_unmapped_count
                (partFlagged c (ocf_engine_traverse c R))))
              (partFlagged c (ocf_engine_traverse c R))).2).res < 0
          then ocf_req_set_mapping_error
            (evictFrom c
              (partFlagged c (ocf_engine_traverse c R)).core_line_count
              0 (c.evictList.take (ocf_engine_unmapped_count
                (partFlagged c (ocf_engine_traverse c R))))
              (partFlagged c (ocf_engine_traverse c R))).2
          else (evictFrom c
              (partFlagged c (ocf_engine_traverse c R)).core_line_count
              0 (c.evictList.take (ocf_engine_unmapped_count
                (partFlagged c (ocf_engine_traverse c R))))
              (partFlagged c (ocf_engine_traverse c R))).2
        locks := ocf_metadata_end_exclusive_access
          (ocf_metadata_start_exclusive_access lk)
        ret := (_lock_clines
            (evictFrom c
              (partFlagged c (ocf_engine_traverse c R)).core_line_count
              0 (c.evictList.take (ocf_engine_unmapped_count
                (partFlagged c (ocf_engine_traverse c R))))
              (partFlagged c (ocf_engine_traverse c R))).1
            (evictFrom c
              (partFlagged c (ocf_engine_traverse c R)).core_line_count
              0 (c.evictList.take (ocf_engine_unmapped_count
                (partFlagged c (ocf_engine_traverse c R))))
              (partFlagged c (ocf_engine_traverse c R))).2).res
        mapCalled := true
        lockCall := some (_lock_clines
            (evictFrom c
              (partFlagged c (ocf_engine_traverse c R)).core_line_count
              0 (c.evictList.take (ocf_engine_unmapped_count
                (partFlagged c (ocf_engine_traverse c R))))
              (partFlagged c (ocf_engine_traverse c R))).1
            (evictFrom c
              (partFlagged c (ocf_engine_traverse c R)).core_line_count
              0 (c.evictList.take (ocf_engine_unmapped_count
                (partFlagged c (ocf_engine_traverse c R))))
              (partFlagged c (ocf_engine_traverse c R))).2) } := by
  unfold partFlagged at hev hzero hmef
  unfold clinesEvictionPath space_managment_evict_do partFlagged
  dsimp only
  rw [if_neg hev]
  dsimp only
  rw [if_neg (by decide : ¬ ((true : Bool) = false))]
  rw [engine_map_noop _ _ hzero]
  dsimp only
  rw [if_neg (fun h => Bool.noConfusion (hmef.symm.trans h))]

/-- The eviction slow path never leaves an INSERTED or REMAPPED entry
when it latches the mapping error, unless the cache-line lock call itself
failed: the fail branch latches on an untouched re-traversed request, and
in the success branch the re-map is a no-op so the error can only come
from the lock. -/
theorem eviction_path_unwind (c : Cache) (R : Req) (lk : Locks) (mc : Bool)
    (hlenR : R.map.length = R.core_line_count)
    (herr : (clinesEvictionPath c R lk mc).req.info.mapping_error = true)
    (hlock : ∀ lc, (clinesEvictionPath c R lk mc).lockCall = some lc →
      0 ≤ lc.res) :
    ∀ j, j < R.core_line_count →
      statusAt (clinesEvictionPath c R lk mc).req j ≠ .INSERTED ∧
      statusAt (clinesEvictionPath c R lk mc).req j ≠ .REMAPPED := by
  have htp := traverse_props c R hlenR
  have ts := traverse_sum c R hlenR
  have hft := partFlagged_facts c (ocf_engine_traverse c R)
  by_cases hev : c.evictList.length <
      ocf_engine_unmapped_count (partFlagged c (ocf_engine_traverse c R))
  · rw [evictionPath_fail_eq c R lk mc hev] at herr hlock ⊢
    dsimp only at herr hlock ⊢
    intro j hj
    have hstat : statusAt (ocf_req_set_mapping_error
        (partFlagged c (ocf_engine_traverse c R))) j =
        statusAt (ocf_engine_traverse c R) j := by
      show ((partFlagged c (ocf_engine_traverse c R)).map.getD j
        defEntry).status = _
      rw [hft.1]
      rfl
    rcases htp.2.2.1 j hj with h | h <;>
      exact ⟨fun habs =>
          LookupStatus.noConfusion ((hstat.trans h).symm.trans habs),
        fun habs =>
          LookupStatus.noConfusion ((hstat.trans h).symm.trans habs)⟩
  · have hFh : (partFlagged c (ocf_engine_traverse c R)).info.hit_no =
        (ocf_engine_traverse c R).info.hit_no :=
      congrArg ReqInfo.hit_no hft.2.1
    have hFi : (partFlagged c (ocf_engine_traverse c R)).info.invalid_no =
        (ocf_engine_traverse c R).info.invalid_no :=
      congrArg ReqInfo.invalid_no hft.2.1
    have hFs : (partFlagged c (ocf_engine_traverse c R)).info.insert_no =
        (ocf_engine_traverse c R).info.insert_no :=
      congrArg ReqInfo.insert_no hft.2.1
    have hFm : (partFlagged c
        (ocf_engine_traverse c R)).info.mapping_error =
        (ocf_engine_traverse c R).info.mapping_error :=
      congrArg ReqInfo.mapping_error hft.2.1
    have hTc : (ocf_engine_traverse c R).core_line_count =
        R.core_line_count := skel_count htp.2.1
    have hlenF : (partFlagged c (ocf_engine_traverse c R)).map.length =
        (partFlagged c (ocf_engine_traverse c R)).core_line_count := by
      rw [hft.1, hft.2.2, htp.1, hTc]
    have hmissF : countIf (fun j => decide (statusAt
        (partFlagged c (ocf_engine_traverse c R)) j = .MISS))
        (idxs 0 (partFlagged c (ocf_engine_traverse c R)).core_line_count) =
        missCount (ocf_engine_traverse c R) := by
      unfold missCount
      rw [hft.2.2]
      apply countIf_congr
      intro x hx
      have hsx : statusAt (partFlagged c (ocf_engine_traverse c R)) x =
          statusAt (ocf_engine_traverse c R) x := by
        unfold statusAt
        rw [hft.1]
      rw [hsx]
    have hcntF : ocf_engine_unmapped_count
        (partFlagged c (ocf_engine_traverse c R)) =
        missCount (ocf_engine_traverse c R) := by
      unfold ocf_engine_unmapped_count ocf_engine_mapped_count
      rw [hFh, hFi, hFs, hft.2.2]
      have e1 := ts.2.1
      omega
    have hvic : (c.evictList.take (ocf_engine_unmapped_count
        (partFlagged c (ocf_engine_traverse c R)))).length =
        ocf_engine_unmapped_count
          (partFlagged c (ocf_engine_traverse c R)) := by
      rw [List.length_take]
      omega
    have hEM := evictFrom_master
      (partFlagged c (ocf_engine_traverse c R)).core_line_count c 0
      (c.evictList.take (ocf_engine_unmapped_count
        (partFlagged c (ocf_engine_traverse c R))))
      (partFlagged c (ocf_engine_traverse c R)) hlenF (by omega)
      (by rw [hvic, hmissF, hcntF])
    have hzero : ocf_engine_unmapped_count
        (evictFrom c
          (partFlagged c (ocf_engine_traverse c R)).core_line_count 0
          (c.evictList.take (ocf_engine_unmapped_count
            (partFlagged c (ocf_engine_traverse c R))))
          (partFlagged c (ocf_engine_traverse c R))).2 = 0 := by
      have e1 := hEM.2.2.1
      have e2 := hEM.2.2.2.1
      have e3 := hEM.2.2.2.2.1
      have e4 := skel_count hEM.2.1
      have e5 := ts.2.1
      have e6 := hft.2.2
      have e7 := hTc
      have e8 := hmissF
      show (evictFrom c
          (partFlagged c (ocf_engine_traverse c R)).core_line_count 0
          (c.evictList.take (ocf_engine_unmapped_count
            (partFlagged c (ocf_engine_traverse c R))))
          (partFlagged c (ocf_engine_traverse c R))).2.core_line_count -
        ((evictFrom c
          (partFlagged c (ocf_engine_traverse c R)).core_line_count 0
          (c.evictList.take (ocf_engine_unmapped_count
            (partFlagged c (ocf_engine_traverse c R))))
          (partFlagged c (ocf_engine_traverse c R))).2.info.hit_no +
        (evictFrom c
          (partFlagged c (ocf_engine_traverse c R)).core_line_count 0
          (c.evictList.take (ocf_engine_unmapped_count
            (partFlagged c (ocf_engine_traverse c R))))
          (partFlagged c (ocf_engine_traverse c R))).2.info.invalid_no +
        (evictFrom c
          (partFlagged c (ocf_engine_traverse c R)).core_line_count 0
          (c.evictList.take (ocf_engine_unmapped_count
            (partFlagged c (ocf_engine_traverse c R))))
          (partFlagged c (ocf_engine_traverse c R))).2.info.insert_no) = 0
      omega
    have hmef : ocf_req_test_mapping_error
        (evictFrom c
          (partFlagged c (ocf_engine_traverse c R)).core_line_count 0
          (c.evictList.take (ocf_engine_unmapped_count
            (partFlagged c (ocf_engine_traverse c R))))
          (partFlagged c (ocf_engine_traverse c R))).2 = false := by
      show (evictFrom c
          (partFlagged c (ocf_engine_traverse c R)).core_line_count 0
          (c.evictList.take (ocf_engine_unmapped_count
            (partFlagged c (ocf_engine_traverse c R))))
          (partFlagged c (ocf_engine_traverse c R))).2.info.mapping_error
          = false
      rw [hEM.2.2.2.2.2, hFm, htp.2.2.2.2.2.2.2.2.2]
    rw [evictionPath_success_eq c R lk mc hev hzero hmef] at herr hlock ⊢
    dsimp only at herr hlock ⊢
    exfalso
    have hlc := hlock (_lock_clines
      (evictFrom c
        (partFlagged c (ocf_engine_traverse c R)).core_line_count 0
        (c.evictList.take (ocf_engine_unmapped_count
          (partFlagged c (ocf_engine_traverse c R))))
        (partFlagged c (ocf_engine_traverse c R))).1
      (evictFrom c
        (partFlagged c (ocf_engine_traverse c R)).core_line_count 0
        (c.evictList.take (ocf_engine_unmapped_count
          (partFlagged c (ocf_engine_traverse c R))))
        (partFlagged c (ocf_engine_traverse c R))).2) rfl
    have hneg : ¬ ((_lock_clines
        (evictFrom c
          (partFlagged c (ocf_engine_traverse c R)).core_line_count 0
          (c.evictList.take (ocf_engine_unmapped_count
            (partFlagged c (ocf_engine_traverse c R))))
          (partFlagged c (ocf_engine_traverse c R))).1
        (evictFrom c
          (partFlagged c (ocf_engine_traverse c R)).core_line_count 0
          (c.evictList.take (ocf_engine_unmapped_count
            (partFlagged c (ocf_engine_traverse c R))))
          (partFlagged c (ocf_engine_traverse c R))).2).res < 0) := by
      omega
    rw [if_neg hneg] at herr
    have hx : (evictFrom c
        (partFlagged c (ocf_engine_traverse c R)).core_line_count 0
        (c.evictList.take (ocf_engine_unmapped_count
          (partFlagged c (ocf_engine_traverse c R))))
        (partFlagged c (ocf_engine_traverse c R))).2.info.mapping_error
        = false := hmef
    rw [herr] at hx
    exact Bool.noConfusion hx

/-- ocf_prepare_clines_miss never leaves an INSERTED or REMAPPED entry
when it latches the mapping error, unless the cache-line lock call itself
returned a negative status. -/
theorem prepare_clines_miss_unwind (c : Cache) (T : Req) (lk : Locks)
    (hlenT : T.map.length = T.core_line_count)
    (hstatT : ∀ j, j < T.core_line_count →
      statusAt T j = .HIT ∨ statusAt T j = .MISS)
    (herr : (ocf_prepare_clines_miss c T lk).req.info.mapping_error = true)
    (hlock : ∀ lc, (ocf_prepare_clines_miss c T lk).lockCall = some lc →
      0 ≤ lc.res) :
    ∀ j, j < T.core_line_count →
      statusAt (ocf_prepare_clines_miss c T lk).req j ≠ .INSERTED ∧
      statusAt (ocf_prepare_clines_miss c T lk).req j ≠ .REMAPPED := by
  unfold ocf_prepare_clines_miss at herr hlock ⊢
  by_cases h1 : ¬ c.partEnabled T.part_id
  · rw [if_pos h1] at herr hlock ⊢
    dsimp only at herr hlock ⊢
    intro j hj
    have hstat : statusAt (ocf_req_set_mapping_error T) j =
        statusAt T j := rfl
    rcases hstatT j hj with h | h <;>
      exact ⟨fun habs =>
          LookupStatus.noConfusion ((hstat.trans h).symm.trans habs),
        fun habs =>
          LookupStatus.noConfusion ((hstat.trans h).symm.trans habs)⟩
  · rw [if_neg h1] at herr hlock ⊢
    by_cases h2 : ¬ ocf_part_has_space c T
    · rw [if_pos h2] at herr hlock ⊢
      exact eviction_path_unwind c T (ocf_hb_req_prot_unlock_rd lk) false
        hlenT herr hlock
    · rw [if_neg h2] at herr hlock ⊢
      dsimp only at herr hlock ⊢
      by_cases h3 : ¬ ocf_req_test_mapping_error (ocf_engine_map c T).2
      · rw [if_pos h3] at herr hlock ⊢
        dsimp only at herr hlock ⊢
        have hlc := hlock (_lock_clines (ocf_engine_map c T).1
          (ocf_engine_map c T).2) rfl
        have hneg : ¬ ((_lock_clines (ocf_engine_map c T).1
            (ocf_engine_map c T).2).res < 0) := by omega
        rw [if_neg hneg] at herr
        exfalso
        exact h3 herr
      · rw [if_neg h3] at herr hlock ⊢
        have h3x : ocf_req_test_mapping_error (ocf_engine_map c T).2 =
            true := by
          rcases Bool.eq_false_or_eq_true
            (ocf_req_test_mapping_error (ocf_engine_map c T).2) with h | h
          · exact h
          · exact absurd (fun hh => Bool.noConfusion (h.symm.trans hh)) h3
        have hem := engine_map_error_statuses c T hlenT hstatT h3x
        intro j hj
        exact eviction_path_unwind (ocf_engine_map c T).1
          (ocf_engine_map c T).2
          (ocf_hb_req_prot_unlock_wr (ocf_hb_req_prot_lock_upgrade lk)) true
          (by rw [hem.2.1, skel_count hem.2.2]) herr hlock j
          (by rw [skel_count hem.2.2]; exact hj)

/-- C1 (amended): if ocf_engine_prepare_clines returns with the mapping
error latched and the failure did not come from a negative cache-line
lock result, then no entry of the request is INSERTED or REMAPPED: the
free-list-exhaustion and eviction-failure paths unwind all partial work
to MISS.  (The cache-line lock-failure path, excluded here, latches the
error while leaving the freshly mapped INSERTED/REMAPPED entries in
place: see the counterexample.) -/
theorem prepare_clines_unwind (c : Cache) (req : Req) (lk : Locks)
    (hlen : req.map.length = req.core_line_count)
    (herr : (ocf_engine_prepare_clines c req lk).req.info.mapping_error =
      true)
    (hlock : ∀ lc, (ocf_engine_prepare_clines c req lk).lockCall = some lc →
      0 ≤ lc.res) :
    ∀ j, j < req.core_line_count →
      statusAt (ocf_engine_prepare_clines c req lk).req j ≠ .INSERTED ∧
      statusAt (ocf_engine_prepare_clines c req lk).req j ≠ .REMAPPED := by
  have htp := traverse_props c req hlen
  unfold ocf_engine_prepare_clines at herr hlock ⊢
  dsimp only at herr hlock ⊢
  by_cases h1 : ocf_engine_is_mapped (ocf_engine_traverse c req)
  · rw [if_pos h1] at herr ⊢
    dsimp only at herr
    exfalso
    rw [htp.2.2.2.2.2.2.2.2.2] at herr
    exact Bool.noConfusion herr
  · rw [if_neg h1] at herr hlock ⊢
    by_cases h2 : ¬ c.promote
    · rw [if_pos h2] at herr ⊢
      dsimp only at herr ⊢
      intro j hj
      have hstat : statusAt (ocf_req_set_mapping_error
          (ocf_engine_traverse c req)) j =
          statusAt (ocf_engine_traverse c req) j := rfl
      rcases htp.2.2.1 j hj with h | h <;>
        exact ⟨fun habs =>
            LookupStatus.noConfusion ((hstat.trans h).symm.trans habs),
          fun habs =>
            LookupStatus.noConfusion ((hstat.trans h).symm.trans habs)⟩
    · rw [if_neg h2] at herr hlock ⊢
      dsimp only at herr hlock ⊢
      intro j hj
      have hlenT : (ocf_engine_traverse c req).map.length =
          (ocf_engine_traverse c req).core_line_count := by
        rw [htp.1, skel_count htp.2.1]
      have hstatT : ∀ k, k < (ocf_engine_traverse c req).core_line_count →
          statusAt (ocf_engine_traverse c req) k = .HIT ∨
          statusAt (ocf_engine_traverse c req) k = .MISS := by
        intro k hk
        rw [skel_count htp.2.1] at hk
        exact htp.2.2.1 k hk
      exact prepare_clines_miss_unwind c (ocf_engine_traverse c req)
        (ocf_hb_req_prot_lock_rd lk) hlenT hstatT herr hlock j
        (by rw [skel_count htp.2.1]; exact hj)

/-- Counterexample to the literal claim: on cacheB the one-line miss maps
successfully (entry INSERTED), then the asynchronous write lock fails
with -12; ocf_prepare_clines_miss latches the mapping error and returns
-12 while the entry is still INSERTED: the error path of a cache-line
lock failure does not unwind the mapping. -/
theorem prepare_clines_unwind_cex :
    (ocf_engine_prepare_clines cacheB reqB locksFree).req.info.mapping_error
      = true ∧
    statusAt (ocf_engine_prepare_clines cacheB reqB locksFree).req 0 =
      .INSERTED ∧
    (ocf_engine_prepare_clines cacheB reqB locksFree).ret = -12 ∧
    (ocf_engine_prepare_clines cacheB reqB locksFree).lockCall =
      some { mode := .write, resume := some 77, res := -12 } := by
  decide

/-- Witness for prepare_clines_unwind: on cacheG promotion is refused,
the mapping error is latched with no lock call made, and the sole entry
is neither INSERTED nor REMAPPED. -/
theorem prepare_clines_unwind_witness :
    reqB.map.length = reqB.core_line_count ∧
    (ocf_engine_prepare_clines cacheG reqB locksFree).req.info.mapping_error
      = true ∧
    (ocf_engine_prepare_clines cacheG reqB locksFree).lockCall = none ∧
    (statusAt (ocf_engine_prepare_clines cacheG reqB locksFree).req 0 ≠
      .INSERTED ∧
     statusAt (ocf_engine_prepare_clines cacheG reqB locksFree).req 0 ≠
      .REMAPPED) := by
  have hnone : (ocf_engine_prepare_clines cacheG reqB locksFree).lockCall =
      none := by decide
  have hlk : ∀ lc, (ocf_engine_prepare_clines cacheG reqB
      locksFree).lockCall = some lc → 0 ≤ lc.res := by
    intro lc h
    rw [hnone] at h
    exact Option.noConfusion h
  exact ⟨by decide, by decide, hnone,
    prepare_clines_unwind cacheG reqB locksFree (by decide) (by decide)
      hlk 0 (by decide)⟩

/-- C5: after ocf_engine_traverse the info aggregate satisfies
hit_no + invalid_no + insert_no + (number of MISS entries) =
core_line_count with dirty_all ≤ dirty_any ≤ core_line_count, and a
successful ocf_engine_map (returning with no mapping error) preserves
this counter-consistency invariant. -/
theorem traverse_map_counter_invariants (c : Cache) (req : Req)
    (hlen : req.map.length = req.core_line_count) :
    ((ocf_engine_traverse c req).info.hit_no +
      (ocf_engine_traverse c req).info.invalid_no +
      (ocf_engine_traverse c req).info.insert_no +
      missCount (ocf_engine_traverse c req) = req.core_line_count ∧
     (ocf_engine_traverse c req).info.dirty_all ≤
      (ocf_engine_traverse c req).info.dirty_any ∧
     (ocf_engine_traverse c req).info.dirty_any ≤ req.core_line_count) ∧
    (req.info.hit_no + req.info.invalid_no + req.info.insert_no +
        missCount req = req.core_line_count →
      req.info.dirty_all ≤ req.info.dirty_any →
      req.info.dirty_any ≤ req.core_line_count →
      ocf_req_test_mapping_error (ocf_engine_map c req).2 = false →
      ((ocf_engine_map c req).2.info.hit_no +
        (ocf_engine_map c req).2.info.invalid_no +
        (ocf_engine_map c req).2.info.insert_no +
        missCount (ocf_engine_map c req).2 = req.core_line_count ∧
       (ocf_engine_map c req).2.info.dirty_all ≤
        (ocf_engine_map c req).2.info.dirty_any ∧
       (ocf_engine_map c req).2.info.dirty_any ≤ req.core_line_count)) := by
  constructor
  · have t := traverse_sum c req hlen
    exact ⟨t.2.1, t.2.2.1, t.2.2.2⟩
  · intro h1 h2 h3 h4
    exact engine_map_success_invariants c req hlen h1 h2 h3 h4

/-- Witness for traverse_map_counter_invariants: the two-line request on
cacheA traverses to two hits and maps without error, keeping the counter
partition. -/
theorem traverse_map_counter_invariants_witness :
    reqA.map.length = reqA.core_line_count ∧
    (ocf_engine_traverse cacheA reqA).info.hit_no +
      (ocf_engine_traverse cacheA reqA).info.invalid_no +
      (ocf_engine_traverse cacheA reqA).info.insert_no +
      missCount (ocf_engine_traverse cacheA reqA) = reqA.core_line_count ∧
    (ocf_engine_map cacheA reqA).2.info.hit_no +
      (ocf_engine_map cacheA reqA).2.info.invalid_no +
      (ocf_engine_map cacheA reqA).2.info.insert_no +
      missCount (ocf_engine_map cacheA reqA).2 = reqA.core_line_count := by
  have h := traverse_map_counter_invariants cacheA reqA (by decide)
  exact ⟨by decide, h.1.1,
    (h.2 (by decide) (by decide) (by decide) (by decide)).1⟩

end OcfEngineCommon
